import Mathlib

/-!
Verification development for the AgentEconomy central ledger and matching
engine (`agenteconomy/center/Ecocenter.py` and
`agenteconomy/center/LaborMarket.py`).

The Python classes are shallowly embedded as pure Lean functions over
explicit state records.  Conventions used throughout:

* Python floats carrying money, quantities and timestamps are modelled as
  exact rationals; the literal tolerances of the source (`1e-6` in
  `validate_reservation`, `1e-9` in `settle_monthly_corporate_tax`) become
  the exact rationals `1/1000000` and `1/1000000000`.
* Python dicts are modelled as association lists kept in insertion order
  (new keys are appended at the end, matching CPython dict semantics);
  `defaultdict` reads that create entries are modelled by `aensure`.
* `uuid4` keys for reservations and offers are modelled by a fresh-counter
  field (`nextRid`, `nextOfferId`); freshness of real uuids corresponds to
  the well-formedness predicates used in the theorems.
* Python exceptions that escape a method are modelled as a `raised`
  result constructor carrying the state at the point of the raise;
  `return False` style business failures are a separate `failed`
  constructor.
* The write-through transaction indexes `tx_by_month` / `tx_by_type` /
  `tx_by_party` and the derived `PeriodStatistics` counters of
  `_record_transaction` are not represented separately: every claim under
  study reads the primary `tx_history` list only, and the indexes receive
  exactly the transactions appended to it.
-/

namespace AgentEconomy

/-! ## Association-list helpers (Python dict in insertion order) -/

def alookup [DecidableEq κ] : List (κ × β) → κ → Option β
  | [], _ => none
  | (k, v) :: rest, key => if k = key then some v else alookup rest key

def amem [DecidableEq κ] (m : List (κ × β)) (key : κ) : Bool :=
  (alookup m key).isSome

def agetd [DecidableEq κ] (m : List (κ × β)) (key : κ) (dflt : β) : β :=
  (alookup m key).getD dflt

def aupdate [DecidableEq κ] : List (κ × β) → κ → (β → β) → List (κ × β)
  | [], _, _ => []
  | (k, v) :: rest, key, f =>
    if k = key then (k, f v) :: rest else (k, v) :: aupdate rest key f

def aensure [DecidableEq κ] (m : List (κ × β)) (key : κ) (dflt : β) : List (κ × β) :=
  if amem m key then m else m ++ [(key, dflt)]

def aset [DecidableEq κ] (m : List (κ × β)) (key : κ) (v : β) : List (κ × β) :=
  if amem m key then aupdate m key (fun _ => v) else m ++ [(key, v)]

def aupsert [DecidableEq κ] (m : List (κ × β)) (key : κ) (dflt : β) (f : β → β) : List (κ × β) :=
  aupdate (aensure m key dflt) key f

/-! ## Kernel-computable order helpers

Python's `max` / `min` / `abs` on floats, written with explicit
conditionals so that concrete states evaluate inside the kernel; the
bridge lemmas below connect them to the Mathlib lattice operations for
the abstract proofs. -/

def qmax (a b : ℚ) : ℚ := if a ≤ b then b else a

def qmin (a b : ℚ) : ℚ := if a ≤ b then a else b

def qabs (a : ℚ) : ℚ := if a < 0 then -a else a

/-! ## Economic center data model (`Ecocenter.py`, `Model.py`) -/

/-- Model of `TaxBracket` (`Model.py`): progressive-tax bracket. -/
structure TaxBracket where
  cutoff : ℚ
  rate : ℚ
deriving DecidableEq, Repr

/-- Status literals of `InventoryReservation.status`. -/
inductive RStatus where
  | active
  | confirmed
  | released
  | expired
deriving DecidableEq, Repr

/-- Model of `InventoryReservation` (`Model.py`).  `created_at` is dropped
(it is never read by any operation); `expires_at` is kept. -/
structure Reservation where
  buyerId : String
  sellerId : String
  productId : String
  productName : String
  quantity : ℚ
  expiresAt : ℚ
  status : RStatus
deriving DecidableEq, Repr

/-- Model of `Product` restricted to the fields read by the purchase and
reservation paths (`product_id`, `name`, `owner_id`, `price`, `amount`).
Cost/margin metadata (`base_price`, `unit_cost`, `classification`) only
decorates the recorded transaction asset and is not represented. -/
structure Product where
  productId : String
  name : String
  ownerId : String
  price : ℚ
  amount : ℚ
deriving DecidableEq, Repr

/-- Model of a `Transaction` record restricted to the fields the claims
read: parties, amount, type tag and month. -/
structure Tx where
  senderId : String
  receiverId : String
  amount : ℚ
  txType : String
  month : Int
deriving DecidableEq, Repr

/-- One entry of `firm_financials` (total income / total expenses). -/
structure FirmFin where
  totalIncome : ℚ
  totalExpenses : ℚ
deriving DecidableEq, Repr

/-- One entry of `firm_monthly_financials[firm][month]`. -/
structure MonthFin where
  income : ℚ
  expenses : ℚ
deriving DecidableEq, Repr

/-- One record of `unmet_demand_by_month[m][key]`. -/
structure UnmetRec where
  attempts : ℚ
  qtyRequested : ℚ
  qtyShort : ℚ
deriving DecidableEq, Repr

/-- The mutable state of `EconomicCenter` restricted to the fields the
claims under study touch.  The nested `firm_monthly_financials`
defaultdict-of-defaultdicts is flattened to keys `(firm, month)`, which
preserves all `get`/get-or-create accesses performed by the source. -/
structure EcoState where
  ledger : List (String × ℚ)
  products : List (String × List Product)
  firmId : List String
  txHistory : List Tx
  reservations : List (Nat × Reservation)
  nextRid : Nat
  vatRate : ℚ
  incomeTaxRate : List TaxBracket
  corporateTaxRate : ℚ
  reservationTimeout : ℚ
  firmFinancials : List (String × FirmFin)
  firmMonthlyFinancials : List ((String × Int) × MonthFin)
  firmMonthlyWageExpenses : List ((String × Int) × ℚ)
  firmMonthlyCorporateTax : List ((String × Int) × ℚ)
  corporateTaxSettledMonths : List Int
  unmetDemand : List ((Int × String) × UnmetRec)
  wageHistory : List (String × ℚ × Int)
deriving DecidableEq, Repr

/-- The fixed government account id used by `process_purchase`,
`process_wage` and `settle_monthly_corporate_tax`. -/
def govId : String := "gov_main_simulation"

/-! ## Inventory and reservation operations -/

/-- Stock lookup inside one owner's product list: first entry whose
`product_id` matches, defaulting to `0.0` (loop of
`_get_available_stock`). -/
def stockOf : List Product → String → ℚ
  | [], _ => 0
  | p :: rest, pid => if p.productId = pid then p.amount else stockOf rest pid

/-- Actual stock of `(seller, product)` as read by `_get_available_stock`
and the legacy branch of `process_purchase`. -/
def actualStock (s : EcoState) (sellerId productId : String) : ℚ :=
  stockOf (agetd s.products sellerId []) productId

/-- Sum of quantities of reservations on `(seller, product)` that are
`active` and not yet past `expires_at` (loop of `_get_available_stock`). -/
def resSum : List (Nat × Reservation) → ℚ → String → String → ℚ
  | [], _, _, _ => 0
  | (_, r) :: rest, now, sellerId, productId =>
    (if r.sellerId = sellerId ∧ r.productId = productId ∧
        r.status = RStatus.active ∧ now ≤ r.expiresAt then r.quantity else 0) +
      resSum rest now sellerId productId

/-- Reserved quantity on `(seller, product)` at time `now`. -/
def reservedQuantity (s : EcoState) (now : ℚ) (sellerId productId : String) : ℚ :=
  resSum s.reservations now sellerId productId

/-- Model of `_get_available_stock`: actual minus active-reserved, clamped
at zero. -/
def getAvailableStock (s : EcoState) (now : ℚ) (sellerId productId : String) : ℚ :=
  qmax 0 (actualStock s sellerId productId - reservedQuantity s now sellerId productId)

/-- Model of `_cleanup_expired_reservations`: flip every `active`
reservation past its `expires_at` to `expired`. -/
def cleanupExpiredReservations (s : EcoState) (now : ℚ) : EcoState :=
  { s with reservations := s.reservations.map (fun e =>
      if e.2.status = RStatus.active ∧ now > e.2.expiresAt then
        (e.1, { e.2 with status := RStatus.expired })
      else e) }

/-- Overwrite the status of reservation `rid` (the Python code mutates the
looked-up reservation object in place). -/
def setReservationStatus (s : EcoState) (rid : Nat) (st : RStatus) : EcoState :=
  { s with reservations := aupdate s.reservations rid (fun r => { r with status := st }) }

/-- Model of `record_unmet_demand` (the stored record keeps only the
attempt and quantity counters; `buyer_id`, `product_name`, `reason` feed
logs only). -/
def recordUnmetDemand (s : EcoState) (month : Int) (sellerId productId : String)
    (quantityRequested availableStock : ℚ) : EcoState :=
  if month ≤ 0 then s
  else
    let qtyReq := qmax 0 quantityRequested
    let avail := qmax 0 availableStock
    let qtyShort := qmax 0 (qtyReq - avail)
    if qtyReq ≤ 0 then s
    else
      let bump := fun (u : UnmetRec) =>
        UnmetRec.mk (u.attempts + 1) (u.qtyRequested + qtyReq) (u.qtyShort + qtyShort)
      let m' := aupsert s.unmetDemand (month, productId ++ "@" ++ sellerId) ⟨0, 0, 0⟩ bump
      { s with unmetDemand := m' }

/-- Outcome of `reserve_inventory`: a fresh reservation id, the `None`
failure return, or an escaping exception (`InventoryReservation` rejects
non-positive quantities via its pydantic `gt=0` validator). -/
inductive ReserveResult where
  | ok (rid : Nat)
  | fail
  | raised
deriving DecidableEq, Repr

/-- Model of `reserve_inventory`. -/
def reserveInventory (s₀ : EcoState) (now : ℚ) (buyerId sellerId productId productName : String)
    (quantity : ℚ) (timeoutSeconds : Option ℚ) (month : Option Int) :
    ReserveResult × EcoState :=
  let s := cleanupExpiredReservations s₀ now
  let availableStock := getAvailableStock s now sellerId productId
  if availableStock < quantity then
    let s' := match month with
      | some m => recordUnmetDemand s m sellerId productId quantity availableStock
      | none => s
    (.fail, s')
  else if quantity ≤ 0 then (.raised, s)
  else
    let timeout := timeoutSeconds.getD s.reservationTimeout
    let r : Reservation :=
      ⟨buyerId, sellerId, productId, productName, quantity, now + timeout, RStatus.active⟩
    (.ok s.nextRid,
      { s with reservations := (s.nextRid, r) :: s.reservations, nextRid := s.nextRid + 1 })

/-- Model of `confirm_reservation`. -/
def confirmReservation (s : EcoState) (now : ℚ) (rid : Nat) : Bool × EcoState :=
  match alookup s.reservations rid with
  | none => (false, s)
  | some r =>
    if r.status ≠ RStatus.active then (false, s)
    else if now > r.expiresAt then (false, setReservationStatus s rid RStatus.expired)
    else (true, setReservationStatus s rid RStatus.confirmed)

/-- Model of `release_reservation`: note the source sets `released`
without checking the current status. -/
def releaseReservation (s : EcoState) (rid : Nat) : Bool × EcoState :=
  match alookup s.reservations rid with
  | none => (false, s)
  | some _ => (true, setReservationStatus s rid RStatus.released)

/-- Model of `validate_reservation` as called from `process_purchase`
(all optional match arguments supplied). -/
def validateReservation (s₀ : EcoState) (now : ℚ) (rid : Nat)
    (buyerId sellerId productId : String) (quantity : ℚ) : Bool × EcoState :=
  let s := cleanupExpiredReservations s₀ now
  match alookup s.reservations rid with
  | none => (false, s)
  | some r =>
    if r.status ≠ RStatus.active then (false, s)
    else if now > r.expiresAt then (false, setReservationStatus s rid RStatus.expired)
    else if r.buyerId ≠ buyerId then (false, s)
    else if r.sellerId ≠ sellerId then (false, s)
    else if r.productId ≠ productId then (false, s)
    else if (1 : ℚ) / 1000000 < qabs (r.quantity - quantity) then (false, s)
    else (true, s)

/-- Model of `_check_and_reserve_inventory` (reservation-aware available
stock; the `except` fallback re-reading raw amounts is unreachable
because `_get_available_stock` cannot throw). -/
def checkAndReserveInventory (s : EcoState) (now : ℚ) (sellerId : String)
    (product : Product) (quantity : ℚ) : Bool :=
  if amem s.products sellerId then
    decide (quantity ≤ getAvailableStock s now sellerId product.productId)
  else false

/-- Loop of `_add_or_merge_product` over the buyer's product list: merge
into the first entry with the same `product_id`, else append the passed
product with `owner_id`/`amount` rewritten. -/
def addProductList : List Product → String → Product → ℚ → List Product
  | [], agentId, product, quantity =>
    [{ product with ownerId := agentId, amount := quantity }]
  | p :: rest, agentId, product, quantity =>
    if p.productId = product.productId then { p with amount := p.amount + quantity } :: rest
    else p :: addProductList rest agentId product quantity

/-- Model of `_add_or_merge_product`. -/
def addOrMergeProduct (s : EcoState) (agentId : String) (product : Product)
    (quantity : ℚ) : EcoState :=
  let merged := addProductList (agetd s.products agentId []) agentId product quantity
  { s with products := aset s.products agentId merged }

/-- Loop of `_reduce_or_remove_product`: decrement the first entry with a
matching `product_id`, `none` models the `ValueError` raised on a missing
product or insufficient amount. -/
def reduceProductList : List Product → String → ℚ → Option (List Product)
  | [], _, _ => none
  | p :: rest, productId, quantity =>
    if p.productId = productId then
      if p.amount < quantity then none
      else some ({ p with amount := p.amount - quantity } :: rest)
    else (reduceProductList rest productId quantity).map (p :: ·)

/-- Model of `_reduce_or_remove_product`; `false` means the `ValueError`
was raised (the caller catches it). -/
def reduceOrRemoveProduct (s : EcoState) (agentId productId : String) (quantity : ℚ) :
    Bool × EcoState :=
  match reduceProductList (agetd s.products agentId []) productId quantity with
  | none => (false, { s with products := aensure s.products agentId [] })
  | some l => (true, { s with products := aset s.products agentId l })

/-! ## Ledger, transaction log, firm bookkeeping -/

/-- Model of `_record_transaction` restricted to the primary append (see
the module comment about the derived indexes). -/
def recordTransaction (s : EcoState) (senderId receiverId : String) (amount : ℚ)
    (txType : String) (month : Int) : Tx × EcoState :=
  let tx : Tx := ⟨senderId, receiverId, amount, txType, month⟩
  (tx, { s with txHistory := s.txHistory ++ [tx] })

/-- Mutation `self.ledger[agent].amount += delta` on an existing entry. -/
def adjustBalance (s : EcoState) (agentId : String) (delta : ℚ) : EcoState :=
  { s with ledger := aupdate s.ledger agentId (fun b => b + delta) }

/-- Model of `record_firm_income` (defaultdict get-or-create). -/
def recordFirmIncome (s : EcoState) (firmId : String) (amount : ℚ) : EcoState :=
  let bump := fun (f : FirmFin) => { f with totalIncome := f.totalIncome + amount }
  { s with firmFinancials := aupsert s.firmFinancials firmId ⟨0, 0⟩ bump }

/-- Model of `record_firm_expense`. -/
def recordFirmExpense (s : EcoState) (firmId : String) (amount : ℚ) : EcoState :=
  let bump := fun (f : FirmFin) => { f with totalExpenses := f.totalExpenses + amount }
  { s with firmFinancials := aupsert s.firmFinancials firmId ⟨0, 0⟩ bump }

/-- Model of `record_firm_monthly_income`. -/
def recordFirmMonthlyIncome (s : EcoState) (firmId : String) (month : Int)
    (amount : ℚ) : EcoState :=
  let bump := fun (f : MonthFin) => { f with income := f.income + amount }
  { s with firmMonthlyFinancials := aupsert s.firmMonthlyFinancials (firmId, month) ⟨0, 0⟩ bump }

/-- Model of `record_firm_monthly_expense`. -/
def recordFirmMonthlyExpense (s : EcoState) (firmId : String) (month : Int)
    (amount : ℚ) : EcoState :=
  let bump := fun (f : MonthFin) => { f with expenses := f.expenses + amount }
  { s with firmMonthlyFinancials := aupsert s.firmMonthlyFinancials (firmId, month) ⟨0, 0⟩ bump }

/-! ## Purchase processing -/

/-- Outcome of `process_purchase` (`Transaction` on success, Python
`False` on business failure, an escaping exception otherwise). -/
inductive PurchaseResult where
  | ok (tx : Tx)
  | failed
  | raised
deriving DecidableEq, Repr

/-- Model of `process_purchase`.  Control flow mirrors the source; the
state at each intermediate step is threaded explicitly.  The cosmetic
construction of the transaction asset payload (which cannot affect
ledger, stock or reservation state and is wrapped in a catch-all
`except`) is not represented. -/
def processPurchase (s₀ : EcoState) (now : ℚ) (month : Int) (buyerId sellerId : String)
    (product : Product) (quantity : ℚ) (reservationId : Option Nat) :
    PurchaseResult × EcoState :=
  let basePrice := product.price * quantity
  let totalCostWithTax := basePrice * (1 + s₀.vatRate)
  match alookup s₀.ledger buyerId with
  | none => (.raised, s₀)
  | some buyerBal =>
    if buyerBal < totalCostWithTax then
      match reservationId with
      | some rid => (.failed, (releaseReservation s₀ rid).2)
      | none => (.failed, s₀)
    else
      let checked : Bool × EcoState :=
        match reservationId with
        | some rid =>
          let v := validateReservation s₀ now rid buyerId sellerId product.productId quantity
          if v.1 then (true, v.2) else (false, (releaseReservation v.2 rid).2)
        | none =>
          if checkAndReserveInventory s₀ now sellerId product quantity then (true, s₀)
          else
            (false, recordUnmetDemand s₀ month sellerId product.productId quantity
              (actualStock s₀ sellerId product.productId))
      if checked.1 then
        let s1 := checked.2
        let s2 := adjustBalance s1 buyerId (-totalCostWithTax)
        let taxAmount := basePrice * s₀.vatRate
        let s3 := (recordTransaction s2 buyerId govId taxAmount "consume_tax" month).2
        match alookup s3.ledger govId with
        | none => (.raised, s3)
        | some _ =>
          let s4 := adjustBalance s3 govId taxAmount
          let rec5 := recordTransaction s4 buyerId sellerId basePrice "purchase" month
          match alookup rec5.2.ledger sellerId with
          | none => (.raised, rec5.2)
          | some _ =>
            let s6 := adjustBalance rec5.2 sellerId basePrice
            let s7 := recordFirmIncome s6 sellerId basePrice
            let s8 := recordFirmMonthlyIncome s7 sellerId month basePrice
            let s9 := addOrMergeProduct s8 buyerId product quantity
            let red := reduceOrRemoveProduct s9 sellerId product.productId quantity
            if red.1 then
              match reservationId with
              | some rid => (.ok rec5.1, (confirmReservation red.2 now rid).2)
              | none => (.ok rec5.1, red.2)
            else
              match reservationId with
              | some rid => (.failed, (releaseReservation red.2 rid).2)
              | none => (.failed, red.2)
      else (.failed, checked.2)

/-! ## Tax engine -/

/-- Upper bound of the current bracket: the next cutoff, or `+inf`
(modelled by returning `g` itself since the source immediately takes
`min(gross_wage, upper_bracket)`). -/
def upperCutoff : List TaxBracket → ℚ → ℚ
  | [], g => g
  | b :: _, _ => b.cutoff

/-- Model of `calculate_progressive_income_tax`: iterate brackets in
order, taxing `min(g, next_cutoff) - cutoff` per entered bracket, and
break at the first bracket whose cutoff is not exceeded. -/
def calculateProgressiveIncomeTax : List TaxBracket → ℚ → ℚ
  | [], _ => 0
  | b :: rest, g =>
    if b.cutoff < g then
      (qmin g (upperCutoff rest g) - b.cutoff) * b.rate + calculateProgressiveIncomeTax rest g
    else 0

/-! ## Wage processing -/

/-- Outcome of `process_wage`. -/
inductive WageResult where
  | ok (tx : Tx)
  | raised
deriving DecidableEq, Repr

/-- Model of `process_wage`.  The `float(x or 0.0)` coercions are
identities on numeric input; the `max(0.0, ...)` clamps are kept. -/
def processWage (s₀ : EcoState) (month : Int) (wageHour : ℚ)
    (householdId firmId : String) (hoursPerPeriod periodsPerMonth : ℚ) :
    WageResult × EcoState :=
  let hours := qmax 0 hoursPerPeriod
  let ppm := qmax 0 periodsPerMonth
  let grossWage := wageHour * hours * ppm
  let incomeTax := calculateProgressiveIncomeTax s₀.incomeTaxRate grossWage
  let netWage := if grossWage - incomeTax < 0 then 0 else grossWage - incomeTax
  let w1 := recordTransaction s₀ firmId householdId netWage "labor_payment" month
  let s2 := (recordTransaction w1.2 householdId govId incomeTax "labor_tax" month).2
  match alookup s2.ledger householdId with
  | none => (.raised, s2)
  | some _ =>
    let s3 := adjustBalance s2 householdId netWage
    match alookup s3.ledger govId with
    | none => (.raised, s3)
    | some _ =>
      let s4 := adjustBalance s3 govId incomeTax
      if firmId = "" then
        (.ok w1.1, { s4 with wageHistory := s4.wageHistory ++ [(householdId, grossWage, month)] })
      else
        match alookup s4.ledger firmId with
        | none => (.raised, s4)
        | some _ =>
          let s5 := adjustBalance s4 firmId (-grossWage)
          let s6 := recordFirmExpense s5 firmId grossWage
          let s7 := recordFirmMonthlyExpense s6 firmId month grossWage
          let wexp := aupsert s7.firmMonthlyWageExpenses (firmId, month) 0 (fun x => x + grossWage)
          let s8 := { s7 with firmMonthlyWageExpenses := wexp }
          (.ok w1.1, { s8 with wageHistory := s8.wageHistory ++ [(householdId, grossWage, month)] })

/-! ## Service transactions -/

/-- Outcome of `add_tx_service` (the insufficient-funds `ValueError` for
non-company senders and missing-ledger accesses both raise). -/
inductive ServiceResult where
  | ok (tx : Tx)
  | raised
deriving DecidableEq, Repr

/-- Model of `add_tx_service`. -/
def addTxService (s₀ : EcoState) (month : Int) (senderId receiverId : String)
    (amount : ℚ) : ServiceResult × EcoState :=
  let isCompany := senderId ∈ s₀.firmId
  match alookup s₀.ledger senderId with
  | none => (.raised, s₀)
  | some senderBal =>
    if ¬ isCompany ∧ senderBal < amount then (.raised, s₀)
    else
      let s1 := adjustBalance s₀ senderId (-amount)
      match alookup s1.ledger receiverId with
      | none => (.raised, s1)
      | some _ =>
        let s2 := adjustBalance s1 receiverId amount
        let r := recordTransaction s2 senderId receiverId amount "service" month
        (.ok r.1, r.2)

/-! ## Corporate tax settlement -/

/-- Loop body of `settle_monthly_corporate_tax` for one firm.  The
Python `results` dict is modelled as an appended list (firm ids are
assumed distinct, as registered by `add_agent`). -/
def settleFirmStep (month : Int) (acc : List (String × ℚ) × EcoState) (firmId : String) :
    List (String × ℚ) × EcoState :=
  let s := { acc.2 with ledger := aensure acc.2.ledger firmId 0 }
  let mf := (alookup s.firmMonthlyFinancials (firmId, month)).getD ⟨0, 0⟩
  let taxableProfit := qmax 0 (mf.income - mf.expenses)
  let corporateTax := taxableProfit * s.corporateTaxRate
  if corporateTax ≤ 1 / 1000000000 then (acc.1 ++ [(firmId, 0)], s)
  else
    let s := adjustBalance s firmId (-corporateTax)
    let s := adjustBalance s govId corporateTax
    let s := recordFirmExpense s firmId corporateTax
    let s := recordFirmMonthlyExpense s firmId month corporateTax
    let ctax := aupsert s.firmMonthlyCorporateTax (firmId, month) 0 (fun x => x + corporateTax)
    let s := { s with firmMonthlyCorporateTax := ctax }
    let s := (recordTransaction s firmId govId corporateTax "corporate_tax" month).2
    (acc.1 ++ [(firmId, corporateTax)], s)

/-- Model of `settle_monthly_corporate_tax`. -/
def settleMonthlyCorporateTax (s₀ : EcoState) (month : Int) :
    List (String × ℚ) × EcoState :=
  if month ∈ s₀.corporateTaxSettledMonths then ([], s₀)
  else if ¬ amem s₀.ledger govId then
    ([], { s₀ with corporateTaxSettledMonths := s₀.corporateTaxSettledMonths ++ [month] })
  else
    let out := s₀.firmId.foldl (settleFirmStep month) ([], s₀)
    (out.1, { out.2 with corporateTaxSettledMonths := out.2.corporateTaxSettledMonths ++ [month] })

/-- The tax amount `settle_monthly_corporate_tax` computes for one firm:
`max(0, monthly income - monthly expenses) * corporate_tax_rate`. -/
def corporateTaxFor (s : EcoState) (month : Int) (firmId : String) : ℚ :=
  let mf := (alookup s.firmMonthlyFinancials (firmId, month)).getD ⟨0, 0⟩
  qmax 0 (mf.income - mf.expenses) * s.corporateTaxRate

/-- Number of `corporate_tax` transactions sent by a given firm in a
transaction log. -/
def txCorpCount (firmId : String) (l : List Tx) : Nat :=
  (l.filter (fun t => t.senderId = firmId ∧ t.txType = "corporate_tax")).length

/-! ## Query interface -/

/-- Model of `query_balance`: pure read, `0.0` for unknown agents. -/
def queryBalance (s : EcoState) (agentId : String) : ℚ × EcoState :=
  ((alookup s.ledger agentId).getD 0, s)

/-- Fields of the dict returned by `query_financial_summary` that every
caller reads (`balance`, `total_income`, `total_expenses`). -/
structure FinancialSummary where
  balance : ℚ
  totalIncome : ℚ
  totalExpenses : ℚ
deriving DecidableEq, Repr

/-- Model of `query_financial_summary`.  The unconditional
`self.firm_financials[agent_id]` reads on lines 684-685 go through the
defaultdict and therefore create the default entry for an agent that has
no financial record yet. -/
def queryFinancialSummary (s : EcoState) (agentId : String) :
    FinancialSummary × EcoState :=
  let balance := (alookup s.ledger agentId).getD 0
  let s1 := { s with firmFinancials := aensure s.firmFinancials agentId ⟨0, 0⟩ }
  let ff := (alookup s1.firmFinancials agentId).getD ⟨0, 0⟩
  (⟨balance, ff.totalIncome, ff.totalExpenses⟩, s1)

/-! ## The reservation-touching operation alphabet

The operations named by the reservation claims, bundled so that
reachability can be stated: `reserve_inventory`, `process_purchase`,
`confirm_reservation`, `release_reservation` and the lazy expiry sweep
`_cleanup_expired_reservations`. -/

inductive EcoOp where
  | reserveOp (buyerId sellerId productId productName : String) (quantity : ℚ)
      (timeoutSeconds : Option ℚ) (month : Option Int)
  | purchaseOp (month : Int) (buyerId sellerId : String) (product : Product)
      (quantity : ℚ) (reservationId : Option Nat)
  | confirmOp (rid : Nat)
  | releaseOp (rid : Nat)
  | sweepOp
deriving Repr

/-- State reached by one operation executed at time `now` (the result
value is discarded). -/
def applyOp (s : EcoState) (now : ℚ) : EcoOp → EcoState
  | .reserveOp b sel pid pname q t m => (reserveInventory s now b sel pid pname q t m).2
  | .purchaseOp m b sel p q rid => (processPurchase s now m b sel p q rid).2
  | .confirmOp rid => (confirmReservation s now rid).2
  | .releaseOp rid => (releaseReservation s rid).2
  | .sweepOp => cleanupExpiredReservations s now

/-- Reservation-status evolution relation between two reservation maps:
every reservation stays present, never returns to `active`, and a
non-`active` reservation can change status only to `released`. -/
def StatusStep (a b : List (Nat × Reservation)) : Prop :=
  ∀ rid r, alookup a rid = some r →
    ∃ r', alookup b rid = some r' ∧
      (r'.status = RStatus.active → r.status = RStatus.active) ∧
      (r.status ≠ RStatus.active → r'.status = r.status ∨ r'.status = RStatus.released)

/-- Reservation ids are below the fresh counter (uuid freshness). -/
def ResIdsFresh (s : EcoState) : Prop :=
  ∀ e ∈ s.reservations, e.1 < s.nextRid

/-! ## Labor market data model (`LaborMarket.py`) -/

/-- Model of `Job` restricted to the fields read by the offer/resolve
protocol. -/
structure LMJob where
  jobId : String
  firmId : String
  wagePerHour : ℚ
  positionsAvailable : Int
  isValid : Bool
deriving DecidableEq, Repr

/-- Status literals of an offer dict. -/
inductive OStatus where
  | pending
  | accepted
  | rejected
deriving DecidableEq, Repr

/-- Model of an offer dict (`_create_offer`); `title`/`soc` decoration is
dropped, `loss`, `expected_wage` and `wage_per_hour` are kept because the
selection policy reads them. -/
structure Offer where
  offerId : Nat
  jobId : String
  householdId : String
  lhType : String
  wagePerHour : ℚ
  loss : ℚ
  expectedWage : ℚ
  month : Int
  rank : Nat
  status : OStatus
deriving DecidableEq, Repr

/-- Model of a backup-candidate dict produced by `evaluate_applications`
(fields read by `_create_offer`). -/
structure Candidate where
  householdId : String
  lhType : String
  loss : ℚ
  expectedWage : ℚ
deriving DecidableEq, Repr

/-- Fields of a `labor_index` entry read or written by the matcher. -/
structure LaborRec where
  isValid : Bool
  firmId : Option String
deriving DecidableEq, Repr

/-- Model of a `MatchedJob` record (fields written on acceptance). -/
structure MatchedRec where
  jobId : String
  householdId : String
  lhType : String
  firmId : String
  averageWage : ℚ
  skillMatchScore : Option ℚ
deriving DecidableEq, Repr

/-- Mutable state of the `LaborMarket` actor restricted to the fields the
resolve protocol touches.  `offers` is the `self.offers` dict in
insertion order; the write-through indexes `offers_by_job` and
`offers_by_worker` are derived from it (`offersForJob`,
`offersForWorker`, `workerKeys`), which is faithful because every offer
is appended to all three containers simultaneously and never removed. -/
structure LMState where
  jobs : List LMJob
  offers : List Offer
  backupCandidates : List (String × List Candidate)
  backupCursor : List (String × Nat)
  matchedWorkers : List (String × String)
  laborIndex : List ((String × String) × LaborRec)
  matchedJobs : List MatchedRec
  nextOfferId : Nat
deriving DecidableEq, Repr

/-- The ids in `offers_by_job[jobId]`, in insertion order. -/
def offersForJob (s : LMState) (jobId : String) : List Offer :=
  s.offers.filter (fun o => o.jobId = jobId)

/-- The ids in `offers_by_worker[(h, t)]`, in insertion order. -/
def offersForWorker (s : LMState) (householdId lhType : String) : List Offer :=
  s.offers.filter (fun o => o.householdId = householdId ∧ o.lhType = lhType)

/-- Keep-first deduplication (Python dict keys keep first-insertion
order). -/
def dedupKeepFirst [DecidableEq α] : List α → List α
  | [] => []
  | a :: rest => a :: dedupKeepFirst (rest.filter (fun x => x ≠ a))
termination_by l => l.length
decreasing_by
  simp only [List.length_cons]
  exact Nat.lt_succ_of_le (List.length_filter_le _ _)

/-- The key list of `offers_by_worker`, in first-insertion order. -/
def workerKeys (s : LMState) : List (String × String) :=
  dedupKeepFirst (s.offers.map (fun o => (o.householdId, o.lhType)))

/-- Model of `_get_job_by_id` (first job with the given id). -/
def getJobById (s : LMState) (jobId : String) : Option LMJob :=
  s.jobs.find? (fun j => j.jobId == jobId)

/-- In-place mutation of the first job with the given id. -/
def updateFirstJob : List LMJob → String → (LMJob → LMJob) → List LMJob
  | [], _, _ => []
  | j :: rest, jobId, f =>
    if j.jobId = jobId then f j :: rest else j :: updateFirstJob rest jobId f

/-- Model of `_is_worker_available`. -/
def isWorkerAvailable (s : LMState) (householdId lhType : String) : Bool :=
  if (householdId, lhType) ∈ s.matchedWorkers then false
  else
    match alookup s.laborIndex (householdId, lhType) with
    | none => true
    | some lr => if ¬ lr.isValid then false else if lr.firmId ≠ none then false else true

/-- Model of `_update_labor_status`. -/
def updateLaborStatus (s : LMState) (householdId lhType : String) (job : LMJob) : LMState :=
  let upd := fun (lr : LaborRec) => { lr with isValid := false, firmId := some job.firmId }
  { s with laborIndex := aupdate s.laborIndex (householdId, lhType) upd }

/-- Model of `_has_offer`: any offer of any status for `(job, worker)`. -/
def hasOffer (s : LMState) (jobId householdId lhType : String) : Bool :=
  (offersForJob s jobId).any
    (fun o => o.householdId = householdId ∧ o.lhType = lhType)

/-- Model of `_create_offer` (uuid4 modelled by the fresh counter). -/
def createOffer (s : LMState) (job : LMJob) (cand : Candidate) (month : Int)
    (rank : Nat) : Option Nat × LMState :=
  if ¬ isWorkerAvailable s cand.householdId cand.lhType then (none, s)
  else if hasOffer s job.jobId cand.householdId cand.lhType then (none, s)
  else
    let offer : Offer :=
      ⟨s.nextOfferId, job.jobId, cand.householdId, cand.lhType, job.wagePerHour,
        cand.loss, cand.expectedWage, month, rank, OStatus.pending⟩
    (some s.nextOfferId,
      { s with offers := s.offers ++ [offer], nextOfferId := s.nextOfferId + 1 })

/-- Model of `_pending_offers_for_job` (as a count; the source only takes
`len` of the returned list). -/
def pendingForJob (s : LMState) (jobId : String) : List Offer :=
  (offersForJob s jobId).filter (fun o => o.status = OStatus.pending)

/-- Overwrite the status of the offers with the given id (the source
mutates the single dict entry; ids are unique). -/
def setOfferStatus (s : LMState) (offerId : Nat) (st : OStatus) : LMState :=
  { s with offers := s.offers.map (fun o =>
      if o.offerId = offerId then { o with status := st } else o) }

/-- Model of the offer lookup `self.offers.get(offer_id)`. -/
def findOffer (s : LMState) (offerId : Nat) : Option Offer :=
  s.offers.find? (fun o => o.offerId == offerId)

/-- Cursor-advancing loop of `_offer_next_backup` over the remaining
backup candidates. -/
def backupLoop (s : LMState) (job : LMJob) (jobId : String) (month : Int) :
    List Candidate → Nat → Option Nat × LMState
  | [], _ => (none, s)
  | cand :: rest, idx =>
    let idx' := idx + 1
    let s1 := { s with backupCursor := aset s.backupCursor jobId idx' }
    let c := createOffer s1 job cand month idx'
    match c.1 with
    | some oid => (some oid, c.2)
    | none => backupLoop c.2 job jobId month rest idx'

/-- Model of `_offer_next_backup`. -/
def offerNextBackup (s : LMState) (jobId : String) (month : Int) : Option Nat × LMState :=
  match getJobById s jobId with
  | none => (none, s)
  | some job =>
    if ¬ job.isValid ∨ job.positionsAvailable ≤ 0 then (none, s)
    else if job.positionsAvailable ≤ ((pendingForJob s jobId).length : Int) then (none, s)
    else
      let backups := agetd s.backupCandidates jobId []
      let idx := agetd s.backupCursor jobId 0
      backupLoop s job jobId month (backups.drop idx) idx

/-- Model of `_reject_offer`. -/
def rejectOffer (s : LMState) (offerId : Nat) (triggerBackup : Bool) : Bool × LMState :=
  match findOffer s offerId with
  | none => (false, s)
  | some o =>
    if o.status ≠ OStatus.pending then (false, s)
    else
      let s1 := setOfferStatus s offerId OStatus.rejected
      let s2 := if triggerBackup then (offerNextBackup s1 o.jobId o.month).2 else s1
      (true, s2)

/-- Model of `_reject_other_offers`: fold over the ids the worker held
when the call started (backup promotions during the loop cannot add
offers for this worker, who was just marked matched). -/
def rejectOtherOffers (s : LMState) (householdId lhType : String) (keepOfferId : Nat) :
    Nat × LMState :=
  (offersForWorker s householdId lhType).foldl
    (fun acc o =>
      if o.offerId = keepOfferId then acc
      else
        let r := rejectOffer acc.2 o.offerId true
        (if r.1 then acc.1 + 1 else acc.1, r.2))
    (0, s)

/-- Model of `accept_offer` composed with `_accept_offer`. -/
def acceptOffer (s : LMState) (offerId : Nat) : Bool × LMState :=
  match findOffer s offerId with
  | none => (false, s)
  | some o =>
    if o.status ≠ OStatus.pending then (false, s)
    else if ¬ isWorkerAvailable s o.householdId o.lhType then
      (false, setOfferStatus s offerId OStatus.rejected)
    else
      match getJobById s o.jobId with
      | none => (false, setOfferStatus s offerId OStatus.rejected)
      | some job =>
        if ¬ job.isValid ∨ job.positionsAvailable ≤ 0 then
          (false, setOfferStatus s offerId OStatus.rejected)
        else
          let dec := fun (j : LMJob) =>
            let p := j.positionsAvailable - 1
            { j with positionsAvailable := p, isValid := if p ≤ 0 then false else j.isValid }
          let s1 := { s with jobs := updateFirstJob s.jobs o.jobId dec }
          let score : Option ℚ := if 0 ≤ o.loss then some (1 / (1 + o.loss)) else none
          let mj : MatchedRec :=
            ⟨o.jobId, o.householdId, o.lhType, job.firmId, job.wagePerHour, score⟩
          let s2 := { s1 with matchedJobs := s1.matchedJobs ++ [mj] }
          let key := (o.householdId, o.lhType)
          let s3 := if key ∈ s2.matchedWorkers then s2
            else { s2 with matchedWorkers := s2.matchedWorkers ++ [key] }
          let s4 := updateLaborStatus s3 o.householdId o.lhType job
          let s5 := setOfferStatus s4 offerId OStatus.accepted
          (true, (rejectOtherOffers s5 o.householdId o.lhType offerId).2)

/-- Lexicographic strict order on sort keys. -/
def lexLt (a b : ℚ × ℚ) : Prop := a.1 < b.1 ∨ (a.1 = b.1 ∧ a.2 < b.2)

instance : DecidablePred (fun p : (ℚ × ℚ) × (ℚ × ℚ) => lexLt p.1 p.2) := fun p => by
  unfold lexLt
  infer_instance

instance (a b : ℚ × ℚ) : Decidable (lexLt a b) := by
  unfold lexLt
  infer_instance

/-- First element with the minimal key (equals the head of the stable
Python `list.sort` used by `_select_offer`). -/
def pickMinBy (f : Offer → ℚ × ℚ) : List Offer → Option Offer
  | [] => none
  | o :: rest => some (rest.foldl (fun best c => if lexLt (f c) (f best) then c else best) o)

/-- Model of `_select_offer`. -/
def selectOffer (s : LMState) (offerIds : List Nat) (acceptancePolicy : String) :
    Option Nat :=
  let offers := offerIds.filterMap (fun oid => findOffer s oid)
  let key := fun (o : Offer) =>
    if acceptancePolicy = "highest_wage" then (-o.wagePerHour, o.loss)
    else (o.loss, -o.wagePerHour)
  (pickMinBy key offers).map (fun o => o.offerId)

/-- The `pending_by_worker` snapshot built at the top of each resolve
round. -/
def pendingByWorker (s : LMState) : List ((String × String) × List Nat) :=
  (workerKeys s).filterMap (fun w =>
    let pending := ((offersForWorker s w.1 w.2).filter
      (fun o => o.status = OStatus.pending)).map (fun o => o.offerId)
    if pending.isEmpty then none else some (w, pending))

/-- Accept phase of a resolve round: per worker of the snapshot, select
one pending offer and try to accept it. -/
def acceptPhase (policy : String) (snapshot : List ((String × String) × List Nat))
    (s : LMState) (accepted : Nat) : LMState × Nat :=
  snapshot.foldl
    (fun acc entry =>
      match selectOffer acc.1 entry.2 policy with
      | none => acc
      | some chosen =>
        let r := acceptOffer acc.1 chosen
        (r.2, if r.1 then acc.2 + 1 else acc.2))
    (s, accepted)

/-- Reject phase of a resolve round: reject every snapshot offer still
pending, promoting backups. -/
def rejectPhase (snapshot : List ((String × String) × List Nat))
    (s : LMState) (rejected : Nat) : LMState × Nat :=
  snapshot.foldl
    (fun acc entry =>
      entry.2.foldl
        (fun acc2 oid =>
          match findOffer acc2.1 oid with
          | none => acc2
          | some o =>
            if o.status = OStatus.pending then
              let r := rejectOffer acc2.1 oid true
              (r.2, if r.1 then acc2.2 + 1 else acc2.2)
            else acc2)
        acc)
    (s, rejected)

/-- Backfill phase of a resolve round: one `_offer_next_backup` pass per
job that has backup candidates. -/
def backfillPhase (s : LMState) (month : Int) : LMState :=
  (s.backupCandidates.map Prod.fst).foldl
    (fun st jobId => (offerNextBackup st jobId month).2) s

/-- One iteration of the `while True` loop of `resolve_offers`.  Returns
the new state, counters, and whether the snapshot was empty. -/
def resolveRound (s : LMState) (policy : String) (month : Int)
    (accepted rejected : Nat) : LMState × Nat × Nat × Bool :=
  let snapshot := pendingByWorker s
  if snapshot.isEmpty then (s, accepted, rejected, true)
  else
    let a := acceptPhase policy snapshot s accepted
    let r := rejectPhase snapshot a.1 rejected
    let s' := backfillPhase r.1 month
    (s', a.2, r.2, false)

/-- Result bundle of `resolve_offers` plus a `finished` flag: `true` when
the loop exited through one of its two `break` statements, `false` when
the modelling fuel ran out first.  The termination theorem shows the
fuel chosen in `resolveOffers` always suffices. -/
structure ResolveResult where
  state : LMState
  accepted : Nat
  rejected : Nat
  rounds : Nat
  finished : Bool
deriving DecidableEq, Repr

/-- Fuelled model of the `while True` loop of `resolve_offers`
(`prevTotal` starts at `-1`). -/
def resolveLoop (policy : String) (month : Int) :
    Nat → LMState → Nat → Nat → Nat → Int → ResolveResult
  | 0, s, accepted, rejected, rounds, _ => ⟨s, accepted, rejected, rounds, false⟩
  | fuel + 1, s, accepted, rejected, rounds, prevTotal =>
    let r := resolveRound s policy month accepted rejected
    if r.2.2.2 then ⟨r.1, r.2.1, r.2.2.1, rounds + 1, true⟩
    else if (r.2.1 + r.2.2.1 : Int) = prevTotal then ⟨r.1, r.2.1, r.2.2.1, rounds + 1, true⟩
    else resolveLoop policy month fuel r.1 r.2.1 r.2.2.1 (rounds + 1) (r.2.1 + r.2.2.1)

/-- Number of currently pending offers. -/
def pendingTotal (s : LMState) : Nat :=
  (s.offers.filter (fun o => o.status = OStatus.pending)).length

/-- Number of backup candidates not yet consumed by a cursor. -/
def backupsRemaining (s : LMState) : Nat :=
  (s.backupCandidates.map
    (fun e => e.2.length - agetd s.backupCursor e.1 0)).sum

/-- Model of `resolve_offers`.  The source loop carries no fuel; the
bound `pendingTotal + backupsRemaining + 2` is proved sufficient for the
loop to reach its own exit conditions. -/
def resolveOffers (s : LMState) (month : Int) (acceptancePolicy : String) : ResolveResult :=
  resolveLoop acceptancePolicy month (pendingTotal s + backupsRemaining s + 2) s 0 0 0 (-1)

/-- The per-job matching invariant of the resolve loop: the job found by
`_get_job_by_id` never has more pending offers than
`positions_available`. -/
def JobsOK (s : LMState) : Prop :=
  ∀ jobId job, getJobById s jobId = some job →
    ((pendingForJob s jobId).length : Int) ≤ job.positionsAvailable

/-- An empty labor market (C8 witness fixture). -/
def lmEmpty : LMState := ⟨[], [], [], [], [], [], [], 0⟩

/-! ## Spec-side definitions and shared test fixtures -/

/-- The progressive-tax formula exactly as the specification words it:
the sum, over brackets with `g > c_i`, of `rate_i * (min(g, c_{i+1}) -
c_i)`, the last upper bound being `+inf`.  Stated without the early
break of the implementation so the two can be compared. -/
def specProgressiveTax : List TaxBracket → ℚ → ℚ
  | [], _ => 0
  | b :: rest, g =>
    (if b.cutoff < g then (qmin g (upperCutoff rest g) - b.cutoff) * b.rate else 0) +
      specProgressiveTax rest g

/-- An economic-center state with everything empty (fixture base). -/
def emptyEco : EcoState :=
  ⟨[], [], [], [], [], 0, 0, [], 0, 300, [], [], [], [], [], [], []⟩

/-- Fixture for C10: one funded household, no firm financial records. -/
def queryFixture : EcoState :=
  { emptyEco with ledger := [("h1", 5)] }

/-- Fixture product used by the purchase counterexamples. -/
def widget : Product := ⟨"p1", "widget", "f1", 10, 5⟩

/-- Fixture for C7: a registered firm `f2` with balance `1`, a seller
`f1` holding stock, VAT at 10 percent. -/
def firmBuyerFixture : EcoState :=
  { emptyEco with
      firmId := ["f2"],
      ledger := [("f2", 1), ("f1", 100), ("gov_main_simulation", 0)],
      products := [("f1", [widget])],
      vatRate := 1/10 }

/-- Fixture for C9: three zero-balance accounts and the default two
lowest tax brackets. -/
def wageFixture : EcoState :=
  { emptyEco with
      ledger := [("h1", 0), ("f1", 0), ("gov_main_simulation", 0)],
      incomeTaxRate := [⟨0, 1/10⟩, ⟨10000, 3/20⟩] }

/-- Product fixture for C1: price 1, two units in stock. -/
def gadget : Product := ⟨"p1", "gadget", "f1", 1, 2⟩

/-- Fixture for C1: buyer `h1` holds an active reservation for exactly
the two units `f1` has in stock. -/
def atomicityFixture : EcoState :=
  { emptyEco with
      ledger := [("h1", 100), ("f1", 0), ("gov_main_simulation", 0)],
      products := [("f1", [gadget])],
      reservations := [(0, ⟨"h1", "f1", "p1", "gadget", 2, 100, RStatus.active⟩)],
      nextRid := 1,
      vatRate := 1/10 }

/-- Fixture for C6: a registered firm whose monthly income equals its
monthly expenses (taxable profit zero). -/
def corpFixture : EcoState :=
  { emptyEco with
      firmId := ["f1"],
      ledger := [("f1", 50), ("gov_main_simulation", 0)],
      corporateTaxRate := 21/100,
      firmMonthlyFinancials := [(("f1", 3), ⟨100, 100⟩)] }

/-- Fixture for the C6 witness: monthly profit 200, corporate rate 21
percent, so tax 42. -/
def corpFixtureProfit : EcoState :=
  { emptyEco with
      firmId := ["f1"],
      ledger := [("f1", 50), ("gov_main_simulation", 0)],
      corporateTaxRate := 21/100,
      firmMonthlyFinancials := [(("f1", 3), ⟨300, 100⟩)] }

/-- Fixtures for C5: a seller with two units in stock; reserve one unit,
confirm the reservation, then call release on the confirmed
reservation. -/
def c5Start : EcoState := { emptyEco with products := [("f1", [gadget])] }

def c5Reserved : EcoState := (reserveInventory c5Start 0 "h1" "f1" "p1" "gadget" 1 none none).2

def c5Confirmed : EcoState := (confirmReservation c5Reserved 0 0).2

def c5Released : EcoState := (releaseReservation c5Confirmed 0).2

/-- Literal state holding one confirmed reservation (C5 witness). -/
def c5Lit : EcoState :=
  { emptyEco with
      reservations := [(0, ⟨"h1", "f1", "p1", "g", 1, 100, RStatus.confirmed⟩)],
      nextRid := 1 }

/-- Contribution of a single reservation to `resSum` (the summand of the
`_get_available_stock` loop). -/
def resTerm (r : Reservation) (now : ℚ) (sellerId productId : String) : ℚ :=
  if r.sellerId = sellerId ∧ r.productId = productId ∧
      r.status = RStatus.active ∧ now ≤ r.expiresAt then r.quantity else 0

/-- All reservation quantities are positive (`InventoryReservation`'s
pydantic `gt=0` validator guarantees this for every stored
reservation). -/
def ResQtyPos (s : EcoState) : Prop :=
  ∀ e ∈ s.reservations, 0 < e.2.quantity

/-- The reservation stock invariant at time `now`: on every
`(seller, product)` pair the active reserved quantity is covered by the
actual stock. -/
def StockOK (s : EcoState) (now : ℚ) : Prop :=
  ∀ sellerId productId,
    reservedQuantity s now sellerId productId ≤ actualStock s sellerId productId

/-- Restriction on purchase operations under which the stock invariant is
preserved: positive quantities, and a reservation-backed purchase uses
exactly the reserved quantity (the source's `1e-6` tolerance in
`validate_reservation` admits more, which is what breaks the
invariant). -/
def PurchaseOK (s : EcoState) : EcoOp → Prop
  | .purchaseOp _ _ _ _ q none => 0 < q
  | .purchaseOp _ _ _ _ q (some rid) =>
      ∀ r, alookup s.reservations rid = some r → q = r.quantity
  | _ => True

/-- Product fixture for C4: price 1, four units in stock at `f1`. -/
def c4Prod : Product := ⟨"p1", "g", "f1", 1, 4⟩

/-- Fixture for the C4 counterexample: seller `f1` stocks four units of
`p1`; two funded households. -/
def c4Start : EcoState :=
  { emptyEco with
      ledger := [("h1", 100), ("h2", 100), ("f1", 0), ("gov_main_simulation", 0)],
      products := [("f1", [c4Prod])] }

/-- After `h1` reserves two units (reservation id 0). -/
def c4Reserved1 : EcoState := (reserveInventory c4Start 0 "h1" "f1" "p1" "g" 2 none none).2

/-- After `h2` also reserves two units (reservation id 1). -/
def c4Reserved2 : EcoState := (reserveInventory c4Reserved1 0 "h2" "f1" "p1" "g" 2 none none).2

/-- The purchase `h2` makes against reservation 1: quantity
`2 + 1/2000000`, inside the `1e-6` validation tolerance but above the
reserved two units. -/
def c4Final : EcoState :=
  (processPurchase c4Reserved2 0 1 "h2" "f1" c4Prod (2 + 1/2000000) (some 1)).2

/-! ## Helper lemmas -/

theorem alookup_aupdate_self [DecidableEq κ] (m : List (κ × β)) (k : κ) (f : β → β) :
    alookup (aupdate m k f) k = (alookup m k).map f := by
  induction m with
  | nil => rfl
  | cons e rest ih =>
    obtain ⟨k', v⟩ := e
    by_cases h : k' = k
    · subst h
      simp [aupdate, alookup]
    · simp [aupdate, alookup, h, ih]

theorem alookup_aupdate_other [DecidableEq κ] (m : List (κ × β)) (k q : κ) (f : β → β)
    (h : k ≠ q) : alookup (aupdate m k f) q = alookup m q := by
  induction m with
  | nil => rfl
  | cons e rest ih =>
    obtain ⟨k', v⟩ := e
    by_cases hk : k' = k
    · subst hk
      simp [aupdate, alookup, h, ih]
    · simp only [aupdate, if_neg hk]
      by_cases hq : k' = q
      · simp [alookup, hq]
      · simp [alookup, hq, ih]

theorem alookup_append_some [DecidableEq κ] {m : List (κ × β)} {k : κ} {v : β}
    (h : alookup m k = some v) (m' : List (κ × β)) : alookup (m ++ m') k = some v := by
  induction m with
  | nil => simp [alookup] at h
  | cons e rest ih =>
    obtain ⟨k', v'⟩ := e
    by_cases hk : k' = k
    · subst hk
      simp only [alookup, if_pos rfl] at h
      simpa [alookup] using h
    · simp only [alookup, if_neg hk] at h
      simpa [alookup, hk] using ih h

theorem alookup_append_none [DecidableEq κ] {m : List (κ × β)} {k : κ}
    (h : alookup m k = none) (m' : List (κ × β)) : alookup (m ++ m') k = alookup m' k := by
  induction m with
  | nil => rfl
  | cons e rest ih =>
    obtain ⟨k', v'⟩ := e
    by_cases hk : k' = k
    · subst hk
      simp [alookup] at h
    · simp only [alookup, if_neg hk] at h
      simpa [alookup, hk] using ih h

theorem alookup_append_single_other [DecidableEq κ] (m : List (κ × β)) (g f : κ) (x : β)
    (h : g ≠ f) : alookup (m ++ [(g, x)]) f = alookup m f := by
  rcases hm : alookup m f with _ | v
  · rw [alookup_append_none hm]
    simp [alookup, h]
  · rw [alookup_append_some hm]

theorem alookup_aensure_other [DecidableEq κ] (m : List (κ × β)) (k q : κ) (d : β)
    (h : k ≠ q) : alookup (aensure m k d) q = alookup m q := by
  unfold aensure
  split
  · rfl
  · exact alookup_append_single_other m k q d h

theorem alookup_aensure_self [DecidableEq κ] (m : List (κ × β)) (k : κ) (d : β) :
    alookup (aensure m k d) k = some ((alookup m k).getD d) := by
  unfold aensure amem
  rcases h : alookup m k with _ | v
  · simp only [h, Option.isSome_none, Bool.false_eq_true, if_false, Option.getD_none]
    rw [alookup_append_none h]
    simp [alookup]
  · simp [h, alookup_append_some h]

theorem alookup_aupsert_other [DecidableEq κ] (m : List (κ × β)) (k q : κ) (d : β)
    (fn : β → β) (h : k ≠ q) : alookup (aupsert m k d fn) q = alookup m q := by
  unfold aupsert
  rw [alookup_aupdate_other _ _ _ _ h, alookup_aensure_other _ _ _ _ h]

theorem alookup_aupsert_self [DecidableEq κ] (m : List (κ × β)) (k : κ) (d : β)
    (fn : β → β) : alookup (aupsert m k d fn) k = some (fn ((alookup m k).getD d)) := by
  unfold aupsert
  rw [alookup_aupdate_self, alookup_aensure_self]
  rfl

theorem txCorpCount_append_other (f : String) (l : List Tx) (t : Tx)
    (h : t.senderId ≠ f) : txCorpCount f (l ++ [t]) = txCorpCount f l := by
  unfold txCorpCount
  rw [List.filter_append]
  simp [h]

theorem txCorpCount_append_self (f : String) (l : List Tx) (t : Tx)
    (h1 : t.senderId = f) (h2 : t.txType = "corporate_tax") :
    txCorpCount f (l ++ [t]) = txCorpCount f l + 1 := by
  unfold txCorpCount
  rw [List.filter_append]
  simp [h1, h2]

/-! Field-frame facts for the state transformers used along the purchase
and wage paths. -/

@[simp] theorem cleanup_ledger (s : EcoState) (now : ℚ) :
    (cleanupExpiredReservations s now).ledger = s.ledger := rfl

@[simp] theorem cleanup_txHistory (s : EcoState) (now : ℚ) :
    (cleanupExpiredReservations s now).txHistory = s.txHistory := rfl

@[simp] theorem setRes_ledger (s : EcoState) (rid : Nat) (st : RStatus) :
    (setReservationStatus s rid st).ledger = s.ledger := rfl

@[simp] theorem setRes_txHistory (s : EcoState) (rid : Nat) (st : RStatus) :
    (setReservationStatus s rid st).txHistory = s.txHistory := rfl

@[simp] theorem releaseReservation_ledger (s : EcoState) (rid : Nat) :
    ((releaseReservation s rid).2).ledger = s.ledger := by
  unfold releaseReservation
  split <;> rfl

@[simp] theorem releaseReservation_txHistory (s : EcoState) (rid : Nat) :
    ((releaseReservation s rid).2).txHistory = s.txHistory := by
  unfold releaseReservation
  split <;> rfl

@[simp] theorem confirmReservation_ledger (s : EcoState) (now : ℚ) (rid : Nat) :
    ((confirmReservation s now rid).2).ledger = s.ledger := by
  unfold confirmReservation
  split
  · rfl
  · split
    · rfl
    · split <;> rfl

@[simp] theorem confirmReservation_txHistory (s : EcoState) (now : ℚ) (rid : Nat) :
    ((confirmReservation s now rid).2).txHistory = s.txHistory := by
  unfold confirmReservation
  split
  · rfl
  · split
    · rfl
    · split <;> rfl

@[simp] theorem validateReservation_ledger (s : EcoState) (now : ℚ) (rid : Nat)
    (b sel pid : String) (q : ℚ) :
    ((validateReservation s now rid b sel pid q).2).ledger = s.ledger := by
  simp only [validateReservation]
  split
  · rfl
  · split_ifs <;> rfl

@[simp] theorem validateReservation_txHistory (s : EcoState) (now : ℚ) (rid : Nat)
    (b sel pid : String) (q : ℚ) :
    ((validateReservation s now rid b sel pid q).2).txHistory = s.txHistory := by
  simp only [validateReservation]
  split
  · rfl
  · split_ifs <;> rfl

@[simp] theorem recordUnmetDemand_ledger (s : EcoState) (month : Int)
    (sel pid : String) (qr av : ℚ) :
    (recordUnmetDemand s month sel pid qr av).ledger = s.ledger := by
  simp only [recordUnmetDemand]
  split_ifs <;> rfl

@[simp] theorem recordUnmetDemand_txHistory (s : EcoState) (month : Int)
    (sel pid : String) (qr av : ℚ) :
    (recordUnmetDemand s month sel pid qr av).txHistory = s.txHistory := by
  simp only [recordUnmetDemand]
  split_ifs <;> rfl

@[simp] theorem adjustBalance_txHistory (s : EcoState) (agentId : String) (d : ℚ) :
    (adjustBalance s agentId d).txHistory = s.txHistory := rfl

@[simp] theorem recordTransaction_ledger (s : EcoState) (a b : String) (amt : ℚ)
    (ty : String) (m : Int) : ((recordTransaction s a b amt ty m).2).ledger = s.ledger := rfl

@[simp] theorem recordTransaction_txHistory (s : EcoState) (a b : String) (amt : ℚ)
    (ty : String) (m : Int) :
    ((recordTransaction s a b amt ty m).2).txHistory = s.txHistory ++ [⟨a, b, amt, ty, m⟩] := rfl

@[simp] theorem recordTransaction_fst (s : EcoState) (a b : String) (amt : ℚ)
    (ty : String) (m : Int) : (recordTransaction s a b amt ty m).1 = ⟨a, b, amt, ty, m⟩ := rfl

@[simp] theorem recordFirmIncome_ledger (s : EcoState) (f : String) (amt : ℚ) :
    (recordFirmIncome s f amt).ledger = s.ledger := rfl

@[simp] theorem recordFirmIncome_txHistory (s : EcoState) (f : String) (amt : ℚ) :
    (recordFirmIncome s f amt).txHistory = s.txHistory := rfl

@[simp] theorem recordFirmExpense_ledger (s : EcoState) (f : String) (amt : ℚ) :
    (recordFirmExpense s f amt).ledger = s.ledger := rfl

@[simp] theorem recordFirmExpense_txHistory (s : EcoState) (f : String) (amt : ℚ) :
    (recordFirmExpense s f amt).txHistory = s.txHistory := rfl

@[simp] theorem recordFirmMonthlyIncome_ledger (s : EcoState) (f : String) (m : Int) (amt : ℚ) :
    (recordFirmMonthlyIncome s f m amt).ledger = s.ledger := rfl

@[simp] theorem recordFirmMonthlyIncome_txHistory (s : EcoState) (f : String) (m : Int) (amt : ℚ) :
    (recordFirmMonthlyIncome s f m amt).txHistory = s.txHistory := rfl

@[simp] theorem recordFirmMonthlyExpense_ledger (s : EcoState) (f : String) (m : Int) (amt : ℚ) :
    (recordFirmMonthlyExpense s f m amt).ledger = s.ledger := rfl

@[simp] theorem recordFirmMonthlyExpense_txHistory (s : EcoState) (f : String) (m : Int) (amt : ℚ) :
    (recordFirmMonthlyExpense s f m amt).txHistory = s.txHistory := rfl

@[simp] theorem addOrMergeProduct_ledger (s : EcoState) (a : String) (p : Product) (q : ℚ) :
    (addOrMergeProduct s a p q).ledger = s.ledger := rfl

@[simp] theorem addOrMergeProduct_txHistory (s : EcoState) (a : String) (p : Product) (q : ℚ) :
    (addOrMergeProduct s a p q).txHistory = s.txHistory := rfl

@[simp] theorem reduceOrRemoveProduct_ledger (s : EcoState) (a pid : String) (q : ℚ) :
    ((reduceOrRemoveProduct s a pid q).2).ledger = s.ledger := by
  unfold reduceOrRemoveProduct
  split <;> rfl

@[simp] theorem reduceOrRemoveProduct_txHistory (s : EcoState) (a pid : String) (q : ℚ) :
    ((reduceOrRemoveProduct s a pid q).2).txHistory = s.txHistory := by
  unfold reduceOrRemoveProduct
  split <;> rfl

@[simp] theorem adjustBalance_lookup_self (s : EcoState) (agentId : String) (d : ℚ) :
    alookup (adjustBalance s agentId d).ledger agentId = (alookup s.ledger agentId).map (· + d) :=
  alookup_aupdate_self s.ledger agentId _

theorem adjustBalance_lookup_other (s : EcoState) (agentId other : String) (d : ℚ)
    (h : agentId ≠ other) :
    alookup (adjustBalance s agentId d).ledger other = alookup s.ledger other :=
  alookup_aupdate_other s.ledger agentId other _ h

theorem qmax_eq_max (a b : ℚ) : qmax a b = max a b := by
  simp [qmax, max_def]

theorem qmin_eq_min (a b : ℚ) : qmin a b = min a b := by
  simp [qmin, min_def]

theorem qabs_eq_abs (a : ℚ) : qabs a = |a| := by
  rcases lt_or_ge a 0 with h | h
  · simp [qabs, h, abs_of_neg h]
  · simp [qabs, not_lt.mpr h, abs_of_nonneg h]

theorem specProgressiveTax_eq_zero (brackets : List TaxBracket) (g : ℚ)
    (h : ∀ b ∈ brackets, g ≤ b.cutoff) : specProgressiveTax brackets g = 0 := by
  induction brackets with
  | nil => rfl
  | cons b rest ih =>
    have hb : ¬ b.cutoff < g := not_lt.mpr (h b (List.mem_cons_self b rest))
    simp only [specProgressiveTax, if_neg hb, zero_add]
    exact ih (fun x hx => h x (List.mem_cons_of_mem b hx))

/-! Reservation-map frames and status-evolution lemmas. -/

@[simp] theorem adjustBalance_reservations (s : EcoState) (a : String) (d : ℚ) :
    (adjustBalance s a d).reservations = s.reservations := rfl

@[simp] theorem recordTransaction_reservations (s : EcoState) (a b : String) (amt : ℚ)
    (ty : String) (m : Int) :
    ((recordTransaction s a b amt ty m).2).reservations = s.reservations := rfl

@[simp] theorem recordFirmIncome_reservations (s : EcoState) (f : String) (amt : ℚ) :
    (recordFirmIncome s f amt).reservations = s.reservations := rfl

@[simp] theorem recordFirmMonthlyIncome_reservations (s : EcoState) (f : String)
    (m : Int) (amt : ℚ) :
    (recordFirmMonthlyIncome s f m amt).reservations = s.reservations := rfl

@[simp] theorem addOrMergeProduct_reservations (s : EcoState) (a : String) (p : Product)
    (q : ℚ) : (addOrMergeProduct s a p q).reservations = s.reservations := rfl

@[simp] theorem reduceOrRemoveProduct_reservations (s : EcoState) (a pid : String)
    (q : ℚ) : ((reduceOrRemoveProduct s a pid q).2).reservations = s.reservations := by
  unfold reduceOrRemoveProduct
  split <;> rfl

@[simp] theorem recordUnmetDemand_reservations (s : EcoState) (month : Int)
    (sel pid : String) (qr av : ℚ) :
    (recordUnmetDemand s month sel pid qr av).reservations = s.reservations := by
  simp only [recordUnmetDemand]
  split_ifs <;> rfl

theorem alookup_cleanup_list (l : List (Nat × Reservation)) (now : ℚ) (rid : Nat) :
    alookup (l.map (fun e =>
        if e.2.status = RStatus.active ∧ now > e.2.expiresAt then
          (e.1, { e.2 with status := RStatus.expired })
        else e)) rid =
      (alookup l rid).map (fun r =>
        if r.status = RStatus.active ∧ now > r.expiresAt then
          { r with status := RStatus.expired } else r) := by
  induction l with
  | nil => rfl
  | cons e rest ih =>
    obtain ⟨k, r⟩ := e
    rw [List.map_cons]
    have hF : (if (k, r).2.status = RStatus.active ∧ now > (k, r).2.expiresAt then
        ((k, r).1, { (k, r).2 with status := RStatus.expired }) else (k, r)) =
        (k, if r.status = RStatus.active ∧ now > r.expiresAt then
          { r with status := RStatus.expired } else r) := by
      by_cases hc : r.status = RStatus.active ∧ now > r.expiresAt
      · rw [if_pos hc, if_pos hc]
      · rw [if_neg hc, if_neg hc]
    rw [hF]
    by_cases hk : k = rid
    · simp [alookup, hk]
    · simp only [alookup, if_neg hk]
      exact ih

theorem alookup_cleanup (s : EcoState) (now : ℚ) (rid : Nat) :
    alookup (cleanupExpiredReservations s now).reservations rid =
      (alookup s.reservations rid).map (fun r =>
        if r.status = RStatus.active ∧ now > r.expiresAt then
          { r with status := RStatus.expired } else r) :=
  alookup_cleanup_list s.reservations now rid

theorem statusStep_refl (a : List (Nat × Reservation)) : StatusStep a a :=
  fun _ r h => ⟨r, h, fun x => x, fun _ => Or.inl rfl⟩

theorem statusStep_of_eq {a b : List (Nat × Reservation)} (h : a = b) : StatusStep a b :=
  h ▸ statusStep_refl a

theorem statusStep_trans {a b c : List (Nat × Reservation)}
    (h1 : StatusStep a b) (h2 : StatusStep b c) : StatusStep a c := by
  intro rid r hr
  obtain ⟨r', hb, hb1, hb2⟩ := h1 rid r hr
  obtain ⟨r'', hc, hc1, hc2⟩ := h2 rid r' hb
  refine ⟨r'', hc, fun h => hb1 (hc1 h), fun hn => ?_⟩
  have hn' : r'.status ≠ RStatus.active := fun he => hn (hb1 he)
  rcases hc2 hn' with h | h
  · rcases hb2 hn with h2 | h2
    · exact Or.inl (h.trans h2)
    · exact Or.inr (h.trans h2)
  · exact Or.inr h

theorem statusStep_cleanup (s : EcoState) (now : ℚ) :
    StatusStep s.reservations (cleanupExpiredReservations s now).reservations := by
  intro rid r hr
  rw [alookup_cleanup, hr]
  by_cases hc : r.status = RStatus.active ∧ now > r.expiresAt
  · refine ⟨_, rfl, ?_, ?_⟩
    · simp [hc]
    · intro hn
      exact absurd hc.1 hn
  · refine ⟨_, rfl, ?_, ?_⟩
    · simp [hc]
    · intro _
      simp [hc]

theorem statusStep_release (s : EcoState) (rid2 : Nat) :
    StatusStep s.reservations ((releaseReservation s rid2).2).reservations := by
  unfold releaseReservation
  cases h2 : alookup s.reservations rid2 with
  | none => exact statusStep_refl _
  | some r2 =>
    intro rid r hr
    by_cases hk : rid2 = rid
    · subst hk
      refine ⟨{ r with status := RStatus.released }, ?_, ?_, fun _ => Or.inr rfl⟩
      · show alookup (aupdate s.reservations rid2 _) rid2 = _
        rw [alookup_aupdate_self, hr]
        rfl
      · intro h
        simp at h
    · refine ⟨r, ?_, fun x => x, fun _ => Or.inl rfl⟩
      show alookup (aupdate s.reservations rid2 _) rid = _
      rw [alookup_aupdate_other _ _ _ _ hk, hr]

theorem statusStep_release_of_eq {s t : EcoState} (rid2 : Nat)
    (h : t.reservations = s.reservations) :
    StatusStep s.reservations ((releaseReservation t rid2).2).reservations :=
  h ▸ statusStep_release t rid2

theorem statusStep_setActive (s : EcoState) (rid2 : Nat) (r2 : Reservation)
    (h2 : alookup s.reservations rid2 = some r2) (ha : r2.status = RStatus.active)
    (st : RStatus) :
    StatusStep s.reservations (setReservationStatus s rid2 st).reservations := by
  intro rid r hr
  by_cases hk : rid2 = rid
  · subst hk
    rw [hr] at h2
    obtain rfl : r = r2 := Option.some.inj h2
    refine ⟨{ r with status := st }, ?_, ?_, ?_⟩
    · show alookup (aupdate s.reservations rid2 _) rid2 = _
      rw [alookup_aupdate_self, hr]
      rfl
    · intro _
      exact ha
    · intro hn
      exact absurd ha hn
  · refine ⟨r, ?_, fun x => x, fun _ => Or.inl rfl⟩
    show alookup (aupdate s.reservations rid2 _) rid = _
    rw [alookup_aupdate_other _ _ _ _ hk, hr]

theorem statusStep_confirm (s : EcoState) (now : ℚ) (rid2 : Nat) :
    StatusStep s.reservations ((confirmReservation s now rid2).2).reservations := by
  unfold confirmReservation
  cases h2 : alookup s.reservations rid2 with
  | none => exact statusStep_refl _
  | some r2 =>
    dsimp only
    by_cases hs : r2.status ≠ RStatus.active
    · rw [if_pos hs]
      exact statusStep_refl _
    · rw [if_neg hs]
      have ha : r2.status = RStatus.active := not_not.mp hs
      split_ifs with hexp
      · exact statusStep_setActive s rid2 r2 h2 ha RStatus.expired
      · exact statusStep_setActive s rid2 r2 h2 ha RStatus.confirmed

theorem statusStep_confirm_of_eq {s t : EcoState} (now : ℚ) (rid2 : Nat)
    (h : t.reservations = s.reservations) :
    StatusStep s.reservations ((confirmReservation t now rid2).2).reservations :=
  h ▸ statusStep_confirm t now rid2

theorem statusStep_validate (s : EcoState) (now : ℚ) (rid2 : Nat)
    (b sel pid : String) (q : ℚ) :
    StatusStep s.reservations
      ((validateReservation s now rid2 b sel pid q).2).reservations := by
  have hclean := statusStep_cleanup s now
  simp only [validateReservation]
  cases h2 : alookup (cleanupExpiredReservations s now).reservations rid2 with
  | none => exact hclean
  | some r2 =>
    dsimp only
    by_cases hs : r2.status ≠ RStatus.active
    · rw [if_pos hs]
      exact hclean
    · rw [if_neg hs]
      have ha : r2.status = RStatus.active := not_not.mp hs
      split_ifs with hexp
      · exact statusStep_trans hclean
          (statusStep_setActive (cleanupExpiredReservations s now) rid2 r2 h2 ha
            RStatus.expired)
      all_goals exact hclean

theorem statusStep_purchase (s : EcoState) (now : ℚ) (month : Int)
    (buyer seller : String) (product : Product) (quantity : ℚ) (rid? : Option Nat) :
    StatusStep s.reservations
      ((processPurchase s now month buyer seller product quantity rid?).2).reservations := by
  simp only [processPurchase]
  cases hb : alookup s.ledger buyer with
  | none => exact statusStep_refl _
  | some bBal =>
    dsimp only
    by_cases hlt : bBal < product.price * quantity * (1 + s.vatRate)
    · rw [if_pos hlt]
      cases rid? with
      | none => exact statusStep_refl _
      | some rid2 => exact statusStep_release s rid2
    · rw [if_neg hlt]
      cases rid? with
      | none =>
        by_cases hchk : checkAndReserveInventory s now seller product quantity
        · simp only [hchk, if_true]
          split
          · exact statusStep_of_eq (by simp)
          · split
            · exact statusStep_of_eq (by simp)
            · split
              · exact statusStep_of_eq (by simp)
              · exact statusStep_of_eq (by simp)
        · simp only [hchk, Bool.false_eq_true, if_false]
          exact statusStep_of_eq (by simp)
      | some rid2 =>
        by_cases hv1 : (validateReservation s now rid2 buyer seller product.productId
            quantity).1
        · simp only [hv1, if_true]
          have hval := statusStep_validate s now rid2 buyer seller product.productId quantity
          split
          · exact statusStep_trans hval (statusStep_of_eq (by simp))
          · split
            · exact statusStep_trans hval (statusStep_of_eq (by simp))
            · split
              · exact statusStep_trans hval (statusStep_confirm_of_eq now rid2 (by simp))
              · exact statusStep_trans hval (statusStep_release_of_eq rid2 (by simp))
        · simp only [Bool.not_eq_true] at hv1
          simp only [hv1, Bool.false_eq_true, if_false]
          exact statusStep_trans
            (statusStep_validate s now rid2 buyer seller product.productId quantity)
            (statusStep_release_of_eq rid2 rfl)

theorem alookup_mem [DecidableEq κ] {m : List (κ × β)} {k : κ} {v : β}
    (h : alookup m k = some v) : (k, v) ∈ m := by
  induction m with
  | nil => simp [alookup] at h
  | cons e rest ih =>
    obtain ⟨k', v'⟩ := e
    by_cases hk : k' = k
    · subst hk
      simp only [alookup, if_pos rfl] at h
      injection h with h
      subst h
      exact List.mem_cons_self _ _
    · simp only [alookup, if_neg hk] at h
      exact List.mem_cons_of_mem _ (ih h)

theorem resIdsFresh_cleanup (s : EcoState) (now : ℚ) (hwf : ResIdsFresh s) :
    ResIdsFresh (cleanupExpiredReservations s now) := by
  intro e he
  simp only [cleanupExpiredReservations] at he
  obtain ⟨a, ha, hfa⟩ := List.mem_map.mp he
  have hlt := hwf a ha
  have hkey : e.1 = a.1 := by
    by_cases hc : a.2.status = RStatus.active ∧ now > a.2.expiresAt
    · rw [← hfa]
      simp [hc]
    · rw [← hfa]
      simp [hc]
  show e.1 < s.nextRid
  rw [hkey]
  exact hlt

theorem statusStep_reserve (s : EcoState) (now : ℚ)
    (b sel pid pname : String) (q : ℚ) (t : Option ℚ) (m : Option Int)
    (hwf : ResIdsFresh s) :
    StatusStep s.reservations
      ((reserveInventory s now b sel pid pname q t m).2).reservations := by
  have hclean := statusStep_cleanup s now
  simp only [reserveInventory]
  split_ifs with h1 h2
  · cases m with
    | none => exact hclean
    | some mm =>
      refine statusStep_trans hclean (statusStep_of_eq ?_)
      rw [recordUnmetDemand_reservations]
  · exact hclean
  · refine statusStep_trans hclean ?_
    intro rid r hr
    refine ⟨r, ?_, fun x => x, fun _ => Or.inl rfl⟩
    show alookup (((cleanupExpiredReservations s now).nextRid, _) :: _) rid = some r
    have hlt : rid < (cleanupExpiredReservations s now).nextRid :=
      resIdsFresh_cleanup s now hwf ⟨rid, r⟩ (alookup_mem hr)
    simp only [alookup, if_neg (Nat.ne_of_gt hlt)]
    exact hr

/-! ## Claim C3 -/

/-- Claim C3: `calculate_progressive_income_tax` is a pure function of
the gross wage: for every `g ≥ 0` and bracket list sorted ascending by
cutoff it returns the specification sum over brackets with `g > c_i` of
`rate_i * (min(g, c_{i+1}) - c_i)` (last upper bound `+inf`), and on
brackets `[(0, 0.10), (10000, 0.15)]` with `g = 15000` it returns
`1750`. -/
theorem calculate_progressive_income_tax_matches_spec :
    (∀ (brackets : List TaxBracket) (g : ℚ), 0 ≤ g →
      List.Pairwise (fun a b => a.cutoff ≤ b.cutoff) brackets →
      calculateProgressiveIncomeTax brackets g = specProgressiveTax brackets g) ∧
    calculateProgressiveIncomeTax [⟨0, 1/10⟩, ⟨10000, 3/20⟩] 15000 = 1750 := by
  constructor
  · intro brackets g _ hsorted
    induction brackets with
    | nil => rfl
    | cons b rest ih =>
      rcases List.pairwise_cons.mp hsorted with ⟨hhead, htail⟩
      by_cases hc : b.cutoff < g
      · simp only [calculateProgressiveIncomeTax, specProgressiveTax, if_pos hc]
        rw [ih htail]
      · simp only [calculateProgressiveIncomeTax, specProgressiveTax, if_neg hc]
        have hg : g ≤ b.cutoff := not_lt.mp hc
        rw [specProgressiveTax_eq_zero rest g (fun x hx => le_trans hg (hhead x hx))]
        norm_num
  · norm_num [calculateProgressiveIncomeTax, qmin, upperCutoff]

/-- Witness for C3: the equivalence applied at the worked example of the
specification. -/
theorem calculate_progressive_income_tax_matches_spec_witness :
    (0 : ℚ) ≤ 15000 ∧
    calculateProgressiveIncomeTax [⟨0, 1/10⟩, ⟨10000, 3/20⟩] 15000 =
      specProgressiveTax [⟨0, 1/10⟩, ⟨10000, 3/20⟩] 15000 :=
  ⟨by norm_num,
    calculate_progressive_income_tax_matches_spec.1 [⟨0, 1/10⟩, ⟨10000, 3/20⟩] 15000
      (by norm_num) (by decide)⟩

/-! ## Claim C10 -/

/-- Counterexample to claim C10 as stated: calling
`query_financial_summary` on an agent that has no firm-financial record
changes the firm-financials map (the unconditional defaultdict read on
line 684 inserts the default entry), so the call is not read-only. -/
theorem query_financial_summary_not_readonly :
    (queryFinancialSummary queryFixture "h1").2.firmFinancials ≠
      queryFixture.firmFinancials ∧
    (queryFinancialSummary queryFixture "h1").2 ≠ queryFixture := by
  constructor <;> decide

/-- Claim C10 (amended): `query_balance` is fully read-only and returns
the current ledger balance (`0.0` for unknown agents);
`query_financial_summary` never touches the ledger, the transaction log
or the reservations, and is read-only for agents that already have a
firm-financials record, but for an agent without one it appends the
default `{total_income: 0, total_expenses: 0}` entry to the
firm-financials map. -/
theorem query_ops_frame :
    (∀ (s : EcoState) (a : String),
      (queryBalance s a).2 = s ∧ (queryBalance s a).1 = (alookup s.ledger a).getD 0) ∧
    (∀ (s : EcoState) (a : String), amem s.firmFinancials a = true →
      (queryFinancialSummary s a).2 = s) ∧
    (∀ (s : EcoState) (a : String), amem s.firmFinancials a = false →
      (queryFinancialSummary s a).2 =
        { s with firmFinancials := s.firmFinancials ++ [(a, ⟨0, 0⟩)] }) := by
  refine ⟨fun s a => ⟨rfl, rfl⟩, fun s a h => ?_, fun s a h => ?_⟩
  · simp only [queryFinancialSummary, aensure, h, if_true]
  · simp only [queryFinancialSummary, aensure, h, Bool.false_eq_true, if_false]

/-- Witness for C10: both branches of the frame theorem applied to the
fixture state. -/
theorem query_ops_frame_witness :
    (queryBalance queryFixture "h1").2 = queryFixture ∧
    amem queryFixture.firmFinancials "h1" = false ∧
    (queryFinancialSummary queryFixture "h1").2 =
      { queryFixture with firmFinancials := queryFixture.firmFinancials ++ [("h1", ⟨0, 0⟩)] } :=
  ⟨(query_ops_frame.1 queryFixture "h1").1, by decide,
    query_ops_frame.2.2 queryFixture "h1" (by decide)⟩

/-! ## Claim C7 -/

/-- Counterexample to claim C7 as stated: `process_purchase` checks the
buyer balance against the VAT-inclusive cost without consulting the firm
registry, so a registered firm (`f2`, balance 1, registered in
`firm_id`) attempting a purchase costing 11 is hard-blocked: the call
fails and the state is returned unchanged, although the claim says a
firm-type sender can never fail on insufficient funds. -/
theorem process_purchase_blocks_firm_buyer :
    "f2" ∈ firmBuyerFixture.firmId ∧
    processPurchase firmBuyerFixture 0 1 "f2" "f1" widget 1 none =
      (.failed, firmBuyerFixture) := by
  constructor
  · decide
  · norm_num [processPurchase, alookup, firmBuyerFixture, emptyEco, widget]

/-- Claim C7 (amended): the household/firm distinction holds for the
ledger-level service transfer `add_tx_service` — a sender that is not a
registered firm is hard-blocked by a raised `ValueError` with the state
unchanged when its balance is below the amount, while a registered firm
sender always proceeds (its balance simply goes negative) — but
`process_purchase` is an exception: it hard-blocks every buyer whose
balance is below the VAT-inclusive cost, firms included, returning
failure with no state change. -/
theorem insufficient_funds_policy :
    (∀ (s : EcoState) (month : Int) (sender receiver : String) (amount bal : ℚ),
      alookup s.ledger sender = some bal → sender ∉ s.firmId → bal < amount →
      addTxService s month sender receiver amount = (.raised, s)) ∧
    (∀ (s : EcoState) (month : Int) (sender receiver : String) (amount bal rbal : ℚ),
      alookup s.ledger sender = some bal → sender ∈ s.firmId →
      alookup s.ledger receiver = some rbal → sender ≠ receiver →
      (addTxService s month sender receiver amount).1 =
        .ok ⟨sender, receiver, amount, "service", month⟩ ∧
      alookup (addTxService s month sender receiver amount).2.ledger sender =
        some (bal - amount)) ∧
    (∀ (s : EcoState) (now : ℚ) (month : Int) (buyer seller : String) (product : Product)
      (quantity bal : ℚ),
      alookup s.ledger buyer = some bal →
      bal < product.price * quantity * (1 + s.vatRate) →
      processPurchase s now month buyer seller product quantity none = (.failed, s)) := by
  refine ⟨?_, ?_, ?_⟩
  · intro s month sender receiver amount bal h1 h2 h3
    simp only [addTxService, h1]
    rw [if_pos ⟨h2, h3⟩]
  · intro s month sender receiver amount bal rbal h1 h2 h3 h4
    simp only [addTxService, h1]
    rw [if_neg (fun hc => hc.1 h2)]
    have hr : alookup (adjustBalance s sender (-amount)).ledger receiver = some rbal := by
      rw [adjustBalance_lookup_other s sender receiver (-amount) h4]
      exact h3
    simp only [hr]
    constructor
    · rfl
    · have hs : alookup
          (adjustBalance (adjustBalance s sender (-amount)) receiver amount).ledger sender =
          alookup (adjustBalance s sender (-amount)).ledger sender :=
        adjustBalance_lookup_other _ receiver sender amount (fun h => h4 h.symm)
      simp only [recordTransaction_ledger, hs, adjustBalance_lookup_self, h1]
      rw [sub_eq_add_neg]
      rfl
  · intro s now month buyer seller product quantity bal h1 h2
    simp only [processPurchase, h1]
    rw [if_pos h2]

/-- Witness for C7: the amended policy applied to a concrete household
block, a concrete firm overdraft, and the concrete blocked firm
purchase. -/
theorem insufficient_funds_policy_witness :
    addTxService { firmBuyerFixture with firmId := [] } 1 "f2" "f1" 5 =
      (.raised, { firmBuyerFixture with firmId := [] }) ∧
    (addTxService firmBuyerFixture 1 "f2" "f1" 5).1 = .ok ⟨"f2", "f1", 5, "service", 1⟩ ∧
    alookup (addTxService firmBuyerFixture 1 "f2" "f1" 5).2.ledger "f2" = some (1 - 5) ∧
    processPurchase firmBuyerFixture 0 1 "f2" "f1" widget 1 none =
      (.failed, firmBuyerFixture) := by
  refine ⟨?_, ?_, ?_, ?_⟩
  · exact insufficient_funds_policy.1 _ 1 "f2" "f1" 5 1 (by decide) (by decide) (by norm_num)
  · exact (insufficient_funds_policy.2.1 _ 1 "f2" "f1" 5 1 100 (by decide) (by decide)
      (by decide) (by decide)).1
  · exact (insufficient_funds_policy.2.1 _ 1 "f2" "f1" 5 1 100 (by decide) (by decide)
      (by decide) (by decide)).2
  · exact insufficient_funds_policy.2.2 _ 0 1 "f2" "f1" widget 1 1 (by decide)
      (by norm_num [widget, firmBuyerFixture, emptyEco])

/-! ## Claim C9 -/

/-- Claim C9: for every `process_wage` call over existing, pairwise
distinct household / firm / government accounts with nonnegative hours
and periods, with `gross = wage_hour * hours_per_period *
periods_per_month`, `tax = calculate_progressive_income_tax gross` and
`net = max 0 (gross - tax)`, the household balance increases by exactly
`net`, the government balance by exactly `tax`, and the firm balance
decreases by the full `gross`. -/
theorem process_wage_deltas
    (s : EcoState) (month : Int) (wageHour : ℚ) (household firm : String)
    (hpp ppm hBal fBal gBal : ℚ)
    (h1 : alookup s.ledger household = some hBal)
    (h2 : alookup s.ledger firm = some fBal)
    (h3 : alookup s.ledger govId = some gBal)
    (hne1 : household ≠ firm) (hne2 : household ≠ govId) (hne3 : firm ≠ govId)
    (hfe : firm ≠ "") (hpp0 : 0 ≤ hpp) (hppm0 : 0 ≤ ppm) :
    alookup (processWage s month wageHour household firm hpp ppm).2.ledger household =
      some (hBal + max 0 (wageHour * hpp * ppm -
        calculateProgressiveIncomeTax s.incomeTaxRate (wageHour * hpp * ppm))) ∧
    alookup (processWage s month wageHour household firm hpp ppm).2.ledger govId =
      some (gBal + calculateProgressiveIncomeTax s.incomeTaxRate (wageHour * hpp * ppm)) ∧
    alookup (processWage s month wageHour household firm hpp ppm).2.ledger firm =
      some (fBal - wageHour * hpp * ppm) := by
  have hq1 : qmax 0 hpp = hpp := by simp [qmax, hpp0]
  have hq2 : qmax 0 ppm = ppm := by simp [qmax, hppm0]
  have eHG : ∀ (t : EcoState) (d : ℚ),
      alookup (adjustBalance t household d).ledger govId = alookup t.ledger govId :=
    fun t d => adjustBalance_lookup_other t household govId d hne2
  have eHF : ∀ (t : EcoState) (d : ℚ),
      alookup (adjustBalance t household d).ledger firm = alookup t.ledger firm :=
    fun t d => adjustBalance_lookup_other t household firm d hne1
  have eGF : ∀ (t : EcoState) (d : ℚ),
      alookup (adjustBalance t govId d).ledger firm = alookup t.ledger firm :=
    fun t d => adjustBalance_lookup_other t govId firm d (Ne.symm hne3)
  have eGH : ∀ (t : EcoState) (d : ℚ),
      alookup (adjustBalance t govId d).ledger household = alookup t.ledger household :=
    fun t d => adjustBalance_lookup_other t govId household d (Ne.symm hne2)
  have eFH : ∀ (t : EcoState) (d : ℚ),
      alookup (adjustBalance t firm d).ledger household = alookup t.ledger household :=
    fun t d => adjustBalance_lookup_other t firm household d (Ne.symm hne1)
  have eFG : ∀ (t : EcoState) (d : ℚ),
      alookup (adjustBalance t firm d).ledger govId = alookup t.ledger govId :=
    fun t d => adjustBalance_lookup_other t firm govId d hne3
  have hnet : (if wageHour * hpp * ppm -
        calculateProgressiveIncomeTax s.incomeTaxRate (wageHour * hpp * ppm) < 0 then (0:ℚ)
      else wageHour * hpp * ppm -
        calculateProgressiveIncomeTax s.incomeTaxRate (wageHour * hpp * ppm)) =
      max 0 (wageHour * hpp * ppm -
        calculateProgressiveIncomeTax s.incomeTaxRate (wageHour * hpp * ppm)) := by
    by_cases hv : wageHour * hpp * ppm -
        calculateProgressiveIncomeTax s.incomeTaxRate (wageHour * hpp * ppm) < 0
    · simp [hv, max_eq_left hv.le]
    · simp [hv, max_eq_right (not_lt.mp hv)]
  simp only [processWage, hq1, hq2, recordTransaction_ledger, h1, eHG, h3, if_neg hfe,
    eGF, eHF, h2, eFH, eGH, eFG, adjustBalance_lookup_self,
    recordFirmExpense_ledger, recordFirmMonthlyExpense_ledger, Option.map, hnet]
  refine ⟨trivial, trivial, ?_⟩
  rw [sub_eq_add_neg]

/-- Witness for C9: the wage theorem applied to the specification's
worked example (hourly wage 93.75, 40 hours, 4 periods, gross 15000). -/
theorem process_wage_deltas_witness :
    alookup (processWage wageFixture 1 (375/4) "h1" "f1" 40 4).2.ledger "h1" =
      some (0 + max 0 ((375/4) * 40 * 4 -
        calculateProgressiveIncomeTax wageFixture.incomeTaxRate ((375/4) * 40 * 4))) ∧
    alookup (processWage wageFixture 1 (375/4) "h1" "f1" 40 4).2.ledger govId =
      some (0 + calculateProgressiveIncomeTax wageFixture.incomeTaxRate ((375/4) * 40 * 4)) ∧
    alookup (processWage wageFixture 1 (375/4) "h1" "f1" 40 4).2.ledger "f1" =
      some (0 - (375/4) * 40 * 4) :=
  process_wage_deltas wageFixture 1 (375/4) "h1" "f1" 40 4 0 0 0 (by decide) (by decide)
    (by decide) (by decide) (by decide) (by decide) (by decide) (by norm_num) (by norm_num)

/-! ## Claim C2 -/

/-- Claim C2: every successful `process_purchase` with ex-tax price
`p = price * quantity` debits the buyer exactly `p * (1 + vat)`,
credits the seller exactly `p`, credits the government account exactly
`vat * p` recorded as a separate `consume_tax` transaction preceding the
`purchase` transaction, and (for distinct buyer, seller, government) the
three ledger deltas sum to zero. -/
theorem process_purchase_success_conserves
    (s : EcoState) (now : ℚ) (month : Int) (buyer seller : String) (product : Product)
    (quantity : ℚ) (rid : Option Nat) (tx : Tx) (s' : EcoState) (bBal sBal gBal : ℚ)
    (hrun : processPurchase s now month buyer seller product quantity rid = (.ok tx, s'))
    (hbs : buyer ≠ seller) (hbg : buyer ≠ govId) (hsg : seller ≠ govId)
    (hb : alookup s.ledger buyer = some bBal)
    (hs : alookup s.ledger seller = some sBal)
    (hg : alookup s.ledger govId = some gBal) :
    alookup s'.ledger buyer = some (bBal - product.price * quantity * (1 + s.vatRate)) ∧
    alookup s'.ledger seller = some (sBal + product.price * quantity) ∧
    alookup s'.ledger govId = some (gBal + product.price * quantity * s.vatRate) ∧
    s'.txHistory = s.txHistory ++
      [⟨buyer, govId, product.price * quantity * s.vatRate, "consume_tax", month⟩,
       ⟨buyer, seller, product.price * quantity, "purchase", month⟩] ∧
    tx = ⟨buyer, seller, product.price * quantity, "purchase", month⟩ ∧
    (bBal - product.price * quantity * (1 + s.vatRate) - bBal) +
      (sBal + product.price * quantity - sBal) +
      (gBal + product.price * quantity * s.vatRate - gBal) = 0 := by
  have eSB : ∀ (t : EcoState) (d : ℚ),
      alookup (adjustBalance t seller d).ledger buyer = alookup t.ledger buyer :=
    fun t d => adjustBalance_lookup_other t seller buyer d (Ne.symm hbs)
  have eGB : ∀ (t : EcoState) (d : ℚ),
      alookup (adjustBalance t govId d).ledger buyer = alookup t.ledger buyer :=
    fun t d => adjustBalance_lookup_other t govId buyer d (Ne.symm hbg)
  have eGS : ∀ (t : EcoState) (d : ℚ),
      alookup (adjustBalance t govId d).ledger seller = alookup t.ledger seller :=
    fun t d => adjustBalance_lookup_other t govId seller d (Ne.symm hsg)
  have eBS : ∀ (t : EcoState) (d : ℚ),
      alookup (adjustBalance t buyer d).ledger seller = alookup t.ledger seller :=
    fun t d => adjustBalance_lookup_other t buyer seller d hbs
  have eBG : ∀ (t : EcoState) (d : ℚ),
      alookup (adjustBalance t buyer d).ledger govId = alookup t.ledger govId :=
    fun t d => adjustBalance_lookup_other t buyer govId d hbg
  have eSG : ∀ (t : EcoState) (d : ℚ),
      alookup (adjustBalance t seller d).ledger govId = alookup t.ledger govId :=
    fun t d => adjustBalance_lookup_other t seller govId d hsg
  simp only [processPurchase, hb] at hrun
  by_cases hlt : bBal < product.price * quantity * (1 + s.vatRate)
  · rw [if_pos hlt] at hrun
    cases rid <;> simp at hrun
  · rw [if_neg hlt] at hrun
    cases rid with
    | none =>
      by_cases hchk : checkAndReserveInventory s now seller product quantity
      · simp only [hchk, if_true, if_false] at hrun
        have m1 : alookup ((recordTransaction
            (adjustBalance s buyer (-(product.price * quantity * (1 + s.vatRate))))
            buyer govId (product.price * quantity * s.vatRate) "consume_tax" month).2).ledger
            govId = some gBal := by
          rw [recordTransaction_ledger, eBG, hg]
        simp only [m1] at hrun
        have m2 : alookup ((recordTransaction (adjustBalance (recordTransaction
            (adjustBalance s buyer (-(product.price * quantity * (1 + s.vatRate))))
            buyer govId (product.price * quantity * s.vatRate) "consume_tax" month).2
            govId (product.price * quantity * s.vatRate))
            buyer seller (product.price * quantity) "purchase" month).2).ledger seller =
            some sBal := by
          rw [recordTransaction_ledger, eGS, recordTransaction_ledger, eBS, hs]
        simp only [m2] at hrun
        by_cases hred : (reduceOrRemoveProduct (addOrMergeProduct (recordFirmMonthlyIncome
            (recordFirmIncome (adjustBalance (recordTransaction (adjustBalance
            (recordTransaction (adjustBalance s buyer
              (-(product.price * quantity * (1 + s.vatRate))))
            buyer govId (product.price * quantity * s.vatRate) "consume_tax" month).2
            govId (product.price * quantity * s.vatRate))
            buyer seller (product.price * quantity) "purchase" month).2
            seller (product.price * quantity)) seller (product.price * quantity))
            seller month (product.price * quantity)) buyer product quantity)
            seller product.productId quantity).1
        · rw [if_pos hred] at hrun
          obtain ⟨htx, hst⟩ := Prod.mk.injEq .. ▸ hrun
          obtain rfl : tx = ⟨buyer, seller, product.price * quantity, "purchase", month⟩ :=
            (PurchaseResult.ok.injEq .. ▸ htx).symm
          subst hst
          refine ⟨?_, ?_, ?_, ?_, rfl, by ring⟩
          · simp only [reduceOrRemoveProduct_ledger, addOrMergeProduct_ledger,
              recordFirmMonthlyIncome_ledger, recordFirmIncome_ledger, eSB,
              recordTransaction_ledger, eGB, adjustBalance_lookup_self, hb, Option.map]
            rw [sub_eq_add_neg]
          · simp only [reduceOrRemoveProduct_ledger, addOrMergeProduct_ledger,
              recordFirmMonthlyIncome_ledger, recordFirmIncome_ledger,
              adjustBalance_lookup_self, recordTransaction_ledger, eGS, eBS, hs, Option.map]
          · simp only [reduceOrRemoveProduct_ledger, addOrMergeProduct_ledger,
              recordFirmMonthlyIncome_ledger, recordFirmIncome_ledger, eSG,
              recordTransaction_ledger, adjustBalance_lookup_self, eBG, hg, Option.map]
          · simp [reduceOrRemoveProduct_txHistory, addOrMergeProduct_txHistory,
              recordFirmMonthlyIncome_txHistory, recordFirmIncome_txHistory,
              adjustBalance_txHistory, recordTransaction_txHistory]
        · rw [if_neg hred] at hrun
          simp at hrun
      · simp only [hchk, if_false, Bool.false_eq_true] at hrun
        simp at hrun
    | some rv =>
      by_cases hv1 : (validateReservation s now rv buyer seller product.productId quantity).1
      · simp only [hv1, if_true] at hrun
        have hvled : ((validateReservation s now rv buyer seller product.productId
            quantity).2).ledger = s.ledger := validateReservation_ledger ..
        have hvtx : ((validateReservation s now rv buyer seller product.productId
            quantity).2).txHistory = s.txHistory := validateReservation_txHistory ..
        have m1 : alookup ((recordTransaction
            (adjustBalance (validateReservation s now rv buyer seller product.productId
              quantity).2 buyer (-(product.price * quantity * (1 + s.vatRate))))
            buyer govId (product.price * quantity * s.vatRate) "consume_tax" month).2).ledger
            govId = some gBal := by
          rw [recordTransaction_ledger]
          show alookup (adjustBalance _ buyer _).ledger govId = _
          rw [eBG]
          show alookup ((validateReservation s now rv buyer seller product.productId
            quantity).2).ledger govId = _
          rw [hvled, hg]
        simp only [m1] at hrun
        have m2 : alookup ((recordTransaction (adjustBalance (recordTransaction
            (adjustBalance (validateReservation s now rv buyer seller product.productId
              quantity).2 buyer (-(product.price * quantity * (1 + s.vatRate))))
            buyer govId (product.price * quantity * s.vatRate) "consume_tax" month).2
            govId (product.price * quantity * s.vatRate))
            buyer seller (product.price * quantity) "purchase" month).2).ledger seller =
            some sBal := by
          rw [recordTransaction_ledger, eGS, recordTransaction_ledger, eBS]
          show alookup ((validateReservation s now rv buyer seller product.productId
            quantity).2).ledger seller = _
          rw [hvled, hs]
        simp only [m2] at hrun
        by_cases hred : (reduceOrRemoveProduct (addOrMergeProduct (recordFirmMonthlyIncome
            (recordFirmIncome (adjustBalance (recordTransaction (adjustBalance
            (recordTransaction (adjustBalance (validateReservation s now rv buyer seller
              product.productId quantity).2 buyer
              (-(product.price * quantity * (1 + s.vatRate))))
            buyer govId (product.price * quantity * s.vatRate) "consume_tax" month).2
            govId (product.price * quantity * s.vatRate))
            buyer seller (product.price * quantity) "purchase" month).2
            seller (product.price * quantity)) seller (product.price * quantity))
            seller month (product.price * quantity)) buyer product quantity)
            seller product.productId quantity).1
        · rw [if_pos hred] at hrun
          obtain ⟨htx, hst⟩ := Prod.mk.injEq .. ▸ hrun
          obtain rfl : tx = ⟨buyer, seller, product.price * quantity, "purchase", month⟩ :=
            (PurchaseResult.ok.injEq .. ▸ htx).symm
          subst hst
          refine ⟨?_, ?_, ?_, ?_, rfl, by ring⟩
          · simp only [confirmReservation_ledger, reduceOrRemoveProduct_ledger,
              addOrMergeProduct_ledger, recordFirmMonthlyIncome_ledger,
              recordFirmIncome_ledger, eSB, recordTransaction_ledger, eGB,
              adjustBalance_lookup_self, hvled, hb, Option.map]
            rw [sub_eq_add_neg]
          · simp only [confirmReservation_ledger, reduceOrRemoveProduct_ledger,
              addOrMergeProduct_ledger, recordFirmMonthlyIncome_ledger,
              recordFirmIncome_ledger, adjustBalance_lookup_self, recordTransaction_ledger,
              eGS, eBS, hvled, hs, Option.map]
          · simp only [confirmReservation_ledger, reduceOrRemoveProduct_ledger,
              addOrMergeProduct_ledger, recordFirmMonthlyIncome_ledger,
              recordFirmIncome_ledger, eSG, recordTransaction_ledger,
              adjustBalance_lookup_self, eBG, hvled, hg, Option.map]
          · simp [confirmReservation_txHistory, reduceOrRemoveProduct_txHistory,
              addOrMergeProduct_txHistory, recordFirmMonthlyIncome_txHistory,
              recordFirmIncome_txHistory, adjustBalance_txHistory,
              recordTransaction_txHistory, hvtx]
        · rw [if_neg hred] at hrun
          simp at hrun
      · simp only [Bool.not_eq_true] at hv1
        simp only [hv1, Bool.false_eq_true, if_false] at hrun
        simp at hrun

/-- Fixture for C2: funded buyer, seller with stock, government account,
VAT 10 percent. -/
theorem process_purchase_success_conserves_witness :
    processPurchase { firmBuyerFixture with ledger := [("h1", 100), ("f1", 0),
        ("gov_main_simulation", 0)] } 0 1 "h1" "f1" widget 1 none =
      (.ok ⟨"h1", "f1", 10, "purchase", 1⟩,
        (processPurchase { firmBuyerFixture with ledger := [("h1", 100), ("f1", 0),
          ("gov_main_simulation", 0)] } 0 1 "h1" "f1" widget 1 none).2) ∧
    alookup (processPurchase { firmBuyerFixture with ledger := [("h1", 100), ("f1", 0),
        ("gov_main_simulation", 0)] } 0 1 "h1" "f1" widget 1 none).2.ledger "h1" =
      some (100 - widget.price * 1 * (1 + (1/10))) := by
  have hrun : processPurchase { firmBuyerFixture with ledger := [("h1", 100), ("f1", 0),
      ("gov_main_simulation", 0)] } 0 1 "h1" "f1" widget 1 none =
      (.ok ⟨"h1", "f1", 10, "purchase", 1⟩,
        (processPurchase { firmBuyerFixture with ledger := [("h1", 100), ("f1", 0),
          ("gov_main_simulation", 0)] } 0 1 "h1" "f1" widget 1 none).2) := by
    norm_num [processPurchase, checkAndReserveInventory, getAvailableStock, actualStock,
      reservedQuantity, resSum, stockOf, qmax, amem, alookup, agetd, firmBuyerFixture,
      emptyEco, widget, govId, recordUnmetDemand, Prod.ext_iff, recordTransaction,
      reduceOrRemoveProduct, reduceProductList, addOrMergeProduct, addProductList, aset,
      aupdate, adjustBalance, recordFirmIncome, recordFirmMonthlyIncome, aupsert, aensure]
    decide
  constructor
  · exact hrun
  · have := process_purchase_success_conserves _ 0 1 "h1" "f1" widget 1 none _ _ 100 0 0
      hrun (by decide) (by decide) (by decide) (by decide) (by decide) (by decide)
    have hb := this.1
    simpa [widget, firmBuyerFixture, emptyEco] using hb

/-! ## Claim C1 -/

/-- Claim C1 is violated by the code (a bug relative to the documented
all-or-nothing contract): `process_purchase` debits the buyer, credits
the government and the seller and appends both the `consume_tax` and the
`purchase` records *before* attempting the goods transfer.  The failing
input: seller `f1` stocks exactly 2 units; buyer `h1` holds an active
reservation for quantity 2; the purchase is submitted with quantity
`2 + 1/2000000`, which passes the `1e-6` tolerance of
`validate_reservation` but makes `_reduce_or_remove_product` raise
(stock 2 < 2.0000005).  The call returns the failure value, yet the
buyer has paid `2.0000005 * 1.1`, the government and the seller have
been credited, both transaction records remain appended, and the goods
were already added to the buyer — only the reservation is released. -/
theorem process_purchase_partial_state_on_transfer_failure :
    (processPurchase atomicityFixture 0 1 "h1" "f1" gadget (2 + 1/2000000) (some 0)).1 =
      PurchaseResult.failed ∧
    alookup (processPurchase atomicityFixture 0 1 "h1" "f1" gadget (2 + 1/2000000)
      (some 0)).2.ledger "h1" = some (1955999989/20000000) ∧
    alookup (processPurchase atomicityFixture 0 1 "h1" "f1" gadget (2 + 1/2000000)
      (some 0)).2.ledger "f1" = some (4000001/2000000) ∧
    alookup (processPurchase atomicityFixture 0 1 "h1" "f1" gadget (2 + 1/2000000)
      (some 0)).2.ledger "gov_main_simulation" = some (4000001/20000000) ∧
    (processPurchase atomicityFixture 0 1 "h1" "f1" gadget (2 + 1/2000000)
      (some 0)).2.txHistory.length = atomicityFixture.txHistory.length + 2 ∧
    alookup (processPurchase atomicityFixture 0 1 "h1" "f1" gadget (2 + 1/2000000)
      (some 0)).2.reservations 0 =
      some ⟨"h1", "f1", "p1", "gadget", 2, 100, RStatus.released⟩ ∧
    actualStock (processPurchase atomicityFixture 0 1 "h1" "f1" gadget (2 + 1/2000000)
      (some 0)).2 "f1" "p1" = 2 := by
  norm_num [processPurchase, validateReservation, cleanupExpiredReservations,
    setReservationStatus, releaseReservation, confirmReservation, recordTransaction,
    adjustBalance, recordFirmIncome, recordFirmMonthlyIncome, addOrMergeProduct,
    addProductList, reduceOrRemoveProduct, reduceProductList, aset, aupdate, aupsert,
    aensure, amem, agetd, alookup, qabs, stockOf, actualStock, atomicityFixture,
    emptyEco, gadget, govId]
  simp

/-! ## Claim C6 -/

theorem settleFirmStep_other (month : Int) (acc : List (String × ℚ) × EcoState)
    (g f : String) (hne : g ≠ f) (hfg : f ≠ govId) :
    alookup (settleFirmStep month acc g).2.ledger f = alookup acc.2.ledger f ∧
    alookup (settleFirmStep month acc g).2.firmMonthlyFinancials (f, month) =
      alookup acc.2.firmMonthlyFinancials (f, month) ∧
    (settleFirmStep month acc g).2.corporateTaxRate = acc.2.corporateTaxRate ∧
    txCorpCount f (settleFirmStep month acc g).2.txHistory =
      txCorpCount f acc.2.txHistory ∧
    alookup (settleFirmStep month acc g).1 f = alookup acc.1 f := by
  have hkey : (g, month) ≠ (f, month) := by simp [hne]
  simp only [settleFirmStep]
  split_ifs with htax
  · exact ⟨alookup_aensure_other _ _ _ _ hne, rfl, rfl, rfl,
      alookup_append_single_other _ _ _ _ hne⟩
  · refine ⟨?_, ?_, rfl, ?_, alookup_append_single_other _ _ _ _ hne⟩
    · simp only [recordTransaction, recordFirmMonthlyExpense, recordFirmExpense,
        adjustBalance]
      rw [alookup_aupdate_other _ _ _ _ (Ne.symm hfg), alookup_aupdate_other _ _ _ _ hne,
        alookup_aensure_other _ _ _ _ hne]
    · simp only [recordTransaction, recordFirmMonthlyExpense, recordFirmExpense,
        adjustBalance]
      exact alookup_aupsert_other _ _ _ _ _ hkey
    · simp only [recordTransaction, recordFirmMonthlyExpense, recordFirmExpense,
        adjustBalance]
      exact txCorpCount_append_other f _ _ hne

theorem settleFirmStep_self (month : Int) (acc : List (String × ℚ) × EcoState)
    (f : String) (fBal : ℚ) (hfg : f ≠ govId)
    (hbal : alookup acc.2.ledger f = some fBal) (hres : alookup acc.1 f = none) :
    (((alookup acc.2.firmMonthlyFinancials (f, month)).getD ⟨0, 0⟩).income -
        ((alookup acc.2.firmMonthlyFinancials (f, month)).getD ⟨0, 0⟩).expenses
        |> qmax 0) * acc.2.corporateTaxRate ≤ 1/1000000000 →
      alookup (settleFirmStep month acc f).2.ledger f = some fBal ∧
      txCorpCount f (settleFirmStep month acc f).2.txHistory = txCorpCount f acc.2.txHistory ∧
      alookup (settleFirmStep month acc f).1 f = some 0 := by
  intro htax
  simp only [settleFirmStep]
  rw [if_pos]
  · refine ⟨?_, rfl, ?_⟩
    · show alookup (aensure acc.2.ledger f 0) f = some fBal
      rw [alookup_aensure_self, hbal]
      rfl
    · rw [alookup_append_none hres]
      simp [alookup]
  · exact htax

theorem settleFirmStep_self_tax (month : Int) (acc : List (String × ℚ) × EcoState)
    (f : String) (fBal : ℚ) (hfg : f ≠ govId)
    (hbal : alookup acc.2.ledger f = some fBal) (hres : alookup acc.1 f = none) :
    1/1000000000 < (((alookup acc.2.firmMonthlyFinancials (f, month)).getD ⟨0, 0⟩).income -
        ((alookup acc.2.firmMonthlyFinancials (f, month)).getD ⟨0, 0⟩).expenses
        |> qmax 0) * acc.2.corporateTaxRate →
      alookup (settleFirmStep month acc f).2.ledger f =
        some (fBal - (((alookup acc.2.firmMonthlyFinancials (f, month)).getD ⟨0, 0⟩).income -
          ((alookup acc.2.firmMonthlyFinancials (f, month)).getD ⟨0, 0⟩).expenses
          |> qmax 0) * acc.2.corporateTaxRate) ∧
      txCorpCount f (settleFirmStep month acc f).2.txHistory =
        txCorpCount f acc.2.txHistory + 1 ∧
      alookup (settleFirmStep month acc f).1 f =
        some ((((alookup acc.2.firmMonthlyFinancials (f, month)).getD ⟨0, 0⟩).income -
          ((alookup acc.2.firmMonthlyFinancials (f, month)).getD ⟨0, 0⟩).expenses
          |> qmax 0) * acc.2.corporateTaxRate) := by
  intro htax
  simp only [settleFirmStep]
  rw [if_neg (not_le.mpr htax)]
  refine ⟨?_, ?_, ?_⟩
  · simp only [recordTransaction, recordFirmMonthlyExpense, recordFirmExpense, adjustBalance]
    rw [alookup_aupdate_other _ _ _ _ (Ne.symm hfg), alookup_aupdate_self,
      alookup_aensure_self, hbal]
    simp [sub_eq_add_neg]
  · simp only [recordTransaction, recordFirmMonthlyExpense, recordFirmExpense, adjustBalance]
    exact txCorpCount_append_self f _ _ rfl rfl
  · rw [alookup_append_none hres]
    simp [alookup]

theorem settleFold_preserves (month : Int) (f : String) (hfg : f ≠ govId) :
    ∀ (fs : List String) (acc : List (String × ℚ) × EcoState), f ∉ fs →
      alookup (fs.foldl (settleFirmStep month) acc).2.ledger f = alookup acc.2.ledger f ∧
      txCorpCount f (fs.foldl (settleFirmStep month) acc).2.txHistory =
        txCorpCount f acc.2.txHistory ∧
      alookup (fs.foldl (settleFirmStep month) acc).1 f = alookup acc.1 f := by
  intro fs
  induction fs with
  | nil => exact fun acc _ => ⟨rfl, rfl, rfl⟩
  | cons g rest ih =>
    intro acc hmem
    have hne : g ≠ f := fun h => hmem (h ▸ List.mem_cons_self g rest)
    have hrest : f ∉ rest := fun h => hmem (List.mem_cons_of_mem g h)
    obtain ⟨l1, _, _, c1, r1⟩ := settleFirmStep_other month acc g f hne hfg
    obtain ⟨l2, c2, r2⟩ := ih (settleFirmStep month acc g) hrest
    exact ⟨l2.trans l1, c2.trans c1, r2.trans r1⟩

theorem settleFold_spec (month : Int) (f : String) (hfg : f ≠ govId) :
    ∀ (fs : List String) (acc : List (String × ℚ) × EcoState) (fBal : ℚ),
      f ∈ fs → fs.Nodup →
      alookup acc.2.ledger f = some fBal → alookup acc.1 f = none →
      (((((alookup acc.2.firmMonthlyFinancials (f, month)).getD ⟨0, 0⟩).income -
          ((alookup acc.2.firmMonthlyFinancials (f, month)).getD ⟨0, 0⟩).expenses
          |> qmax 0) * acc.2.corporateTaxRate ≤ 1/1000000000 →
        alookup (fs.foldl (settleFirmStep month) acc).2.ledger f = some fBal ∧
        txCorpCount f (fs.foldl (settleFirmStep month) acc).2.txHistory =
          txCorpCount f acc.2.txHistory ∧
        alookup (fs.foldl (settleFirmStep month) acc).1 f = some 0) ∧
      (1/1000000000 < ((((alookup acc.2.firmMonthlyFinancials (f, month)).getD ⟨0, 0⟩).income -
          ((alookup acc.2.firmMonthlyFinancials (f, month)).getD ⟨0, 0⟩).expenses
          |> qmax 0) * acc.2.corporateTaxRate) →
        alookup (fs.foldl (settleFirmStep month) acc).2.ledger f =
          some (fBal - ((((alookup acc.2.firmMonthlyFinancials (f, month)).getD ⟨0, 0⟩).income -
            ((alookup acc.2.firmMonthlyFinancials (f, month)).getD ⟨0, 0⟩).expenses
            |> qmax 0) * acc.2.corporateTaxRate)) ∧
        txCorpCount f (fs.foldl (settleFirmStep month) acc).2.txHistory =
          txCorpCount f acc.2.txHistory + 1 ∧
        alookup (fs.foldl (settleFirmStep month) acc).1 f =
          some (((((alookup acc.2.firmMonthlyFinancials (f, month)).getD ⟨0, 0⟩).income -
            ((alookup acc.2.firmMonthlyFinancials (f, month)).getD ⟨0, 0⟩).expenses
            |> qmax 0) * acc.2.corporateTaxRate)))) := by
  intro fs
  induction fs with
  | nil => intro acc fBal hmem; exact absurd hmem (List.not_mem_nil f)
  | cons g rest ih =>
    intro acc fBal hmem hnodup hbal hres
    by_cases hgf : g = f
    · subst hgf
      have hrest : g ∉ rest := (List.nodup_cons.mp hnodup).1
      constructor
      · intro htax
        obtain ⟨l1, c1, r1⟩ := settleFirmStep_self month acc g fBal hfg hbal hres htax
        obtain ⟨l2, c2, r2⟩ := settleFold_preserves month g hfg rest
          (settleFirmStep month acc g) hrest
        exact ⟨l2.trans l1, c2.trans c1, r2.trans r1⟩
      · intro htax
        obtain ⟨l1, c1, r1⟩ := settleFirmStep_self_tax month acc g fBal hfg hbal hres htax
        obtain ⟨l2, c2, r2⟩ := settleFold_preserves month g hfg rest
          (settleFirmStep month acc g) hrest
        exact ⟨l2.trans l1, c2.trans c1, r2.trans r1⟩
    · have hne : g ≠ f := hgf
      have hmem' : f ∈ rest := by
        rcases List.mem_cons.mp hmem with h | h
        · exact absurd h.symm hgf
        · exact h
      obtain ⟨l1, m1, rate1, c1, r1⟩ := settleFirmStep_other month acc g f hne hfg
      have hbal' : alookup (settleFirmStep month acc g).2.ledger f = some fBal :=
        l1.trans hbal
      have hres' : alookup (settleFirmStep month acc g).1 f = none := r1.trans hres
      have := ih (settleFirmStep month acc g) fBal hmem' (List.nodup_cons.mp hnodup).2
        hbal' hres'
      rw [m1, rate1] at this
      constructor
      · intro htax
        obtain ⟨l2, c2, r2⟩ := this.1 htax
        exact ⟨l2, c2.trans c1, r2⟩
      · intro htax
        obtain ⟨l2, c2, r2⟩ := this.2 htax
        exact ⟨l2, c2.trans (by rw [c1]), r2⟩

/-- The month just settled is in the settled set afterwards. -/
theorem settle_marks_month (s : EcoState) (m : Int) :
    m ∈ ((settleMonthlyCorporateTax s m).2).corporateTaxSettledMonths := by
  unfold settleMonthlyCorporateTax
  split_ifs with h1 h2
  · exact h1
  · simp
  · have : ∀ (fs : List String) (acc : List (String × ℚ) × EcoState),
        (fs.foldl (settleFirmStep m) acc).2.corporateTaxSettledMonths =
          acc.2.corporateTaxSettledMonths := by
      intro fs
      induction fs with
      | nil => exact fun acc => rfl
      | cons g rest ih =>
        intro acc
        rw [List.foldl_cons, ih]
        simp only [settleFirmStep]
        split_ifs <;> rfl
    simp [this]

/-- Counterexample to claim C6 as stated: for a firm whose monthly
income equals its monthly expenses the computed tax is zero, and the
first settlement call appends no `corporate_tax` transaction at all
(the `<= 1e-9` guard skips the append), contradicting the claim that
the settlement appends the corporate-tax transaction exactly once for
each firm and month. -/
theorem settle_corporate_tax_zero_profit_no_tx :
    corporateTaxFor corpFixture 3 "f1" = 0 ∧
    (3 : Int) ∉ corpFixture.corporateTaxSettledMonths ∧
    (settleMonthlyCorporateTax corpFixture 3).1 = [("f1", 0)] ∧
    (settleMonthlyCorporateTax corpFixture 3).2.txHistory = [] ∧
    alookup (settleMonthlyCorporateTax corpFixture 3).2.ledger "f1" = some 50 := by
  refine ⟨?_, by decide, ?_⟩
  · norm_num [corporateTaxFor, alookup, qmax, corpFixture, emptyEco]
  · norm_num [settleMonthlyCorporateTax, settleFirmStep, corpFixture, emptyEco, amem,
      alookup, govId, qmax, aensure, agetd]
    simp [alookup]

/-- Claim C6 (amended): `settle_monthly_corporate_tax` is idempotent per
month — a call for an already-settled month, in particular any second
call for the same month, returns an empty result and changes nothing —
and the first call, for each registered firm, computes
`tax = max(0, monthly income - monthly expenses) * corporate_tax_rate`
and, when that tax exceeds the `1e-9` threshold, debits the firm by
exactly that amount (never blocking, the balance may go negative) and
appends its `corporate_tax` transaction exactly once; when the tax is
below the threshold the firm is reported with `0.0` and no transaction
is appended. -/
theorem settle_monthly_corporate_tax_spec :
    (∀ (s : EcoState) (m : Int), m ∈ s.corporateTaxSettledMonths →
      settleMonthlyCorporateTax s m = ([], s)) ∧
    (∀ (s : EcoState) (m : Int),
      settleMonthlyCorporateTax (settleMonthlyCorporateTax s m).2 m =
        ([], (settleMonthlyCorporateTax s m).2)) ∧
    (∀ (s : EcoState) (m : Int) (f : String) (fBal : ℚ),
      m ∉ s.corporateTaxSettledMonths → amem s.ledger govId = true →
      s.firmId.Nodup → f ∈ s.firmId → f ≠ govId →
      alookup s.ledger f = some fBal →
      ((corporateTaxFor s m f ≤ 1/1000000000 →
        alookup (settleMonthlyCorporateTax s m).2.ledger f = some fBal ∧
        txCorpCount f (settleMonthlyCorporateTax s m).2.txHistory =
          txCorpCount f s.txHistory ∧
        alookup (settleMonthlyCorporateTax s m).1 f = some 0) ∧
      (1/1000000000 < corporateTaxFor s m f →
        alookup (settleMonthlyCorporateTax s m).2.ledger f =
          some (fBal - corporateTaxFor s m f) ∧
        txCorpCount f (settleMonthlyCorporateTax s m).2.txHistory =
          txCorpCount f s.txHistory + 1 ∧
        alookup (settleMonthlyCorporateTax s m).1 f = some (corporateTaxFor s m f)))) := by
  have first : ∀ (s : EcoState) (m : Int), m ∈ s.corporateTaxSettledMonths →
      settleMonthlyCorporateTax s m = ([], s) := by
    intro s m h
    unfold settleMonthlyCorporateTax
    rw [if_pos h]
  refine ⟨first, fun s m => first _ m (settle_marks_month s m), ?_⟩
  intro s m f fBal hnm hgov hnd hmem hfg hbal
  have hspec := settleFold_spec m f hfg s.firmId ([], s) fBal hmem hnd hbal rfl
  unfold settleMonthlyCorporateTax
  rw [if_neg hnm, if_neg (by simp [hgov])]
  simpa [corporateTaxFor] using hspec

/-- Witness for C6: the settlement theorem applied to the
profit-making fixture (tax 42 on profit 200 at rate 21 percent), plus
the second-call idempotence at the same fixture. -/
theorem settle_monthly_corporate_tax_spec_witness :
    (alookup (settleMonthlyCorporateTax corpFixtureProfit 3).2.ledger "f1" =
      some (50 - corporateTaxFor corpFixtureProfit 3 "f1") ∧
    txCorpCount "f1" (settleMonthlyCorporateTax corpFixtureProfit 3).2.txHistory =
      txCorpCount "f1" corpFixtureProfit.txHistory + 1 ∧
    alookup (settleMonthlyCorporateTax corpFixtureProfit 3).1 "f1" =
      some (corporateTaxFor corpFixtureProfit 3 "f1")) ∧
    settleMonthlyCorporateTax (settleMonthlyCorporateTax corpFixtureProfit 3).2 3 =
      ([], (settleMonthlyCorporateTax corpFixtureProfit 3).2) :=
  ⟨(settle_monthly_corporate_tax_spec.2.2 corpFixtureProfit 3 "f1" 50 (by decide)
      (by decide) (by decide) (by decide) (by decide) (by decide)).2
      (by norm_num [corporateTaxFor, alookup, qmax, corpFixtureProfit, emptyEco]),
    settle_monthly_corporate_tax_spec.2.1 corpFixtureProfit 3⟩

/-! ## Claim C5 -/

/-- Counterexample to claim C5 as stated: `release_reservation` sets the
status to `released` without checking the current status, so a
reservation that was `confirmed` (reached by a real reserve-confirm
trace from a stocked seller) changes status once more when release is
called on it — `confirmed` is not terminal. -/
theorem release_overwrites_confirmed_reservation :
    (reserveInventory c5Start 0 "h1" "f1" "p1" "gadget" 1 none none).1 =
      ReserveResult.ok 0 ∧
    (alookup c5Confirmed.reservations 0).map Reservation.status =
      some RStatus.confirmed ∧
    c5Released = applyOp c5Confirmed 0 (.releaseOp 0) ∧
    (alookup c5Released.reservations 0).map Reservation.status =
      some RStatus.released := by
  refine ⟨?_, ?_, rfl, ?_⟩
  · norm_num [reserveInventory, cleanupExpiredReservations, getAvailableStock,
      actualStock, reservedQuantity, resSum, stockOf, agetd, alookup, qmax,
      c5Start, emptyEco, gadget]
  · norm_num [c5Confirmed, c5Reserved, confirmReservation, setReservationStatus,
      aupdate, reserveInventory, cleanupExpiredReservations, getAvailableStock,
      actualStock, reservedQuantity, resSum, stockOf, agetd, alookup, qmax,
      c5Start, emptyEco, gadget]
  · norm_num [c5Released, c5Confirmed, c5Reserved, releaseReservation,
      confirmReservation, setReservationStatus, aupdate, reserveInventory,
      cleanupExpiredReservations, getAvailableStock, actualStock, reservedQuantity,
      resSum, stockOf, agetd, alookup, qmax, c5Start, emptyEco, gadget]

/-- Claim C5 (amended): across every operation of the reservation
protocol, a reservation never re-enters `active`, and `confirmed`,
`released`, `expired` are terminal under `confirm_reservation`, the
expiry sweep and every purchase path; the single exception is
`release_reservation` (also as invoked on the purchase failure paths),
which marks any existing reservation `released` regardless of its
current status. -/
theorem reservation_status_machine :
    ∀ (s : EcoState) (now : ℚ) (op : EcoOp) (rid : Nat) (r : Reservation),
      ResIdsFresh s → alookup s.reservations rid = some r →
      ∃ r', alookup (applyOp s now op).reservations rid = some r' ∧
        (r'.status = RStatus.active → r.status = RStatus.active) ∧
        (r.status ≠ RStatus.active →
          r'.status = r.status ∨ r'.status = RStatus.released) := by
  intro s now op rid r hwf hr
  have hstep : StatusStep s.reservations (applyOp s now op).reservations := by
    cases op with
    | reserveOp b sel pid pname q t m =>
      exact statusStep_reserve s now b sel pid pname q t m hwf
    | purchaseOp m b sel p q rid2 => exact statusStep_purchase s now m b sel p q rid2
    | confirmOp rid2 => exact statusStep_confirm s now rid2
    | releaseOp rid2 => exact statusStep_release s rid2
    | sweepOp => exact statusStep_cleanup s now
  exact hstep rid r hr

/-- Witness for C5: the status-machine theorem applied to a literal
state with a confirmed reservation and the release operation. -/
theorem reservation_status_machine_witness :
    ∃ r', alookup (applyOp c5Lit 0 (.releaseOp 0)).reservations 0 = some r' ∧
      (r'.status = RStatus.active →
        (Reservation.mk "h1" "f1" "p1" "g" 1 100 RStatus.confirmed).status =
          RStatus.active) ∧
      ((Reservation.mk "h1" "f1" "p1" "g" 1 100 RStatus.confirmed).status ≠
          RStatus.active →
        r'.status = (Reservation.mk "h1" "f1" "p1" "g" 1 100 RStatus.confirmed).status ∨
          r'.status = RStatus.released) :=
  reservation_status_machine c5Lit 0 (.releaseOp 0) 0
    ⟨"h1", "f1", "p1", "g", 1, 100, RStatus.confirmed⟩
    (by intro e he; simp [c5Lit, emptyEco] at he; simp [he, c5Lit, emptyEco])
    (by decide)

/-! ## Claim C4 -/

/-! Product-list frames: operations that do not touch `self.products`. -/

@[simp] theorem cleanup_products (s : EcoState) (now : ℚ) :
    (cleanupExpiredReservations s now).products = s.products := rfl

@[simp] theorem cleanup_nextRid (s : EcoState) (now : ℚ) :
    (cleanupExpiredReservations s now).nextRid = s.nextRid := rfl

@[simp] theorem setRes_products (s : EcoState) (rid : Nat) (st : RStatus) :
    (setReservationStatus s rid st).products = s.products := rfl

@[simp] theorem releaseReservation_products (s : EcoState) (rid : Nat) :
    ((releaseReservation s rid).2).products = s.products := by
  unfold releaseReservation
  split <;> rfl

@[simp] theorem confirmReservation_products (s : EcoState) (now : ℚ) (rid : Nat) :
    ((confirmReservation s now rid).2).products = s.products := by
  unfold confirmReservation
  split
  · rfl
  · split_ifs <;> rfl

@[simp] theorem validateReservation_products (s : EcoState) (now : ℚ) (rid : Nat)
    (b sel pid : String) (q : ℚ) :
    ((validateReservation s now rid b sel pid q).2).products = s.products := by
  simp only [validateReservation]
  cases h2 : alookup (cleanupExpiredReservations s now).reservations rid with
  | none => rfl
  | some r =>
    dsimp only
    split_ifs <;> rfl

@[simp] theorem adjustBalance_products (s : EcoState) (a : String) (d : ℚ) :
    (adjustBalance s a d).products = s.products := rfl

@[simp] theorem recordTransaction_products (s : EcoState) (a b : String) (amt : ℚ)
    (ty : String) (m : Int) :
    ((recordTransaction s a b amt ty m).2).products = s.products := rfl

@[simp] theorem recordFirmIncome_products (s : EcoState) (f : String) (amt : ℚ) :
    (recordFirmIncome s f amt).products = s.products := rfl

@[simp] theorem recordFirmMonthlyIncome_products (s : EcoState) (f : String)
    (m : Int) (amt : ℚ) :
    (recordFirmMonthlyIncome s f m amt).products = s.products := rfl

@[simp] theorem recordUnmetDemand_products (s : EcoState) (month : Int)
    (sel pid : String) (qr av : ℚ) :
    (recordUnmetDemand s month sel pid qr av).products = s.products := by
  simp only [recordUnmetDemand]
  split_ifs <;> rfl

theorem actualStock_congr {s s' : EcoState} (h : s'.products = s.products)
    (a b : String) : actualStock s' a b = actualStock s a b := by
  unfold actualStock agetd
  rw [h]

theorem reservedQuantity_congr {s s' : EcoState} (h : s'.reservations = s.reservations)
    (now : ℚ) (a b : String) :
    reservedQuantity s' now a b = reservedQuantity s now a b := by
  unfold reservedQuantity
  rw [h]

theorem aupdate_of_lookup_none [DecidableEq κ] (m : List (κ × β)) (k : κ) (f : β → β)
    (h : alookup m k = none) : aupdate m k f = m := by
  induction m with
  | nil => rfl
  | cons e rest ih =>
    obtain ⟨k0, v⟩ := e
    by_cases hk : k0 = k
    · simp [alookup, hk] at h
    · simp only [alookup, if_neg hk] at h
      simp [aupdate, hk, ih h]

theorem alookup_aset_self [DecidableEq κ] (m : List (κ × β)) (k : κ) (v : β) :
    alookup (aset m k v) k = some v := by
  unfold aset amem
  cases hm : alookup m k with
  | none =>
    simp only [Option.isSome_none, Bool.false_eq_true, if_false]
    rw [alookup_append_none hm]
    simp [alookup]
  | some w =>
    simp only [Option.isSome_some, if_true]
    rw [alookup_aupdate_self, hm]
    rfl

theorem alookup_aset_other [DecidableEq κ] (m : List (κ × β)) (k k' : κ) (v : β)
    (h : k ≠ k') : alookup (aset m k v) k' = alookup m k' := by
  unfold aset
  split_ifs
  · exact alookup_aupdate_other m k k' _ h
  · exact alookup_append_single_other m k k' v h

/-! `resSum` arithmetic. -/

theorem resSum_cons (k : Nat) (r : Reservation) (l : List (Nat × Reservation))
    (now : ℚ) (sel pid : String) :
    resSum ((k, r) :: l) now sel pid = resTerm r now sel pid + resSum l now sel pid := rfl

theorem resTerm_nonneg (r : Reservation) (now : ℚ) (sel pid : String)
    (h : 0 ≤ r.quantity) : 0 ≤ resTerm r now sel pid := by
  unfold resTerm
  split_ifs with hc
  · exact h
  · exact le_refl 0

theorem resTerm_le (r : Reservation) (now : ℚ) (sel pid : String)
    (h : 0 ≤ r.quantity) : resTerm r now sel pid ≤ r.quantity := by
  unfold resTerm
  split_ifs with hc
  · exact le_refl _
  · exact h

theorem resSum_nonneg (l : List (Nat × Reservation)) (now : ℚ) (sel pid : String)
    (h : ∀ e ∈ l, 0 ≤ e.2.quantity) : 0 ≤ resSum l now sel pid := by
  induction l with
  | nil => exact le_refl 0
  | cons e rest ih =>
    obtain ⟨k, r⟩ := e
    rw [resSum_cons]
    have h1 := resTerm_nonneg r now sel pid (h (k, r) (List.mem_cons_self _ _))
    have h2 := ih (fun e he => h e (List.mem_cons_of_mem _ he))
    linarith

theorem resSum_cleanup_list (l : List (Nat × Reservation)) (now : ℚ) (sel pid : String) :
    resSum (l.map (fun e =>
        if e.2.status = RStatus.active ∧ now > e.2.expiresAt then
          (e.1, { e.2 with status := RStatus.expired })
        else e)) now sel pid = resSum l now sel pid := by
  induction l with
  | nil => rfl
  | cons e rest ih =>
    obtain ⟨k, r⟩ := e
    rw [List.map_cons]
    by_cases hc : r.status = RStatus.active ∧ now > r.expiresAt
    · have hF : (if (k, r).2.status = RStatus.active ∧ now > (k, r).2.expiresAt then
          ((k, r).1, { (k, r).2 with status := RStatus.expired }) else (k, r)) =
          (k, { r with status := RStatus.expired }) := if_pos hc
      rw [hF, resSum_cons, resSum_cons, ih]
      have h1 : resTerm { r with status := RStatus.expired } now sel pid = 0 := by
        simp [resTerm]
      have h2 : resTerm r now sel pid = 0 := by
        simp [resTerm, not_le.mpr hc.2]
      rw [h1, h2]
    · have hF : (if (k, r).2.status = RStatus.active ∧ now > (k, r).2.expiresAt then
          ((k, r).1, { (k, r).2 with status := RStatus.expired }) else (k, r)) =
          (k, r) := if_neg hc
      rw [hF, resSum_cons, resSum_cons, ih]

theorem resSum_time_mono (l : List (Nat × Reservation)) (t now : ℚ) (sel pid : String)
    (hmono : t ≤ now) (hq : ∀ e ∈ l, 0 ≤ e.2.quantity) :
    resSum l now sel pid ≤ resSum l t sel pid := by
  induction l with
  | nil => exact le_refl 0
  | cons e rest ih =>
    obtain ⟨k, r⟩ := e
    rw [resSum_cons, resSum_cons]
    have hqr : 0 ≤ r.quantity := hq (k, r) (List.mem_cons_self _ _)
    have hterm : resTerm r now sel pid ≤ resTerm r t sel pid := by
      unfold resTerm
      split_ifs with h1 h2
      · exact le_refl _
      · exact absurd ⟨h1.1, h1.2.1, h1.2.2.1, le_trans hmono h1.2.2.2⟩ h2
      · exact hqr
      · exact le_refl 0
    have htail := ih (fun e he => hq e (List.mem_cons_of_mem _ he))
    linarith

theorem resSum_aupdate_status (l : List (Nat × Reservation)) (rid : Nat) (st : RStatus)
    (r : Reservation) (now : ℚ) (sel pid : String)
    (hst : st ≠ RStatus.active) (hl : alookup l rid = some r) :
    resSum (aupdate l rid (fun x => { x with status := st })) now sel pid =
      resSum l now sel pid - resTerm r now sel pid := by
  induction l with
  | nil => cases hl
  | cons e rest ih =>
    obtain ⟨k, v⟩ := e
    by_cases hk : k = rid
    · have hv : v = r := by
        simp only [alookup, if_pos hk] at hl
        exact Option.some.inj hl
      subst hv
      have hup : aupdate ((k, v) :: rest) rid (fun x => { x with status := st }) =
          (k, { v with status := st }) :: rest := by
        simp [aupdate, hk]
      rw [hup, resSum_cons, resSum_cons]
      have h0 : resTerm { v with status := st } now sel pid = 0 := by
        simp [resTerm, hst]
      rw [h0]
      ring
    · have hl' : alookup rest rid = some r := by
        simpa [alookup, hk] using hl
      have hup : aupdate ((k, v) :: rest) rid (fun x => { x with status := st }) =
          (k, v) :: aupdate rest rid (fun x => { x with status := st }) := by
        simp [aupdate, hk]
      rw [hup, resSum_cons, resSum_cons, ih hl']
      ring

/-! Stock movement through the product-transfer helpers. -/

theorem stockOf_addProductList (l : List Product) (agent : String) (prod : Product)
    (q : ℚ) (b : String) :
    stockOf (addProductList l agent prod q) b =
      (if prod.productId = b then q else 0) + stockOf l b := by
  induction l with
  | nil =>
    simp only [addProductList, stockOf]
    split_ifs <;> ring
  | cons p rest ih =>
    by_cases hp : p.productId = prod.productId
    · simp only [addProductList, if_pos hp, stockOf]
      by_cases hb : p.productId = b
      · have hpb : prod.productId = b := hp.symm.trans hb
        simp only [if_pos hb, if_pos hpb]
        ring
      · have hpb : ¬ prod.productId = b := fun h => hb (hp.trans h)
        simp only [if_neg hb, if_neg hpb]
        ring
    · simp only [addProductList, if_neg hp, stockOf]
      by_cases hb : p.productId = b
      · have hpb : ¬ prod.productId = b := fun h => hp (hb.trans h.symm)
        simp only [if_pos hb, if_neg hpb]
        ring
      · simp only [if_neg hb]
        exact ih

theorem stockOf_reduceProductList (l : List Product) (pid : String) (q : ℚ)
    (l' : List Product) (h : reduceProductList l pid q = some l') (b : String) :
    stockOf l' b = stockOf l b - (if pid = b then q else 0) := by
  induction l generalizing l' with
  | nil => cases h
  | cons p rest ih =>
    by_cases hp : p.productId = pid
    · simp only [reduceProductList, if_pos hp] at h
      by_cases ha : p.amount < q
      · rw [if_pos ha] at h
        cases h
      · rw [if_neg ha] at h
        obtain rfl : ({ p with amount := p.amount - q } :: rest) = l' := Option.some.inj h
        simp only [stockOf]
        by_cases hb : p.productId = b
        · rw [if_pos hb, if_pos hb, if_pos (hp.symm.trans hb)]
        · rw [if_neg hb, if_neg hb, if_neg (fun hh => hb (hp.trans hh))]
          ring
    · simp only [reduceProductList, if_neg hp] at h
      cases hr : reduceProductList rest pid q with
      | none =>
        rw [hr] at h
        cases h
      | some rest' =>
        rw [hr] at h
        obtain rfl : p :: rest' = l' := Option.some.inj h
        simp only [stockOf]
        by_cases hb : p.productId = b
        · rw [if_pos hb, if_pos hb, if_neg (fun hh => hp (hb.trans hh.symm))]
          ring
        · rw [if_neg hb, if_neg hb, ih rest' hr]

theorem actualStock_addOrMerge (s : EcoState) (agent : String) (prod : Product)
    (q : ℚ) (a b : String) :
    actualStock (addOrMergeProduct s agent prod q) a b =
      actualStock s a b + (if a = agent ∧ prod.productId = b then q else 0) := by
  unfold actualStock addOrMergeProduct agetd
  by_cases ha : a = agent
  · subst ha
    show stockOf ((alookup (aset s.products a _) a).getD []) b = _
    rw [alookup_aset_self]
    show stockOf (addProductList ((alookup s.products a).getD []) a prod q) b = _
    rw [stockOf_addProductList]
    by_cases hb : prod.productId = b
    · rw [if_pos hb, if_pos ⟨rfl, hb⟩]
      ring
    · rw [if_neg hb, if_neg (fun hh => hb hh.2)]
      ring
  · show stockOf ((alookup (aset s.products agent _) a).getD []) b = _
    rw [alookup_aset_other _ _ _ _ (fun h => ha h.symm)]
    rw [if_neg (fun hh => ha hh.1)]
    ring

theorem actualStock_reduceOrRemove_true (s : EcoState) (agent pid : String) (q : ℚ)
    (h : (reduceOrRemoveProduct s agent pid q).1 = true) (a b : String) :
    actualStock (reduceOrRemoveProduct s agent pid q).2 a b =
      actualStock s a b - (if a = agent ∧ pid = b then q else 0) := by
  have hsplit : ∃ l', reduceProductList (agetd s.products agent []) pid q = some l' ∧
      (reduceOrRemoveProduct s agent pid q).2 =
        { s with products := aset s.products agent l' } := by
    unfold reduceOrRemoveProduct at h
    cases hr : reduceProductList (agetd s.products agent []) pid q with
    | none =>
      rw [hr] at h
      simp at h
    | some l' =>
      refine ⟨l', rfl, ?_⟩
      unfold reduceOrRemoveProduct
      rw [hr]
  obtain ⟨l', hr, hstate⟩ := hsplit
  rw [hstate]
  unfold actualStock agetd
  by_cases ha : a = agent
  · subst ha
    show stockOf ((alookup (aset s.products a l') a).getD []) b = _
    rw [alookup_aset_self]
    show stockOf l' b = _
    rw [stockOf_reduceProductList _ _ _ _ hr b]
    unfold agetd
    by_cases hb : pid = b
    · rw [if_pos hb, if_pos ⟨rfl, hb⟩]
    · rw [if_neg hb, if_neg (fun hh => hb hh.2)]
  · show stockOf ((alookup (aset s.products agent l') a).getD []) b = _
    rw [alookup_aset_other _ _ _ _ (fun hh => ha hh.symm)]
    rw [if_neg (fun hh => ha hh.1)]
    ring

theorem actualStock_reduceOrRemove_false (s : EcoState) (agent pid : String) (q : ℚ)
    (h : (reduceOrRemoveProduct s agent pid q).1 = false) (a b : String) :
    actualStock (reduceOrRemoveProduct s agent pid q).2 a b = actualStock s a b := by
  have hstate : (reduceOrRemoveProduct s agent pid q).2 =
      { s with products := aensure s.products agent [] } := by
    unfold reduceOrRemoveProduct at h ⊢
    cases hr : reduceProductList (agetd s.products agent []) pid q with
    | some l' =>
      rw [hr] at h
      simp at h
    | none => rfl
  rw [hstate]
  unfold actualStock agetd aensure
  by_cases hmem : amem s.products agent
  · rw [if_pos hmem]
  · rw [if_neg hmem]
    by_cases ha : a = agent
    · subst ha
      unfold amem at hmem
      have hnone : alookup s.products a = none := by
        cases hl : alookup s.products a with
        | none => rfl
        | some w =>
          rw [hl] at hmem
          simp at hmem
      show stockOf ((alookup (s.products ++ [(a, [])]) a).getD []) b = _
      rw [alookup_append_none hnone, hnone]
      simp [alookup, stockOf]
    · show stockOf ((alookup (s.products ++ [(agent, [])]) a).getD []) b = _
      rw [alookup_append_single_other _ _ _ _ (fun hh => ha hh.symm)]

/-! Positivity of reservation quantities is preserved by every operation. -/

theorem qtyPos_aupdate (l : List (Nat × Reservation)) (rid : Nat) (st : RStatus)
    (h : ∀ e ∈ l, 0 < e.2.quantity) :
    ∀ e ∈ aupdate l rid (fun x => { x with status := st }), 0 < e.2.quantity := by
  induction l with
  | nil =>
    intro e he
    cases he
  | cons p rest ih =>
    obtain ⟨k, v⟩ := p
    intro e he
    by_cases hk : k = rid
    · simp only [aupdate, if_pos hk] at he
      rcases List.mem_cons.mp he with rfl | hmem
      · exact h (k, v) (List.mem_cons_self _ _)
      · exact h e (List.mem_cons_of_mem _ hmem)
    · simp only [aupdate, if_neg hk] at he
      rcases List.mem_cons.mp he with rfl | hmem
      · exact h _ (List.mem_cons_self _ _)
      · exact ih (fun e he => h e (List.mem_cons_of_mem _ he)) e hmem

theorem resQtyPos_cleanup (s : EcoState) (now : ℚ) (h : ResQtyPos s) :
    ResQtyPos (cleanupExpiredReservations s now) := by
  intro e he
  simp only [cleanupExpiredReservations] at he
  obtain ⟨e0, he0, hfe⟩ := List.mem_map.mp he
  have h0 := h e0 he0
  by_cases hc : e0.2.status = RStatus.active ∧ now > e0.2.expiresAt
  · rw [if_pos hc] at hfe
    rw [← hfe]
    exact h0
  · rw [if_neg hc] at hfe
    rw [← hfe]
    exact h0

theorem resQtyPos_setStatus (s : EcoState) (rid : Nat) (st : RStatus)
    (h : ResQtyPos s) : ResQtyPos (setReservationStatus s rid st) :=
  fun e he => qtyPos_aupdate s.reservations rid st h e he

/-! Invariant preservation, operation by operation. -/

theorem inv_of_frames (B s' : EcoState) (now : ℚ)
    (hres : s'.reservations = B.reservations) (hprod : s'.products = B.products)
    (hq : ResQtyPos B) (hok : StockOK B now) :
    ResQtyPos s' ∧ StockOK s' now := by
  constructor
  · intro e he
    exact hq e (hres ▸ he)
  · intro sel pid
    rw [reservedQuantity_congr hres, actualStock_congr hprod]
    exact hok sel pid

theorem inv_sweep (s : EcoState) (now : ℚ) (hq : ResQtyPos s) (hok : StockOK s now) :
    ResQtyPos (cleanupExpiredReservations s now) ∧
      StockOK (cleanupExpiredReservations s now) now := by
  refine ⟨resQtyPos_cleanup s now hq, ?_⟩
  intro sel pid
  have hres : reservedQuantity (cleanupExpiredReservations s now) now sel pid =
      reservedQuantity s now sel pid := resSum_cleanup_list s.reservations now sel pid
  rw [hres, actualStock_congr (cleanup_products s now)]
  exact hok sel pid

theorem inv_setStatus (s : EcoState) (now : ℚ) (rid : Nat) (st : RStatus)
    (hst : st ≠ RStatus.active) (hq : ResQtyPos s) (hok : StockOK s now) :
    ResQtyPos (setReservationStatus s rid st) ∧
      StockOK (setReservationStatus s rid st) now := by
  refine ⟨resQtyPos_setStatus s rid st hq, ?_⟩
  intro sel pid
  rw [actualStock_congr (setRes_products s rid st)]
  show resSum (aupdate s.reservations rid _) now sel pid ≤ _
  cases hl : alookup s.reservations rid with
  | none =>
    rw [aupdate_of_lookup_none _ _ _ hl]
    exact hok sel pid
  | some r =>
    rw [resSum_aupdate_status _ _ _ _ _ _ _ hst hl]
    have h0 : 0 ≤ resTerm r now sel pid :=
      resTerm_nonneg _ _ _ _ (le_of_lt (hq (rid, r) (alookup_mem hl)))
    have h1 := hok sel pid
    unfold reservedQuantity at h1
    linarith

theorem inv_release (s : EcoState) (now : ℚ) (rid : Nat)
    (hq : ResQtyPos s) (hok : StockOK s now) :
    ResQtyPos (releaseReservation s rid).2 ∧ StockOK (releaseReservation s rid).2 now := by
  unfold releaseReservation
  cases hl : alookup s.reservations rid with
  | none => exact ⟨hq, hok⟩
  | some r =>
    exact inv_setStatus s now rid RStatus.released (by decide) hq hok

theorem inv_confirm (s : EcoState) (now : ℚ) (rid : Nat)
    (hq : ResQtyPos s) (hok : StockOK s now) :
    ResQtyPos (confirmReservation s now rid).2 ∧
      StockOK (confirmReservation s now rid).2 now := by
  unfold confirmReservation
  cases hl : alookup s.reservations rid with
  | none => exact ⟨hq, hok⟩
  | some r =>
    dsimp only
    split_ifs with h1 h2
    · exact ⟨hq, hok⟩
    · exact inv_setStatus s now rid RStatus.expired (by decide) hq hok
    · exact inv_setStatus s now rid RStatus.confirmed (by decide) hq hok

theorem inv_reserve (s : EcoState) (now : ℚ) (b sel pid pname : String) (q : ℚ)
    (tmo : Option ℚ) (m : Option Int) (hq : ResQtyPos s) (hok : StockOK s now) :
    ResQtyPos (reserveInventory s now b sel pid pname q tmo m).2 ∧
      StockOK (reserveInventory s now b sel pid pname q tmo m).2 now := by
  have hc := inv_sweep s now hq hok
  simp only [reserveInventory]
  split_ifs with h1 h2
  · cases m with
    | none => exact hc
    | some mm =>
      exact inv_of_frames (cleanupExpiredReservations s now) _ now
        (recordUnmetDemand_reservations _ _ _ _ _ _)
        (recordUnmetDemand_products _ _ _ _ _ _) hc.1 hc.2
  · exact hc
  · have hqpos : 0 < q := lt_of_not_ge (fun hh => h2 hh)
    constructor
    · intro e he
      rcases List.mem_cons.mp he with rfl | hmem
      · exact hqpos
      · exact hc.1 e hmem
    · intro sel' pid'
      have havail : ¬ getAvailableStock (cleanupExpiredReservations s now) now sel pid < q :=
        h1
      have hclean : reservedQuantity (cleanupExpiredReservations s now) now sel pid =
          reservedQuantity s now sel pid := resSum_cleanup_list s.reservations now sel pid
      have hargA : actualStock (cleanupExpiredReservations s now) sel pid =
          actualStock s sel pid := actualStock_congr (cleanup_products s now) sel pid
      rw [getAvailableStock, hclean, hargA] at havail
      have hnn : 0 ≤ actualStock s sel pid - reservedQuantity s now sel pid := by
        have := hok sel pid
        linarith
      rw [qmax, if_pos hnn] at havail
      have hle : q ≤ actualStock s sel pid - reservedQuantity s now sel pid :=
        le_of_not_lt havail
      show resSum (((cleanupExpiredReservations s now).nextRid,
          (⟨b, sel, pid, pname, q, now + tmo.getD s.reservationTimeout,
            RStatus.active⟩ : Reservation)) ::
          (cleanupExpiredReservations s now).reservations) now sel' pid' ≤
        actualStock s sel' pid'
      rw [resSum_cons]
      have htail : resSum (cleanupExpiredReservations s now).reservations now sel' pid' ≤
          actualStock s sel' pid' := by
        have h3 := hc.2 sel' pid'
        rwa [actualStock_congr (cleanup_products s now)] at h3
      by_cases hpair : sel = sel' ∧ pid = pid'
      · obtain ⟨rfl, rfl⟩ := hpair
        have hterm : resTerm ⟨b, sel, pid, pname, q, now + tmo.getD s.reservationTimeout,
            RStatus.active⟩ now sel pid ≤ q := resTerm_le _ _ _ _ (le_of_lt hqpos)
        have hcl : resSum (cleanupExpiredReservations s now).reservations now sel pid =
            reservedQuantity s now sel pid := resSum_cleanup_list s.reservations now sel pid
        rw [hcl]
        linarith
      · have hterm : resTerm ⟨b, sel, pid, pname, q, now + tmo.getD s.reservationTimeout,
            RStatus.active⟩ now sel' pid' = 0 := by
          unfold resTerm
          rw [if_neg (fun hh => hpair ⟨hh.1, hh.2.1⟩)]
        rw [hterm]
        linarith

theorem confirmReservation_of_active (s : EcoState) (now : ℚ) (rid : Nat)
    (r : Reservation) (hl : alookup s.reservations rid = some r)
    (ha : r.status = RStatus.active) (hexp : ¬ now > r.expiresAt) :
    confirmReservation s now rid = (true, setReservationStatus s rid RStatus.confirmed) := by
  unfold confirmReservation
  rw [hl]
  dsimp only
  rw [if_neg (fun hc => hc ha), if_neg hexp]

theorem validateReservation_true_spec (s : EcoState) (now : ℚ) (rid : Nat)
    (b sel pid : String) (q : ℚ)
    (h : (validateReservation s now rid b sel pid q).1 = true) :
    ∃ r, alookup (cleanupExpiredReservations s now).reservations rid = some r ∧
      r.status = RStatus.active ∧ ¬ now > r.expiresAt ∧
      r.buyerId = b ∧ r.sellerId = sel ∧ r.productId = pid ∧
      (validateReservation s now rid b sel pid q).2 =
        cleanupExpiredReservations s now := by
  have h' := h
  simp only [validateReservation] at h'
  cases h2 : alookup (cleanupExpiredReservations s now).reservations rid with
  | none =>
    rw [h2] at h'
    simp at h'
  | some r =>
    rw [h2] at h'
    dsimp only at h'
    by_cases h3 : r.status ≠ RStatus.active
    · rw [if_pos h3] at h'
      simp at h'
    · rw [if_neg h3] at h'
      by_cases h4 : now > r.expiresAt
      · rw [if_pos h4] at h'
        simp at h'
      · rw [if_neg h4] at h'
        by_cases h5 : r.buyerId ≠ b
        · rw [if_pos h5] at h'
          simp at h'
        · rw [if_neg h5] at h'
          by_cases h6 : r.sellerId ≠ sel
          · rw [if_pos h6] at h'
            simp at h'
          · rw [if_neg h6] at h'
            by_cases h7 : r.productId ≠ pid
            · rw [if_pos h7] at h'
              simp at h'
            · rw [if_neg h7] at h'
              refine ⟨r, rfl, not_not.mp h3, h4, not_not.mp h5, not_not.mp h6,
                not_not.mp h7, ?_⟩
              simp only [validateReservation]
              rw [h2]
              dsimp only
              rw [if_neg h3, if_neg h4, if_neg h5, if_neg h6, if_neg h7]
              split_ifs <;> rfl

theorem inv_validate (s : EcoState) (now : ℚ) (rid : Nat) (b sel pid : String) (q : ℚ)
    (hq : ResQtyPos s) (hok : StockOK s now) :
    ResQtyPos (validateReservation s now rid b sel pid q).2 ∧
      StockOK (validateReservation s now rid b sel pid q).2 now := by
  have hC := inv_sweep s now hq hok
  simp only [validateReservation]
  cases h2 : alookup (cleanupExpiredReservations s now).reservations rid with
  | none => exact hC
  | some r =>
    dsimp only
    split_ifs with h3 h4 h5 h6 h7 h8
    · exact hC
    · exact inv_setStatus _ now rid RStatus.expired (by decide) hC.1 hC.2
    · exact hC
    · exact hC
    · exact hC
    · exact hC
    · exact hC

theorem actualStock_addOrMerge_congr {C X : EcoState} (hp : X.products = C.products)
    (buyer : String) (prod : Product) (q : ℚ) (a b : String) :
    actualStock (addOrMergeProduct X buyer prod q) a b =
      actualStock C a b + (if a = buyer ∧ prod.productId = b then q else 0) := by
  rw [actualStock_addOrMerge, actualStock_congr hp]

theorem inv_purchase_tail_confirm (C : EcoState) (X : EcoState) (now : ℚ) (rid : Nat)
    (r : Reservation) (sel buyer : String) (p : Product) (q : ℚ)
    (hres : X.reservations = C.reservations)
    (hact : ∀ a b', actualStock X a b' =
      actualStock C a b' + (if a = buyer ∧ p.productId = b' then q else 0))
    (hlook : alookup C.reservations rid = some r)
    (ha : r.status = RStatus.active) (hexp : ¬ now > r.expiresAt)
    (hsel : r.sellerId = sel) (hpid : r.productId = p.productId)
    (hqr : q = r.quantity)
    (hred : (reduceOrRemoveProduct X sel p.productId q).1 = true)
    (hC1 : ResQtyPos C) (hC2 : StockOK C now) :
    ResQtyPos (confirmReservation (reduceOrRemoveProduct X sel p.productId q).2 now rid).2 ∧
      StockOK (confirmReservation (reduceOrRemoveProduct X sel p.productId q).2 now rid).2
        now := by
  have hredres : (reduceOrRemoveProduct X sel p.productId q).2.reservations =
      C.reservations := by
    rw [reduceOrRemoveProduct_reservations, hres]
  have hlookR : alookup (reduceOrRemoveProduct X sel p.productId q).2.reservations rid =
      some r := by
    rw [hredres]
    exact hlook
  have hstate : (confirmReservation (reduceOrRemoveProduct X sel p.productId q).2 now
      rid).2 = setReservationStatus (reduceOrRemoveProduct X sel p.productId q).2 rid
        RStatus.confirmed := by
    rw [confirmReservation_of_active _ now rid r hlookR ha hexp]
  rw [hstate]
  have hR : ResQtyPos (reduceOrRemoveProduct X sel p.productId q).2 := by
    intro e he
    rw [hredres] at he
    exact hC1 e he
  constructor
  · exact resQtyPos_setStatus _ rid _ hR
  · intro a b'
    have hA : actualStock (setReservationStatus
        (reduceOrRemoveProduct X sel p.productId q).2 rid RStatus.confirmed) a b' =
        actualStock (reduceOrRemoveProduct X sel p.productId q).2 a b' :=
      actualStock_congr (setRes_products _ _ _) a b'
    rw [hA, actualStock_reduceOrRemove_true X sel p.productId q hred a b', hact a b']
    show resSum (aupdate (reduceOrRemoveProduct X sel p.productId q).2.reservations rid
      (fun x => { x with status := RStatus.confirmed })) now a b' ≤ _
    rw [hredres, resSum_aupdate_status C.reservations rid RStatus.confirmed r now a b'
      (by decide) hlook]
    have hterm : resTerm r now a b' =
        if a = sel ∧ p.productId = b' then r.quantity else 0 := by
      unfold resTerm
      by_cases hx : a = sel ∧ p.productId = b'
      · rw [if_pos ⟨hsel.trans hx.1.symm, hpid.trans hx.2, ha, le_of_not_lt hexp⟩,
          if_pos hx]
      · have hcond : ¬ (r.sellerId = a ∧ r.productId = b' ∧
            r.status = RStatus.active ∧ now ≤ r.expiresAt) :=
          fun hc => hx ⟨(hsel.symm.trans hc.1).symm, hpid.symm.trans hc.2.1⟩
        rw [if_neg hcond, if_neg hx]
    rw [hterm, hqr]
    have hCin : resSum C.reservations now a b' ≤ actualStock C a b' := hC2 a b'
    have hadd : 0 ≤ (if a = buyer ∧ p.productId = b' then r.quantity else 0) := by
      split_ifs
      · exact le_of_lt (hC1 (rid, r) (alookup_mem hlook))
      · exact le_refl 0
    linarith

theorem inv_purchase_tail_release (C : EcoState) (X : EcoState) (now : ℚ) (rid : Nat)
    (sel buyer : String) (p : Product) (q : ℚ)
    (hres : X.reservations = C.reservations)
    (hact : ∀ a b', actualStock X a b' =
      actualStock C a b' + (if a = buyer ∧ p.productId = b' then q else 0))
    (hq0 : 0 ≤ q)
    (hred : (reduceOrRemoveProduct X sel p.productId q).1 = false)
    (hC1 : ResQtyPos C) (hC2 : StockOK C now) :
    ResQtyPos (releaseReservation (reduceOrRemoveProduct X sel p.productId q).2 rid).2 ∧
      StockOK (releaseReservation (reduceOrRemoveProduct X sel p.productId q).2 rid).2
        now := by
  have hR1 : ResQtyPos (reduceOrRemoveProduct X sel p.productId q).2 := by
    intro e he
    rw [reduceOrRemoveProduct_reservations, hres] at he
    exact hC1 e he
  have hR2 : StockOK (reduceOrRemoveProduct X sel p.productId q).2 now := by
    intro a b'
    show resSum (reduceOrRemoveProduct X sel p.productId q).2.reservations now a b' ≤ _
    rw [reduceOrRemoveProduct_reservations, hres,
      actualStock_reduceOrRemove_false X sel p.productId q hred a b', hact a b']
    have hCin : resSum C.reservations now a b' ≤ actualStock C a b' := hC2 a b'
    have hadd : 0 ≤ (if a = buyer ∧ p.productId = b' then q else 0) := by
      split_ifs
      · exact hq0
      · exact le_refl 0
    linarith
  exact inv_release _ now rid hR1 hR2

theorem inv_purchase_tail_legacy (C : EcoState) (X : EcoState) (now : ℚ)
    (sel buyer : String) (p : Product) (q : ℚ)
    (hres : X.reservations = C.reservations)
    (hact : ∀ a b', actualStock X a b' =
      actualStock C a b' + (if a = buyer ∧ p.productId = b' then q else 0))
    (hq0 : 0 ≤ q)
    (hstock : q ≤ actualStock C sel p.productId -
      resSum C.reservations now sel p.productId)
    (hC1 : ResQtyPos C) (hC2 : StockOK C now) :
    ResQtyPos (reduceOrRemoveProduct X sel p.productId q).2 ∧
      StockOK (reduceOrRemoveProduct X sel p.productId q).2 now := by
  constructor
  · intro e he
    rw [reduceOrRemoveProduct_reservations, hres] at he
    exact hC1 e he
  · intro a b'
    show resSum (reduceOrRemoveProduct X sel p.productId q).2.reservations now a b' ≤ _
    rw [reduceOrRemoveProduct_reservations, hres]
    have hCin : resSum C.reservations now a b' ≤ actualStock C a b' := hC2 a b'
    have hadd : 0 ≤ (if a = buyer ∧ p.productId = b' then q else 0) := by
      split_ifs
      · exact hq0
      · exact le_refl 0
    cases hred : (reduceOrRemoveProduct X sel p.productId q).1 with
    | false =>
      rw [actualStock_reduceOrRemove_false X sel p.productId q hred a b', hact a b']
      linarith
    | true =>
      rw [actualStock_reduceOrRemove_true X sel p.productId q hred a b', hact a b']
      by_cases hx : a = sel ∧ p.productId = b'
      · obtain ⟨h1, h2⟩ := hx
        subst h1
        subst h2
        have hsub : (if a = a ∧ p.productId = p.productId then q else 0) = q :=
          if_pos ⟨rfl, rfl⟩
        rw [hsub]
        linarith
      · rw [if_neg hx]
        linarith

theorem inv_purchase (s : EcoState) (now : ℚ) (month : Int) (buyer seller : String)
    (product : Product) (quantity : ℚ) (rid? : Option Nat)
    (hq : ResQtyPos s) (hok : StockOK s now)
    (hop : PurchaseOK s (.purchaseOp month buyer seller product quantity rid?)) :
    ResQtyPos (processPurchase s now month buyer seller product quantity rid?).2 ∧
      StockOK (processPurchase s now month buyer seller product quantity rid?).2 now := by
  simp only [processPurchase]
  cases hb : alookup s.ledger buyer with
  | none => exact ⟨hq, hok⟩
  | some bBal =>
    dsimp only
    by_cases hlt : bBal < product.price * quantity * (1 + s.vatRate)
    · rw [if_pos hlt]
      cases rid? with
      | none => exact ⟨hq, hok⟩
      | some rid => exact inv_release s now rid hq hok
    · rw [if_neg hlt]
      cases rid? with
      | none =>
        have hqpos : 0 < quantity := hop
        by_cases hchk : checkAndReserveInventory s now seller product quantity
        · simp only [hchk, if_true]
          have hst : quantity ≤ actualStock s seller product.productId -
              resSum s.reservations now seller product.productId := by
            unfold checkAndReserveInventory at hchk
            by_cases hmem : amem s.products seller
            · rw [if_pos hmem] at hchk
              have h2 := of_decide_eq_true hchk
              have hnn : 0 ≤ actualStock s seller product.productId -
                  reservedQuantity s now seller product.productId := by
                have := hok seller product.productId
                linarith
              rwa [getAvailableStock, qmax, if_pos hnn] at h2
            · rw [if_neg hmem] at hchk
              cases hchk
          split
          · exact inv_of_frames s _ now (by simp) (by simp) hq hok
          · split
            · exact inv_of_frames s _ now (by simp) (by simp) hq hok
            · split
              · exact inv_purchase_tail_legacy s _ now seller buyer product quantity
                  (by simp) (fun a b' => actualStock_addOrMerge_congr (by simp)
                    buyer product quantity a b') (le_of_lt hqpos) hst hq hok
              · exact inv_purchase_tail_legacy s _ now seller buyer product quantity
                  (by simp) (fun a b' => actualStock_addOrMerge_congr (by simp)
                    buyer product quantity a b') (le_of_lt hqpos) hst hq hok
        · simp only [hchk, Bool.false_eq_true, if_false]
          exact inv_of_frames s _ now (by simp) (by simp) hq hok
      | some rid =>
        by_cases hv1 : (validateReservation s now rid buyer seller product.productId
            quantity).1
        · simp only [hv1, if_true]
          obtain ⟨r, hlook, ha, hexp, hbuy, hsel, hpid, hvstate⟩ :=
            validateReservation_true_spec s now rid buyer seller product.productId
              quantity hv1
          have hC := inv_sweep s now hq hok
          have hqr : quantity = r.quantity := by
            rw [alookup_cleanup] at hlook
            cases h0 : alookup s.reservations rid with
            | none =>
              rw [h0] at hlook
              cases hlook
            | some r0 =>
              rw [h0] at hlook
              have hr : (if r0.status = RStatus.active ∧ now > r0.expiresAt then
                  { r0 with status := RStatus.expired } else r0) = r :=
                Option.some.inj hlook
              rw [hop r0 h0]
              by_cases hc : r0.status = RStatus.active ∧ now > r0.expiresAt
              · rw [if_pos hc] at hr
                rw [← hr]
              · rw [if_neg hc] at hr
                rw [← hr]
          rw [hvstate]
          split
          · exact inv_of_frames (cleanupExpiredReservations s now) _ now (by simp)
              (by simp) hC.1 hC.2
          · split
            · exact inv_of_frames (cleanupExpiredReservations s now) _ now (by simp)
                (by simp) hC.1 hC.2
            · split
              · next hred =>
                exact inv_purchase_tail_confirm (cleanupExpiredReservations s now) _
                  now rid r seller buyer product quantity (by simp)
                  (fun a b' => actualStock_addOrMerge_congr (by simp)
                    buyer product quantity a b')
                  hlook ha hexp hsel hpid hqr hred hC.1 hC.2
              · next hred =>
                exact inv_purchase_tail_release (cleanupExpiredReservations s now) _
                  now rid seller buyer product quantity (by simp)
                  (fun a b' => actualStock_addOrMerge_congr (by simp)
                    buyer product quantity a b')
                  (by
                    rw [hqr]
                    exact le_of_lt (hC.1 (rid, r) (alookup_mem hlook)))
                  (Bool.not_eq_true _ ▸ hred) hC.1 hC.2
        · simp only [Bool.not_eq_true] at hv1
          simp only [hv1, Bool.false_eq_true, if_false]
          have hival := inv_validate s now rid buyer seller product.productId quantity
            hq hok
          exact inv_release _ now rid hival.1 hival.2

theorem inv_applyOp (s : EcoState) (now : ℚ) (op : EcoOp)
    (hq : ResQtyPos s) (hok : StockOK s now) (hop : PurchaseOK s op) :
    ResQtyPos (applyOp s now op) ∧ StockOK (applyOp s now op) now := by
  cases op with
  | reserveOp b sel pid pname q tmo m => exact inv_reserve s now b sel pid pname q tmo m hq hok
  | purchaseOp m b sel p q rid? => exact inv_purchase s now m b sel p q rid? hq hok hop
  | confirmOp rid => exact inv_confirm s now rid hq hok
  | releaseOp rid => exact inv_release s now rid hq hok
  | sweepOp => exact inv_sweep s now hq hok

theorem stockOK_time_mono (s : EcoState) (t now : ℚ) (hmono : t ≤ now)
    (hq : ResQtyPos s) (hok : StockOK s t) : StockOK s now := by
  intro sel pid
  have h1 : resSum s.reservations now sel pid ≤ resSum s.reservations t sel pid :=
    resSum_time_mono s.reservations t now sel pid hmono (fun e he => le_of_lt (hq e he))
  have h2 : resSum s.reservations t sel pid ≤ actualStock s sel pid := hok sel pid
  show resSum s.reservations now sel pid ≤ actualStock s sel pid
  linarith

theorem reserve_outcome_spec (s : EcoState) (now : ℚ) (b sel pid pname : String)
    (q : ℚ) (tmo : Option ℚ) (m : Option Int)
    (hq : ResQtyPos s) (hok : StockOK s now) :
    ((reserveInventory s now b sel pid pname q tmo m).1 = ReserveResult.ok s.nextRid ↔
      0 < q ∧ q ≤ actualStock s sel pid - reservedQuantity s now sel pid) ∧
    ((reserveInventory s now b sel pid pname q tmo m).1 = ReserveResult.fail ↔
      actualStock s sel pid - reservedQuantity s now sel pid < q) ∧
    ((reserveInventory s now b sel pid pname q tmo m).1 = ReserveResult.raised ↔
      q ≤ 0 ∧ q ≤ actualStock s sel pid - reservedQuantity s now sel pid) := by
  have hclean : reservedQuantity (cleanupExpiredReservations s now) now sel pid =
      reservedQuantity s now sel pid := resSum_cleanup_list s.reservations now sel pid
  have hargA : actualStock (cleanupExpiredReservations s now) sel pid =
      actualStock s sel pid := actualStock_congr (cleanup_products s now) sel pid
  have hnn : 0 ≤ actualStock s sel pid - reservedQuantity s now sel pid := by
    have := hok sel pid
    have h2 : reservedQuantity s now sel pid ≤ actualStock s sel pid := this
    linarith
  have havail : getAvailableStock (cleanupExpiredReservations s now) now sel pid =
      actualStock s sel pid - reservedQuantity s now sel pid := by
    rw [getAvailableStock, hclean, hargA, qmax, if_pos hnn]
  simp only [reserveInventory, havail]
  split_ifs with h1 h2
  · refine ⟨⟨fun h => h.elim,
      fun h => absurd h.2 (not_le.mpr h1)⟩,
      ⟨fun _ => h1, fun _ => ?_⟩,
      ⟨fun h => h.elim,
        fun h => absurd h.2 (not_le.mpr h1)⟩⟩
    cases m <;> rfl
  · exact ⟨⟨fun h => h.elim,
      fun h => absurd h.1 (not_lt.mpr h2)⟩,
      ⟨fun h => h.elim, fun h => absurd h h1⟩,
      ⟨fun _ => ⟨h2, le_of_not_lt h1⟩, fun _ => rfl⟩⟩
  · exact ⟨⟨fun _ => ⟨lt_of_not_ge h2, le_of_not_lt h1⟩, fun _ => rfl⟩,
      ⟨fun h => h.elim, fun h => absurd h h1⟩,
      ⟨fun h => h.elim, fun h => absurd h.1 (not_le.mpr
        (lt_of_not_ge h2))⟩⟩

theorem resQtyPos_empty : ResQtyPos emptyEco := by
  intro e he
  simp [emptyEco] at he

theorem stockOK_empty (t : ℚ) : StockOK emptyEco t := by
  intro sel pid
  show resSum emptyEco.reservations t sel pid ≤ actualStock emptyEco sel pid
  simp [emptyEco, resSum, actualStock, agetd, alookup, stockOf]

/-- **C4 counterexample.**  The reservation stock invariant
`actual_stock ≥ Σ active reservation quantities` is *not* maintained on
every reachable state: starting from four units of stock, two households
each hold an active reservation for two units; a purchase through the
second reservation with quantity `2 + 1/2000000` — inside
`validate_reservation`'s `1e-6` tolerance — succeeds, leaving actual
stock `2 - 1/2000000` strictly below the remaining active reservation's
two units. -/
theorem stock_invariant_violated_by_tolerance :
    (reserveInventory c4Start 0 "h1" "f1" "p1" "g" 2 none none).1 =
      ReserveResult.ok 0 ∧
    (reserveInventory c4Reserved1 0 "h2" "f1" "p1" "g" 2 none none).1 =
      ReserveResult.ok 1 ∧
    (processPurchase c4Reserved2 0 1 "h2" "f1" c4Prod (2 + 1/2000000) (some 1)).1 =
      PurchaseResult.ok ⟨"h2", "f1", 4000001/2000000, "purchase", 1⟩ ∧
    alookup c4Final.reservations 0 =
      some ⟨"h1", "f1", "p1", "g", 2, 300, RStatus.active⟩ ∧
    actualStock c4Final "f1" "p1" = 2 - 1/2000000 ∧
    reservedQuantity c4Final 0 "f1" "p1" = 2 ∧
    actualStock c4Final "f1" "p1" < reservedQuantity c4Final 0 "f1" "p1" := by
  norm_num [c4Start, c4Reserved1, c4Reserved2, c4Final, c4Prod, emptyEco, govId,
    reserveInventory, getAvailableStock, reservedQuantity, resSum, qmax, qabs,
    recordUnmetDemand, processPurchase, validateReservation,
    cleanupExpiredReservations, setReservationStatus, releaseReservation,
    confirmReservation, checkAndReserveInventory, recordTransaction, adjustBalance,
    recordFirmIncome, recordFirmMonthlyIncome, addOrMergeProduct, addProductList,
    reduceOrRemoveProduct, reduceProductList, aset, aupdate, aupsert, aensure, amem,
    agetd, alookup, stockOf, actualStock]
  simp
  norm_num

/-- **C4** (amended).  The reservation system maintains the stock
invariant only under exact-quantity purchases: (1) the invariant
`Σ active reserved ≤ actual stock` survives the passing of time; (2) it
is preserved by `reserve_inventory`, `confirm_reservation`,
`release_reservation`, the expiry sweep, and by `process_purchase`
restricted to positive quantities whose reservation-backed calls use
exactly the reserved quantity (the source's `1e-6` tolerance admits
more, which breaks the invariant — see the counterexample); and (3)
under the invariant, `reserve_inventory` grants a fresh id exactly when
`0 < quantity ≤ actual - Σ active reserved`, returns `None` exactly when
the available stock is short, and otherwise (non-positive quantity that
fits) raises through the pydantic `gt=0` validator rather than returning
`None`. -/
theorem reservation_stock_invariant :
    (∀ (s : EcoState) (t now : ℚ), t ≤ now → ResQtyPos s → StockOK s t →
      StockOK s now) ∧
    (∀ (s : EcoState) (now : ℚ) (op : EcoOp), ResQtyPos s → StockOK s now →
      PurchaseOK s op →
      ResQtyPos (applyOp s now op) ∧ StockOK (applyOp s now op) now) ∧
    (∀ (s : EcoState) (now : ℚ) (b sel pid pname : String) (q : ℚ)
      (tmo : Option ℚ) (m : Option Int), ResQtyPos s → StockOK s now →
      (((reserveInventory s now b sel pid pname q tmo m).1 =
          ReserveResult.ok s.nextRid ↔
        0 < q ∧ q ≤ actualStock s sel pid - reservedQuantity s now sel pid) ∧
       ((reserveInventory s now b sel pid pname q tmo m).1 = ReserveResult.fail ↔
        actualStock s sel pid - reservedQuantity s now sel pid < q) ∧
       ((reserveInventory s now b sel pid pname q tmo m).1 = ReserveResult.raised ↔
        q ≤ 0 ∧ q ≤ actualStock s sel pid - reservedQuantity s now sel pid))) :=
  ⟨fun s t now hmono hq hok => stockOK_time_mono s t now hmono hq hok,
   fun s now op hq hok hop => inv_applyOp s now op hq hok hop,
   fun s now b sel pid pname q tmo m hq hok =>
     reserve_outcome_spec s now b sel pid pname q tmo m hq hok⟩

/-- Witness for C4: the amended theorem applied to the empty economy
(time lift from 0 to 1, invariant preservation through the expiry sweep,
and the grant condition of a one-unit reservation request). -/
theorem reservation_stock_invariant_witness :
    StockOK emptyEco 1 ∧
    (ResQtyPos (applyOp emptyEco 0 EcoOp.sweepOp) ∧
      StockOK (applyOp emptyEco 0 EcoOp.sweepOp) 0) ∧
    ((reserveInventory emptyEco 0 "h1" "f1" "p1" "g" 1 none none).1 =
        ReserveResult.ok emptyEco.nextRid ↔
      0 < (1 : ℚ) ∧ (1 : ℚ) ≤ actualStock emptyEco "f1" "p1" -
        reservedQuantity emptyEco 0 "f1" "p1") :=
  ⟨reservation_stock_invariant.1 emptyEco 0 1 (by norm_num) resQtyPos_empty
     (stockOK_empty 0),
   reservation_stock_invariant.2.1 emptyEco 0 EcoOp.sweepOp resQtyPos_empty
     (stockOK_empty 0) True.intro,
   (reservation_stock_invariant.2.2 emptyEco 0 "h1" "f1" "p1" "g" 1 none none
     resQtyPos_empty (stockOK_empty 0)).1⟩

/-! ## Claim C8 -/

/-! Generic counting lemmas over offer lists. -/

theorem count_flip_le (l : List Offer) (g : Offer → Offer) (p : Offer → Bool)
    (hg : ∀ o ∈ l, p (g o) = true → p o = true) :
    ((l.map g).filter p).length ≤ (l.filter p).length := by
  induction l with
  | nil => exact le_refl 0
  | cons o rest ih =>
    have ih' := ih (fun o ho => hg o (List.mem_cons_of_mem _ ho))
    rw [List.map_cons, List.filter_cons, List.filter_cons]
    cases hpg : p (g o) with
    | true =>
      rw [hg o (List.mem_cons_self _ _) hpg]
      simp only [hpg, if_true, List.length_cons]
      exact Nat.succ_le_succ ih'
    | false =>
      simp only [hpg, Bool.false_eq_true, if_false]
      cases hpo : p o
      · simp only [Bool.false_eq_true, if_false]
        exact ih'
      · simp only [if_true, List.length_cons]
        exact le_trans ih' (Nat.le_succ _)

theorem count_flip_lt (l : List Offer) (g : Offer → Offer) (p : Offer → Bool)
    (hg : ∀ o ∈ l, p (g o) = true → p o = true)
    (o₀ : Offer) (ho₀ : o₀ ∈ l) (h1 : p o₀ = true) (h2 : p (g o₀) = false) :
    ((l.map g).filter p).length + 1 ≤ (l.filter p).length := by
  induction l with
  | nil => cases ho₀
  | cons o rest ih =>
    rw [List.map_cons, List.filter_cons, List.filter_cons]
    rcases List.mem_cons.mp ho₀ with rfl | hmem
    · simp only [h1, h2, Bool.false_eq_true, if_false, if_true, List.length_cons]
      have := count_flip_le rest g p (fun o ho => hg o (List.mem_cons_of_mem _ ho))
      omega
    · have ih' := ih (fun o ho => hg o (List.mem_cons_of_mem _ ho)) hmem
      cases hpg : p (g o) with
      | true =>
        rw [hg o (List.mem_cons_self _ _) hpg]
        simp only [hpg, if_true, List.length_cons]
        omega
      | false =>
        simp only [hpg, Bool.false_eq_true, if_false]
        cases hpo : p o
        · simp only [Bool.false_eq_true, if_false]
          exact ih'
        · simp only [if_true, List.length_cons]
          omega

theorem filter_map_comm (l : List Offer) (g : Offer → Offer) (q : Offer → Bool)
    (hq : ∀ o, q (g o) = q o) :
    (l.map g).filter q = (l.filter q).map g := by
  induction l with
  | nil => rfl
  | cons o rest ih =>
    rw [List.map_cons, List.filter_cons, List.filter_cons, hq o]
    cases hqo : q o
    · simp only [Bool.false_eq_true, if_false]
      exact ih
    · simp only [if_true, List.map_cons, ih]

theorem sum_map_le_of_pointwise {α : Type} (l : List α) (f g : α → ℕ)
    (h : ∀ e ∈ l, f e ≤ g e) : (l.map f).sum ≤ (l.map g).sum := by
  induction l with
  | nil => exact le_refl 0
  | cons e rest ih =>
    rw [List.map_cons, List.map_cons, List.sum_cons, List.sum_cons]
    have h1 := h e (List.mem_cons_self _ _)
    have h2 := ih (fun x hx => h x (List.mem_cons_of_mem _ hx))
    omega

theorem sum_map_lt_of_mem {α : Type} (l : List α) (f g : α → ℕ)
    (h : ∀ e ∈ l, f e ≤ g e) (e₀ : α) (he₀ : e₀ ∈ l) (hs : f e₀ + 1 ≤ g e₀) :
    (l.map f).sum + 1 ≤ (l.map g).sum := by
  induction l with
  | nil => cases he₀
  | cons e rest ih =>
    rw [List.map_cons, List.map_cons, List.sum_cons, List.sum_cons]
    rcases List.mem_cons.mp he₀ with rfl | hmem
    · have h2 := sum_map_le_of_pointwise rest f g
        (fun x hx => h x (List.mem_cons_of_mem _ hx))
      omega
    · have h1 := h e (List.mem_cons_self _ _)
      have h2 := ih (fun x hx => h x (List.mem_cons_of_mem _ hx)) hmem
      omega

/-! Counting the pending offers through `setOfferStatus` and appends. -/

theorem pendingTotal_le_setOfferStatus (s : LMState) (oid : Nat) (st : OStatus)
    (hst : st ≠ OStatus.pending) :
    pendingTotal (setOfferStatus s oid st) ≤ pendingTotal s := by
  unfold pendingTotal setOfferStatus
  apply count_flip_le
  intro o ho hpg
  by_cases hid : o.offerId = oid
  · rw [if_pos hid] at hpg
    exact absurd (of_decide_eq_true hpg) hst
  · rwa [if_neg hid] at hpg

theorem pendingTotal_lt_setOfferStatus (s : LMState) (oid : Nat) (st : OStatus)
    (hst : st ≠ OStatus.pending) (o₀ : Offer) (ho : o₀ ∈ s.offers)
    (hid : o₀.offerId = oid) (hp : o₀.status = OStatus.pending) :
    pendingTotal (setOfferStatus s oid st) + 1 ≤ pendingTotal s := by
  unfold pendingTotal setOfferStatus
  apply count_flip_lt _ _ _ ?hg o₀ ho (decide_eq_true hp) ?h2
  case hg =>
    intro o hoo hpg
    by_cases hido : o.offerId = oid
    · rw [if_pos hido] at hpg
      exact absurd (of_decide_eq_true hpg) hst
    · rwa [if_neg hido] at hpg
  case h2 =>
    rw [if_pos hid]
    exact decide_eq_false (fun h => hst h)

theorem pendingForJob_le_setOfferStatus (s : LMState) (oid : Nat) (st : OStatus)
    (J : String) (hst : st ≠ OStatus.pending) :
    (pendingForJob (setOfferStatus s oid st) J).length ≤ (pendingForJob s J).length := by
  unfold pendingForJob offersForJob setOfferStatus
  rw [filter_map_comm _ _ _ (fun o => by by_cases hid : o.offerId = oid <;>
    simp [hid])]
  apply count_flip_le
  intro o ho hpg
  by_cases hid : o.offerId = oid
  · rw [if_pos hid] at hpg
    exact absurd (of_decide_eq_true hpg) hst
  · rwa [if_neg hid] at hpg

theorem pendingForJob_lt_setOfferStatus (s : LMState) (oid : Nat) (st : OStatus)
    (J : String) (hst : st ≠ OStatus.pending) (o₀ : Offer) (ho : o₀ ∈ s.offers)
    (hid : o₀.offerId = oid) (hp : o₀.status = OStatus.pending)
    (hj : o₀.jobId = J) :
    (pendingForJob (setOfferStatus s oid st) J).length + 1 ≤
      (pendingForJob s J).length := by
  unfold pendingForJob offersForJob setOfferStatus
  rw [filter_map_comm _ _ _ (fun o => by by_cases hido : o.offerId = oid <;>
    simp [hido])]
  apply count_flip_lt _ _ _ ?hg o₀ (List.mem_filter.mpr ⟨ho, decide_eq_true hj⟩)
    (decide_eq_true hp) ?h2
  case hg =>
    intro o hoo hpg
    by_cases hido : o.offerId = oid
    · rw [if_pos hido] at hpg
      exact absurd (of_decide_eq_true hpg) hst
    · rwa [if_neg hido] at hpg
  case h2 =>
    rw [if_pos hid]
    exact decide_eq_false (fun h => hst h)

theorem pendingTotal_append_pending (s : LMState) (o : Offer)
    (hp : o.status = OStatus.pending) (n : Nat) :
    pendingTotal { s with offers := s.offers ++ [o], nextOfferId := n } =
      pendingTotal s + 1 := by
  unfold pendingTotal
  show (List.filter _ (s.offers ++ [o])).length = _
  rw [List.filter_append]
  simp [hp]

theorem pendingForJob_append (s : LMState) (o : Offer) (n : Nat) (J : String) :
    (pendingForJob { s with offers := s.offers ++ [o], nextOfferId := n } J).length =
      (pendingForJob s J).length +
        (if o.jobId = J ∧ o.status = OStatus.pending then 1 else 0) := by
  unfold pendingForJob offersForJob
  show (List.filter _ (List.filter _ (s.offers ++ [o]))).length = _
  rw [List.filter_append, List.filter_append]
  by_cases h1 : o.jobId = J
  · by_cases h2 : o.status = OStatus.pending
    · simp [h1, h2]
    · simp [h1, h2]
  · simp [h1]

/-! Frame congruences for the labor-market measures. -/

theorem pendingTotal_congr {s s' : LMState} (h : s'.offers = s.offers) :
    pendingTotal s' = pendingTotal s := by
  unfold pendingTotal
  rw [h]

theorem pendingForJob_congr {s s' : LMState} (h : s'.offers = s.offers) (J : String) :
    pendingForJob s' J = pendingForJob s J := by
  unfold pendingForJob offersForJob
  rw [h]

theorem getJobById_congr {s s' : LMState} (h : s'.jobs = s.jobs) (J : String) :
    getJobById s' J = getJobById s J := by
  unfold getJobById
  rw [h]

theorem backupsRemaining_congr {s s' : LMState}
    (h1 : s'.backupCandidates = s.backupCandidates)
    (h2 : s'.backupCursor = s.backupCursor) :
    backupsRemaining s' = backupsRemaining s := by
  unfold backupsRemaining
  rw [h1, h2]

theorem jobsOK_congr {s s' : LMState} (hj : s'.jobs = s.jobs)
    (ho : s'.offers = s.offers) (h : JobsOK s) : JobsOK s' := by
  intro J job hlook
  rw [getJobById_congr hj] at hlook
  rw [pendingForJob_congr ho]
  exact h J job hlook

theorem agetd_aset_self [DecidableEq κ] (m : List (κ × β)) (k : κ) (v d : β) :
    agetd (aset m k v) k d = v := by
  unfold agetd
  rw [alookup_aset_self]
  rfl

theorem agetd_aset_other [DecidableEq κ] (m : List (κ × β)) (k k' : κ) (v d : β)
    (h : k ≠ k') : agetd (aset m k v) k' d = agetd m k' d := by
  unfold agetd
  rw [alookup_aset_other _ _ _ _ h]

theorem backupsRemaining_cursor_le (s : LMState) (J : String) (i' : Nat)
    (h : agetd s.backupCursor J 0 ≤ i') :
    backupsRemaining { s with backupCursor := aset s.backupCursor J i' } ≤
      backupsRemaining s := by
  unfold backupsRemaining
  apply sum_map_le_of_pointwise
  intro e he
  by_cases hk : J = e.1
  · rw [← hk]
    show e.2.length - agetd (aset s.backupCursor J i') J 0 ≤
      e.2.length - agetd s.backupCursor J 0
    rw [agetd_aset_self]
    exact Nat.sub_le_sub_left h _
  · show e.2.length - agetd (aset s.backupCursor J i') e.1 0 ≤ _
    rw [agetd_aset_other _ _ _ _ _ hk]

theorem backupsRemaining_cursor_lt (s : LMState) (J : String) (idx : Nat)
    (hcur : agetd s.backupCursor J 0 = idx)
    (hlt : idx < (agetd s.backupCandidates J []).length) :
    backupsRemaining { s with backupCursor := aset s.backupCursor J (idx + 1) } + 1 ≤
      backupsRemaining s := by
  obtain ⟨lst, hl⟩ : ∃ lst, alookup s.backupCandidates J = some lst := by
    cases hl : alookup s.backupCandidates J with
    | none =>
      unfold agetd at hlt
      rw [hl] at hlt
      cases hlt
    | some lst => exact ⟨lst, rfl⟩
  have hlst : agetd s.backupCandidates J [] = lst := by
    unfold agetd
    rw [hl]
    rfl
  rw [hlst] at hlt
  unfold backupsRemaining
  apply sum_map_lt_of_mem _ _ _ ?ptwise (J, lst) (alookup_mem hl) ?strict
  case ptwise =>
    intro e he
    by_cases hk : J = e.1
    · rw [← hk]
      show e.2.length - agetd (aset s.backupCursor J (idx + 1)) J 0 ≤
        e.2.length - agetd s.backupCursor J 0
      rw [agetd_aset_self]
      exact Nat.sub_le_sub_left (hcur ▸ Nat.le_succ idx) _
    · show e.2.length - agetd (aset s.backupCursor J (idx + 1)) e.1 0 ≤ _
      rw [agetd_aset_other _ _ _ _ _ hk]
  case strict =>
    show lst.length - agetd (aset s.backupCursor J (idx + 1)) J 0 + 1 ≤
      lst.length - agetd s.backupCursor J 0
    rw [agetd_aset_self, hcur]
    omega

/-! `_create_offer`, the backup loop and `_offer_next_backup`. -/

theorem createOffer_effects (s : LMState) (job : LMJob) (cand : Candidate)
    (month : Int) (rank : Nat) :
    (createOffer s job cand month rank).2.jobs = s.jobs ∧
    (createOffer s job cand month rank).2.backupCandidates = s.backupCandidates ∧
    (createOffer s job cand month rank).2.backupCursor = s.backupCursor ∧
    pendingTotal (createOffer s job cand month rank).2 ≤ pendingTotal s + 1 ∧
    (∀ J', (pendingForJob (createOffer s job cand month rank).2 J').length ≤
      (pendingForJob s J').length + (if job.jobId = J' then 1 else 0)) ∧
    ((createOffer s job cand month rank).1 = none →
      (createOffer s job cand month rank).2 = s) := by
  unfold createOffer
  split_ifs
  · refine ⟨rfl, rfl, rfl, Nat.le_succ _, ?_, fun _ => rfl⟩
    intro J'
    exact Nat.le_add_right _ _
  · refine ⟨rfl, rfl, rfl, ?_, ?_, fun hh => nomatch hh⟩
    · exact le_of_eq (pendingTotal_append_pending _ _ rfl _)
    · intro J'
      rw [pendingForJob_append]
      by_cases hJ : job.jobId = J'
      · rw [if_pos ⟨hJ, rfl⟩, if_pos hJ]
      · rw [if_neg (fun hc => hJ hc.1), if_neg hJ]
  · refine ⟨rfl, rfl, rfl, Nat.le_succ _, ?_, fun _ => rfl⟩
    intro J'
    exact Nat.le_add_right _ _

theorem getJobById_some_id (s : LMState) (J : String) (job : LMJob)
    (h : getJobById s J = some job) : job.jobId = J := by
  unfold getJobById at h
  have := List.find?_some h
  exact of_decide_eq_true (by simpa using this)

theorem backupLoop_measure (job : LMJob) (J : String) (month : Int) :
    ∀ (l : List Candidate) (idx : Nat) (s : LMState),
      (agetd s.backupCandidates J []).drop idx = l →
      agetd s.backupCursor J 0 = idx →
      pendingTotal (backupLoop s job J month l idx).2 +
        backupsRemaining (backupLoop s job J month l idx).2 ≤
        pendingTotal s + backupsRemaining s := by
  intro l
  induction l with
  | nil =>
    intro idx s hdrop hcur
    exact le_refl _
  | cons cand rest ih =>
    intro idx s hdrop hcur
    have hlt : idx < (agetd s.backupCandidates J []).length := by
      by_contra hge
      rw [List.drop_eq_nil_of_le (le_of_not_lt hge)] at hdrop
      cases hdrop
    have hBR := backupsRemaining_cursor_lt s J idx hcur hlt
    simp only [backupLoop]
    obtain ⟨hjobs, hcands, hcur2, hptle, hpfj, hnone⟩ :=
      createOffer_effects { s with backupCursor := aset s.backupCursor J (idx + 1) } job cand month (idx + 1)
    cases hc : (createOffer { s with backupCursor := aset s.backupCursor J (idx + 1) } job cand month (idx + 1)).1 with
    | some oid =>
      dsimp only
      have hback : backupsRemaining (createOffer { s with backupCursor := aset s.backupCursor J (idx + 1) } job cand month (idx + 1)).2 =
          backupsRemaining { s with backupCursor := aset s.backupCursor J (idx + 1) } :=
        backupsRemaining_congr hcands hcur2
      have hPT : pendingTotal { s with backupCursor := aset s.backupCursor J (idx + 1) } = pendingTotal s := rfl
      omega
    | none =>
      dsimp only
      rw [hnone hc]
      have hdrop' : (agetd ({ s with backupCursor := aset s.backupCursor J (idx + 1) } : LMState).backupCandidates J []).drop (idx + 1) = rest := by
        show (agetd s.backupCandidates J []).drop (idx + 1) = rest
        have h1 := congrArg List.tail hdrop
        rw [List.tail_drop] at h1
        simpa using h1
      have hcur' : agetd ({ s with backupCursor := aset s.backupCursor J (idx + 1) } : LMState).backupCursor J 0 = idx + 1 :=
        agetd_aset_self _ _ _ _
      have hstep := ih (idx + 1) _ hdrop' hcur'
      have hPT : pendingTotal { s with backupCursor := aset s.backupCursor J (idx + 1) } = pendingTotal s := rfl
      omega

theorem backupLoop_jobsOK (job : LMJob) (J : String) (month : Int) :
    ∀ (l : List Candidate) (idx : Nat) (s : LMState),
      JobsOK s →
      getJobById s J = some job →
      ((pendingForJob s J).length : Int) < job.positionsAvailable →
      JobsOK (backupLoop s job J month l idx).2 := by
  intro l
  induction l with
  | nil =>
    intro idx s h _ _
    exact h
  | cons cand rest ih =>
    intro idx s h hjob hpend
    simp only [backupLoop]
    obtain ⟨hjobs, hcands, hcur2, hptle, hpfj, hnone⟩ :=
      createOffer_effects { s with backupCursor := aset s.backupCursor J (idx + 1) } job cand month (idx + 1)
    cases hc : (createOffer { s with backupCursor := aset s.backupCursor J (idx + 1) } job cand month (idx + 1)).1 with
    | none =>
      dsimp only
      rw [hnone hc]
      refine ih (idx + 1) _ ?_ ?_ ?_
      · exact jobsOK_congr rfl rfl h
      · exact hjob
      · exact hpend
    | some oid =>
      dsimp only
      intro J' job' hlook'
      have hlook0 : getJobById s J' = some job' := by
        rw [getJobById_congr hjobs] at hlook'
        exact hlook'
      have hb := hpfj J'
      have hJid : job.jobId = J := getJobById_some_id s J job hjob
      have hbase : pendingForJob ({ s with backupCursor := aset s.backupCursor J (idx + 1) } : LMState) J' = pendingForJob s J' := rfl
      rw [hbase] at hb
      by_cases hJ : J = J'
      · subst hJ
        have hjj : job' = job := by
          rw [hjob] at hlook0
          exact (Option.some.inj hlook0).symm
        subst hjj
        rw [hJid, if_pos rfl] at hb
        push_cast
        omega
      · rw [hJid, if_neg hJ] at hb
        have h0 := h J' job' hlook0
        push_cast
        omega

theorem offerNextBackup_measure (s : LMState) (J : String) (month : Int) :
    pendingTotal (offerNextBackup s J month).2 +
      backupsRemaining (offerNextBackup s J month).2 ≤
      pendingTotal s + backupsRemaining s := by
  unfold offerNextBackup
  cases hj : getJobById s J with
  | none => exact le_refl _
  | some job =>
    dsimp only
    split_ifs with h1 h2
    · exact le_refl _
    · exact le_refl _
    · exact backupLoop_measure job J month _ _ s rfl rfl

theorem offerNextBackup_jobsOK (s : LMState) (J : String) (month : Int)
    (h : JobsOK s) : JobsOK (offerNextBackup s J month).2 := by
  unfold offerNextBackup
  cases hj : getJobById s J with
  | none => exact h
  | some job =>
    dsimp only
    split_ifs with h1 h2
    · exact h
    · exact h
    · exact backupLoop_jobsOK job J month _ _ s h hj (lt_of_not_ge (fun hh => h2 hh))

/-! `_reject_offer`, `_reject_other_offers`, `_accept_offer`. -/

theorem findOffer_some (s : LMState) (oid : Nat) (o : Offer)
    (h : findOffer s oid = some o) : o ∈ s.offers ∧ o.offerId = oid := by
  unfold findOffer at h
  refine ⟨List.mem_of_find?_eq_some h, ?_⟩
  have hb := List.find?_some h
  simpa using hb

theorem jobsOK_setOfferStatus (s : LMState) (oid : Nat) (st : OStatus)
    (hst : st ≠ OStatus.pending) (h : JobsOK s) : JobsOK (setOfferStatus s oid st) := by
  intro J job hlook
  have hlook' : getJobById s J = some job := hlook
  have h1 := pendingForJob_le_setOfferStatus s oid st J hst
  have h2 := h J job hlook'
  omega

theorem rejectOffer_measure (s : LMState) (oid : Nat) (tb : Bool) :
    pendingTotal (rejectOffer s oid tb).2 + backupsRemaining (rejectOffer s oid tb).2 ≤
      pendingTotal s + backupsRemaining s ∧
    ((rejectOffer s oid tb).1 = true →
      pendingTotal (rejectOffer s oid tb).2 +
        backupsRemaining (rejectOffer s oid tb).2 + 1 ≤
        pendingTotal s + backupsRemaining s) := by
  unfold rejectOffer
  cases hf : findOffer s oid with
  | none => exact ⟨le_refl _, fun h => nomatch h⟩
  | some o =>
    dsimp only
    by_cases hstat : o.status ≠ OStatus.pending
    · rw [if_pos hstat]
      exact ⟨le_refl _, fun h => nomatch h⟩
    · rw [if_neg hstat]
      obtain ⟨hmem, hid⟩ := findOffer_some s oid o hf
      have hpend : o.status = OStatus.pending := not_not.mp hstat
      have h1 := pendingTotal_lt_setOfferStatus s oid OStatus.rejected (by decide)
        o hmem hid hpend
      have hbr1 : backupsRemaining (setOfferStatus s oid OStatus.rejected) =
          backupsRemaining s := backupsRemaining_congr rfl rfl
      cases tb with
      | false =>
        rw [if_neg Bool.false_ne_true]
        dsimp only
        exact ⟨by omega, fun _ => by omega⟩
      | true =>
        rw [if_pos rfl]
        dsimp only
        have h2 := offerNextBackup_measure (setOfferStatus s oid OStatus.rejected)
          o.jobId o.month
        exact ⟨by omega, fun _ => by omega⟩

theorem rejectOffer_jobsOK (s : LMState) (oid : Nat) (tb : Bool)
    (h : JobsOK s) : JobsOK (rejectOffer s oid tb).2 := by
  unfold rejectOffer
  cases hf : findOffer s oid with
  | none => exact h
  | some o =>
    dsimp only
    by_cases hstat : o.status ≠ OStatus.pending
    · rw [if_pos hstat]
      exact h
    · rw [if_neg hstat]
      have h1 := jobsOK_setOfferStatus s oid OStatus.rejected (by decide) h
      cases tb with
      | false =>
        rw [if_neg Bool.false_ne_true]
        exact h1
      | true =>
        rw [if_pos rfl]
        dsimp only
        exact offerNextBackup_jobsOK _ _ _ h1

theorem rejectOtherOffers_fold_measure (keep : Nat) :
    ∀ (l : List Offer) (acc : Nat × LMState),
      pendingTotal (l.foldl (fun acc o =>
          if o.offerId = keep then acc
          else
            let r := rejectOffer acc.2 o.offerId true
            (if r.1 then acc.1 + 1 else acc.1, r.2)) acc).2 +
        backupsRemaining (l.foldl (fun acc o =>
          if o.offerId = keep then acc
          else
            let r := rejectOffer acc.2 o.offerId true
            (if r.1 then acc.1 + 1 else acc.1, r.2)) acc).2 ≤
        pendingTotal acc.2 + backupsRemaining acc.2 := by
  intro l
  induction l with
  | nil => intro acc; exact le_refl _
  | cons o rest ih =>
    intro acc
    rw [List.foldl_cons]
    by_cases hk : o.offerId = keep
    · rw [if_pos hk]
      exact ih acc
    · rw [if_neg hk]
      refine le_trans (ih _) ?_
      have h1 := (rejectOffer_measure acc.2 o.offerId true).1
      exact h1

theorem rejectOtherOffers_fold_jobsOK (keep : Nat) :
    ∀ (l : List Offer) (acc : Nat × LMState),
      JobsOK acc.2 →
      JobsOK (l.foldl (fun acc o =>
          if o.offerId = keep then acc
          else
            let r := rejectOffer acc.2 o.offerId true
            (if r.1 then acc.1 + 1 else acc.1, r.2)) acc).2 := by
  intro l
  induction l with
  | nil => intro acc h; exact h
  | cons o rest ih =>
    intro acc h
    rw [List.foldl_cons]
    by_cases hk : o.offerId = keep
    · rw [if_pos hk]
      exact ih acc h
    · rw [if_neg hk]
      exact ih _ (rejectOffer_jobsOK acc.2 o.offerId true h)

theorem rejectOtherOffers_measure (s : LMState) (hh lt : String) (keep : Nat) :
    pendingTotal (rejectOtherOffers s hh lt keep).2 +
      backupsRemaining (rejectOtherOffers s hh lt keep).2 ≤
      pendingTotal s + backupsRemaining s := by
  unfold rejectOtherOffers
  exact rejectOtherOffers_fold_measure keep _ (0, s)

theorem rejectOtherOffers_jobsOK (s : LMState) (hh lt : String) (keep : Nat)
    (h : JobsOK s) : JobsOK (rejectOtherOffers s hh lt keep).2 := by
  unfold rejectOtherOffers
  exact rejectOtherOffers_fold_jobsOK keep _ (0, s) h

theorem find?_updateFirstJob (f : LMJob → LMJob) (hf : ∀ j, (f j).jobId = j.jobId)
    (J : String) :
    ∀ (jobs : List LMJob) (J' : String),
      (updateFirstJob jobs J f).find? (fun j => j.jobId == J') =
        if J' = J then (jobs.find? (fun j => j.jobId == J)).map f
        else jobs.find? (fun j => j.jobId == J') := by
  intro jobs
  induction jobs with
  | nil =>
    intro J'
    show (List.find? _ []) = _
    split_ifs <;> rfl
  | cons j rest ih =>
    intro J'
    by_cases hJ' : J' = J
    · subst hJ'
      rw [if_pos rfl]
      by_cases hj : j.jobId = J'
      · simp only [updateFirstJob, if_pos hj]
        have hb1 : ((f j).jobId == J') = true := beq_iff_eq.mpr ((hf j).trans hj)
        have hb2 : (j.jobId == J') = true := beq_iff_eq.mpr hj
        simp only [List.find?_cons, hb1, hb2]
        rfl
      · simp only [updateFirstJob, if_neg hj]
        have hb2 : (j.jobId == J') = false := beq_eq_false_iff_ne.mpr hj
        simp only [List.find?_cons, hb2]
        have hrec := ih J'
        rw [if_pos rfl] at hrec
        exact hrec
    · rw [if_neg hJ']
      by_cases hj : j.jobId = J
      · simp only [updateFirstJob, if_pos hj]
        have hb1 : ((f j).jobId == J') = false :=
          beq_eq_false_iff_ne.mpr
            (fun h => hJ' (((((hf j).trans hj).symm.trans h)).symm))
        have hb2 : (j.jobId == J') = false :=
          beq_eq_false_iff_ne.mpr (fun h => hJ' ((hj.symm.trans h).symm))
        simp only [List.find?_cons, hb1, hb2]
      · simp only [updateFirstJob, if_neg hj]
        by_cases hjJ' : j.jobId = J'
        · have hb : (j.jobId == J') = true := beq_iff_eq.mpr hjJ'
          simp only [List.find?_cons, hb]
        · have hb : (j.jobId == J') = false := beq_eq_false_iff_ne.mpr hjJ'
          simp only [List.find?_cons, hb]
          have hrec := ih J'
          rw [if_neg hJ'] at hrec
          exact hrec

theorem getJobById_update (s : LMState) (J : String) (f : LMJob → LMJob)
    (hf : ∀ j, (f j).jobId = j.jobId) (J' : String) :
    getJobById { s with jobs := updateFirstJob s.jobs J f } J' =
      if J' = J then (getJobById s J).map f else getJobById s J' :=
  find?_updateFirstJob f hf J s.jobs J'

theorem accept_tail_measure {s X : LMState} (oid : Nat) (o : Offer) (hh lt : String)
    (hoffers : X.offers = s.offers)
    (hcand : X.backupCandidates = s.backupCandidates)
    (hcur : X.backupCursor = s.backupCursor)
    (hmem : o ∈ s.offers) (hid : o.offerId = oid) (hpend : o.status = OStatus.pending) :
    pendingTotal (rejectOtherOffers (setOfferStatus X oid OStatus.accepted) hh lt oid).2 +
      backupsRemaining
        (rejectOtherOffers (setOfferStatus X oid OStatus.accepted) hh lt oid).2 + 1 ≤
      pendingTotal s + backupsRemaining s := by
  have hpt : pendingTotal (setOfferStatus X oid OStatus.accepted) + 1 ≤ pendingTotal s := by
    have h1 := pendingTotal_lt_setOfferStatus X oid OStatus.accepted (by decide)
      o (hoffers ▸ hmem) hid hpend
    rwa [pendingTotal_congr hoffers] at h1
  have hbr : backupsRemaining (setOfferStatus X oid OStatus.accepted) =
      backupsRemaining s :=
    backupsRemaining_congr hcand hcur
  have hro := rejectOtherOffers_measure (setOfferStatus X oid OStatus.accepted) hh lt oid
  omega

theorem accept_tail_jobsOK {s X : LMState} (oid : Nat) (o : Offer) (job : LMJob)
    (hh lt : String)
    (hoffers : X.offers = s.offers)
    (hjobsX : ∀ J', getJobById X J' =
      if J' = o.jobId then (getJobById s o.jobId).map (fun j =>
        { j with positionsAvailable := j.positionsAvailable - 1, isValid := if j.positionsAvailable - 1 ≤ 0 then false else j.isValid })
      else getJobById s J')
    (hmem : o ∈ s.offers) (hid : o.offerId = oid) (hpend : o.status = OStatus.pending)
    (hlook : getJobById s o.jobId = some job)
    (h : JobsOK s) :
    JobsOK (rejectOtherOffers (setOfferStatus X oid OStatus.accepted) hh lt oid).2 := by
  apply rejectOtherOffers_jobsOK
  intro J' job' hlook'
  have hlX : getJobById X J' = some job' := hlook'
  rw [hjobsX J'] at hlX
  by_cases hJ : J' = o.jobId
  · rw [if_pos hJ, hlook] at hlX
    have hjob' : job' = { job with positionsAvailable := job.positionsAvailable - 1, isValid := if job.positionsAvailable - 1 ≤ 0 then false else job.isValid } := by
      simpa using hlX.symm
    have hcnt := pendingForJob_lt_setOfferStatus X oid OStatus.accepted J' (by decide)
      o (by rw [hoffers]; exact hmem) hid hpend hJ.symm
    have hpf : pendingForJob X J' = pendingForJob s J' := pendingForJob_congr hoffers _
    rw [hpf] at hcnt
    have hbase := h o.jobId job hlook
    rw [← hJ] at hbase
    rw [hjob']
    show ((pendingForJob (setOfferStatus X oid OStatus.accepted) J').length : Int) ≤
      job.positionsAvailable - 1
    omega
  · rw [if_neg hJ] at hlX
    have hcnt := pendingForJob_le_setOfferStatus X oid OStatus.accepted J' (by decide)
    have hpf : pendingForJob X J' = pendingForJob s J' := pendingForJob_congr hoffers _
    rw [hpf] at hcnt
    have hbase := h J' job' hlX
    omega

theorem acceptOffer_jobsOK (s : LMState) (oid : Nat) (h : JobsOK s) :
    JobsOK (acceptOffer s oid).2 := by
  unfold acceptOffer
  cases hf : findOffer s oid with
  | none => exact h
  | some o =>
    obtain ⟨hmem, hid⟩ := findOffer_some s oid o hf
    dsimp only
    by_cases hc1 : o.status ≠ OStatus.pending
    · rw [if_pos hc1]
      exact h
    · rw [if_neg hc1]
      have hpend : o.status = OStatus.pending := not_not.mp hc1
      by_cases hc2 : ¬ isWorkerAvailable s o.householdId o.lhType
      · rw [if_pos hc2]
        exact jobsOK_setOfferStatus s oid OStatus.rejected (by decide) h
      · rw [if_neg hc2]
        cases hj : getJobById s o.jobId with
        | none =>
          dsimp only
          exact jobsOK_setOfferStatus s oid OStatus.rejected (by decide) h
        | some job =>
          dsimp only
          by_cases hc3 : ¬ job.isValid ∨ job.positionsAvailable ≤ 0
          · rw [if_pos hc3]
            exact jobsOK_setOfferStatus s oid OStatus.rejected (by decide) h
          · rw [if_neg hc3]
            dsimp only
            split
            · refine accept_tail_jobsOK oid o job o.householdId o.lhType ?_ ?_
                hmem hid hpend hj h
              · rfl
              · intro J'
                exact getJobById_update s o.jobId (fun j => { j with positionsAvailable := j.positionsAvailable - 1, isValid := if j.positionsAvailable - 1 ≤ 0 then false else j.isValid }) (fun j => rfl) J'
            · refine accept_tail_jobsOK oid o job o.householdId o.lhType ?_ ?_
                hmem hid hpend hj h
              · rfl
              · intro J'
                exact getJobById_update s o.jobId (fun j => { j with positionsAvailable := j.positionsAvailable - 1, isValid := if j.positionsAvailable - 1 ≤ 0 then false else j.isValid }) (fun j => rfl) J'

theorem acceptOffer_measure (s : LMState) (oid : Nat) :
    pendingTotal (acceptOffer s oid).2 + backupsRemaining (acceptOffer s oid).2 ≤
      pendingTotal s + backupsRemaining s ∧
    ((acceptOffer s oid).1 = true →
      pendingTotal (acceptOffer s oid).2 + backupsRemaining (acceptOffer s oid).2 + 1 ≤
        pendingTotal s + backupsRemaining s) := by
  unfold acceptOffer
  cases hf : findOffer s oid with
  | none => exact ⟨le_refl _, fun h => nomatch h⟩
  | some o =>
    obtain ⟨hmem, hid⟩ := findOffer_some s oid o hf
    have hle := pendingTotal_le_setOfferStatus s oid OStatus.rejected (by decide)
    have hbr : backupsRemaining (setOfferStatus s oid OStatus.rejected) =
        backupsRemaining s := backupsRemaining_congr rfl rfl
    dsimp only
    by_cases hc1 : o.status ≠ OStatus.pending
    · rw [if_pos hc1]
      exact ⟨le_refl _, fun h => nomatch h⟩
    · rw [if_neg hc1]
      have hpend : o.status = OStatus.pending := not_not.mp hc1
      by_cases hc2 : ¬ isWorkerAvailable s o.householdId o.lhType
      · rw [if_pos hc2]
        dsimp only
        exact ⟨by omega, fun h => nomatch h⟩
      · rw [if_neg hc2]
        cases hj : getJobById s o.jobId with
        | none =>
          dsimp only
          exact ⟨by omega, fun h => nomatch h⟩
        | some job =>
          dsimp only
          by_cases hc3 : ¬ job.isValid ∨ job.positionsAvailable ≤ 0
          · rw [if_pos hc3]
            dsimp only
            exact ⟨by omega, fun h => nomatch h⟩
          · rw [if_neg hc3]
            dsimp only
            split
            · refine ⟨Nat.le_of_succ_le ?_, fun _ => ?_⟩ <;>
                (refine accept_tail_measure oid o o.householdId o.lhType ?_ ?_ ?_
                  hmem hid hpend <;> rfl)
            · refine ⟨Nat.le_of_succ_le ?_, fun _ => ?_⟩ <;>
                (refine accept_tail_measure oid o o.householdId o.lhType ?_ ?_ ?_
                  hmem hid hpend <;> rfl)

/-! The three phases of one resolve round. -/

theorem acceptPhase_fold (policy : String) :
    ∀ (snap : List ((String × String) × List Nat)) (acc : LMState × Nat),
      (snap.foldl (fun acc entry =>
          match selectOffer acc.1 entry.2 policy with
          | none => acc
          | some chosen =>
            let r := acceptOffer acc.1 chosen
            (r.2, if r.1 then acc.2 + 1 else acc.2)) acc).2 +
        pendingTotal (snap.foldl (fun acc entry =>
          match selectOffer acc.1 entry.2 policy with
          | none => acc
          | some chosen =>
            let r := acceptOffer acc.1 chosen
            (r.2, if r.1 then acc.2 + 1 else acc.2)) acc).1 +
        backupsRemaining (snap.foldl (fun acc entry =>
          match selectOffer acc.1 entry.2 policy with
          | none => acc
          | some chosen =>
            let r := acceptOffer acc.1 chosen
            (r.2, if r.1 then acc.2 + 1 else acc.2)) acc).1 ≤
        acc.2 + pendingTotal acc.1 + backupsRemaining acc.1 ∧
      acc.2 ≤ (snap.foldl (fun acc entry =>
          match selectOffer acc.1 entry.2 policy with
          | none => acc
          | some chosen =>
            let r := acceptOffer acc.1 chosen
            (r.2, if r.1 then acc.2 + 1 else acc.2)) acc).2 := by
  intro snap
  induction snap with
  | nil => intro acc; exact ⟨le_refl _, le_refl _⟩
  | cons entry rest ih =>
    intro acc
    simp only [List.foldl_cons]
    cases hsel : selectOffer acc.1 entry.2 policy with
    | none =>
      dsimp only
      exact ih acc
    | some chosen =>
      dsimp only
      have hstep := ih ((acceptOffer acc.1 chosen).2,
        if (acceptOffer acc.1 chosen).1 = true then acc.2 + 1 else acc.2)
      have hm := acceptOffer_measure acc.1 chosen
      cases hr : (acceptOffer acc.1 chosen).1 with
      | true =>
        rw [hr] at hstep
        rw [if_pos rfl] at hstep
        rw [if_pos rfl]
        have hm2 := hm.2 hr
        obtain ⟨hs1, hs2⟩ := hstep
        dsimp only at hs1 hs2
        exact ⟨by omega, by omega⟩
      | false =>
        rw [hr] at hstep
        rw [if_neg Bool.false_ne_true] at hstep
        rw [if_neg Bool.false_ne_true]
        have hm1 := hm.1
        obtain ⟨hs1, hs2⟩ := hstep
        dsimp only at hs1 hs2
        exact ⟨by omega, by omega⟩

theorem acceptPhase_fold_jobsOK (policy : String) :
    ∀ (snap : List ((String × String) × List Nat)) (acc : LMState × Nat),
      JobsOK acc.1 →
      JobsOK (snap.foldl (fun acc entry =>
          match selectOffer acc.1 entry.2 policy with
          | none => acc
          | some chosen =>
            let r := acceptOffer acc.1 chosen
            (r.2, if r.1 then acc.2 + 1 else acc.2)) acc).1 := by
  intro snap
  induction snap with
  | nil => intro acc h; exact h
  | cons entry rest ih =>
    intro acc h
    simp only [List.foldl_cons]
    cases hsel : selectOffer acc.1 entry.2 policy with
    | none =>
      dsimp only
      exact ih acc h
    | some chosen =>
      dsimp only
      exact ih _ (acceptOffer_jobsOK acc.1 chosen h)

theorem rejectInner_fold :
    ∀ (ids : List Nat) (acc : LMState × Nat),
      (ids.foldl (fun acc2 oid =>
          match findOffer acc2.1 oid with
          | none => acc2
          | some o =>
            if o.status = OStatus.pending then
              let r := rejectOffer acc2.1 oid true
              (r.2, if r.1 then acc2.2 + 1 else acc2.2)
            else acc2) acc).2 +
        pendingTotal (ids.foldl (fun acc2 oid =>
          match findOffer acc2.1 oid with
          | none => acc2
          | some o =>
            if o.status = OStatus.pending then
              let r := rejectOffer acc2.1 oid true
              (r.2, if r.1 then acc2.2 + 1 else acc2.2)
            else acc2) acc).1 +
        backupsRemaining (ids.foldl (fun acc2 oid =>
          match findOffer acc2.1 oid with
          | none => acc2
          | some o =>
            if o.status = OStatus.pending then
              let r := rejectOffer acc2.1 oid true
              (r.2, if r.1 then acc2.2 + 1 else acc2.2)
            else acc2) acc).1 ≤
        acc.2 + pendingTotal acc.1 + backupsRemaining acc.1 ∧
      acc.2 ≤ (ids.foldl (fun acc2 oid =>
          match findOffer acc2.1 oid with
          | none => acc2
          | some o =>
            if o.status = OStatus.pending then
              let r := rejectOffer acc2.1 oid true
              (r.2, if r.1 then acc2.2 + 1 else acc2.2)
            else acc2) acc).2 := by
  intro ids
  induction ids with
  | nil => intro acc; exact ⟨le_refl _, le_refl _⟩
  | cons oid rest ih =>
    intro acc
    simp only [List.foldl_cons]
    cases hfo : findOffer acc.1 oid with
    | none =>
      dsimp only
      exact ih acc
    | some o =>
      dsimp only
      by_cases hp : o.status = OStatus.pending
      · rw [if_pos hp]
        have hstep := ih ((rejectOffer acc.1 oid true).2,
          if (rejectOffer acc.1 oid true).1 = true then acc.2 + 1 else acc.2)
        have hm := rejectOffer_measure acc.1 oid true
        cases hr : (rejectOffer acc.1 oid true).1 with
        | true =>
          rw [hr] at hstep
          rw [if_pos rfl] at hstep
          rw [if_pos rfl]
          have hm2 := hm.2 hr
          obtain ⟨hs1, hs2⟩ := hstep
          dsimp only at hs1 hs2
          exact ⟨by omega, by omega⟩
        | false =>
          rw [hr] at hstep
          rw [if_neg Bool.false_ne_true] at hstep
          rw [if_neg Bool.false_ne_true]
          have hm1 := hm.1
          obtain ⟨hs1, hs2⟩ := hstep
          dsimp only at hs1 hs2
          exact ⟨by omega, by omega⟩
      · rw [if_neg hp]
        exact ih acc

theorem rejectInner_fold_jobsOK :
    ∀ (ids : List Nat) (acc : LMState × Nat),
      JobsOK acc.1 →
      JobsOK (ids.foldl (fun acc2 oid =>
          match findOffer acc2.1 oid with
          | none => acc2
          | some o =>
            if o.status = OStatus.pending then
              let r := rejectOffer acc2.1 oid true
              (r.2, if r.1 then acc2.2 + 1 else acc2.2)
            else acc2) acc).1 := by
  intro ids
  induction ids with
  | nil => intro acc h; exact h
  | cons oid rest ih =>
    intro acc h
    simp only [List.foldl_cons]
    cases hfo : findOffer acc.1 oid with
    | none =>
      dsimp only
      exact ih acc h
    | some o =>
      dsimp only
      by_cases hp : o.status = OStatus.pending
      · rw [if_pos hp]
        exact ih _ (rejectOffer_jobsOK acc.1 oid true h)
      · rw [if_neg hp]
        exact ih acc h

theorem rejectPhase_fold :
    ∀ (snap : List ((String × String) × List Nat)) (acc : LMState × Nat),
      (snap.foldl (fun acc entry =>
          entry.2.foldl (fun acc2 oid =>
            match findOffer acc2.1 oid with
            | none => acc2
            | some o =>
              if o.status = OStatus.pending then
                let r := rejectOffer acc2.1 oid true
                (r.2, if r.1 then acc2.2 + 1 else acc2.2)
              else acc2) acc) acc).2 +
        pendingTotal (snap.foldl (fun acc entry =>
          entry.2.foldl (fun acc2 oid =>
            match findOffer acc2.1 oid with
            | none => acc2
            | some o =>
              if o.status = OStatus.pending then
                let r := rejectOffer acc2.1 oid true
                (r.2, if r.1 then acc2.2 + 1 else acc2.2)
              else acc2) acc) acc).1 +
        backupsRemaining (snap.foldl (fun acc entry =>
          entry.2.foldl (fun acc2 oid =>
            match findOffer acc2.1 oid with
            | none => acc2
            | some o =>
              if o.status = OStatus.pending then
                let r := rejectOffer acc2.1 oid true
                (r.2, if r.1 then acc2.2 + 1 else acc2.2)
              else acc2) acc) acc).1 ≤
        acc.2 + pendingTotal acc.1 + backupsRemaining acc.1 ∧
      acc.2 ≤ (snap.foldl (fun acc entry =>
          entry.2.foldl (fun acc2 oid =>
            match findOffer acc2.1 oid with
            | none => acc2
            | some o =>
              if o.status = OStatus.pending then
                let r := rejectOffer acc2.1 oid true
                (r.2, if r.1 then acc2.2 + 1 else acc2.2)
              else acc2) acc) acc).2 := by
  intro snap
  induction snap with
  | nil => intro acc; exact ⟨le_refl _, le_refl _⟩
  | cons entry rest ih =>
    intro acc
    rw [List.foldl_cons]
    exact ⟨le_trans (ih _).1 (rejectInner_fold entry.2 acc).1,
      le_trans (rejectInner_fold entry.2 acc).2 (ih _).2⟩

theorem rejectPhase_fold_jobsOK :
    ∀ (snap : List ((String × String) × List Nat)) (acc : LMState × Nat),
      JobsOK acc.1 →
      JobsOK (snap.foldl (fun acc entry =>
          entry.2.foldl (fun acc2 oid =>
            match findOffer acc2.1 oid with
            | none => acc2
            | some o =>
              if o.status = OStatus.pending then
                let r := rejectOffer acc2.1 oid true
                (r.2, if r.1 then acc2.2 + 1 else acc2.2)
              else acc2) acc) acc).1 := by
  intro snap
  induction snap with
  | nil => intro acc h; exact h
  | cons entry rest ih =>
    intro acc h
    rw [List.foldl_cons]
    exact ih _ (rejectInner_fold_jobsOK entry.2 acc h)

theorem backfill_fold (month : Int) :
    ∀ (ids : List String) (st : LMState),
      pendingTotal (ids.foldl (fun st jobId => (offerNextBackup st jobId month).2) st) +
        backupsRemaining
          (ids.foldl (fun st jobId => (offerNextBackup st jobId month).2) st) ≤
        pendingTotal st + backupsRemaining st := by
  intro ids
  induction ids with
  | nil => intro st; exact le_refl _
  | cons jobId rest ih =>
    intro st
    simp only [List.foldl_cons]
    exact le_trans (ih _) (offerNextBackup_measure st jobId month)

theorem backfill_fold_jobsOK (month : Int) :
    ∀ (ids : List String) (st : LMState),
      JobsOK st →
      JobsOK (ids.foldl (fun st jobId => (offerNextBackup st jobId month).2) st) := by
  intro ids
  induction ids with
  | nil => intro st h; exact h
  | cons jobId rest ih =>
    intro st h
    simp only [List.foldl_cons]
    exact ih _ (offerNextBackup_jobsOK st jobId month h)

theorem acceptPhase_spec (policy : String) (snap : List ((String × String) × List Nat))
    (s : LMState) (acc : Nat) :
    (acceptPhase policy snap s acc).2 + pendingTotal (acceptPhase policy snap s acc).1 +
      backupsRemaining (acceptPhase policy snap s acc).1 ≤
      acc + pendingTotal s + backupsRemaining s ∧
    acc ≤ (acceptPhase policy snap s acc).2 :=
  acceptPhase_fold policy snap (s, acc)

theorem acceptPhase_jobsOK (policy : String) (snap : List ((String × String) × List Nat))
    (s : LMState) (acc : Nat) (h : JobsOK s) :
    JobsOK (acceptPhase policy snap s acc).1 :=
  acceptPhase_fold_jobsOK policy snap (s, acc) h

theorem rejectPhase_spec (snap : List ((String × String) × List Nat))
    (s : LMState) (rej : Nat) :
    (rejectPhase snap s rej).2 + pendingTotal (rejectPhase snap s rej).1 +
      backupsRemaining (rejectPhase snap s rej).1 ≤
      rej + pendingTotal s + backupsRemaining s ∧
    rej ≤ (rejectPhase snap s rej).2 :=
  rejectPhase_fold snap (s, rej)

theorem rejectPhase_jobsOK (snap : List ((String × String) × List Nat))
    (s : LMState) (rej : Nat) (h : JobsOK s) :
    JobsOK (rejectPhase snap s rej).1 :=
  rejectPhase_fold_jobsOK snap (s, rej) h

theorem backfillPhase_spec (s : LMState) (month : Int) :
    pendingTotal (backfillPhase s month) + backupsRemaining (backfillPhase s month) ≤
      pendingTotal s + backupsRemaining s :=
  backfill_fold month (s.backupCandidates.map Prod.fst) s

theorem backfillPhase_jobsOK (s : LMState) (month : Int) (h : JobsOK s) :
    JobsOK (backfillPhase s month) :=
  backfill_fold_jobsOK month (s.backupCandidates.map Prod.fst) s h

/-! One round and the fuelled loop. -/

theorem resolveRound_spec (s : LMState) (policy : String) (month : Int)
    (acc rej : Nat) :
    acc ≤ (resolveRound s policy month acc rej).2.1 ∧
    rej ≤ (resolveRound s policy month acc rej).2.2.1 ∧
    (resolveRound s policy month acc rej).2.1 +
      (resolveRound s policy month acc rej).2.2.1 +
      (pendingTotal (resolveRound s policy month acc rej).1 +
        backupsRemaining (resolveRound s policy month acc rej).1) ≤
      acc + rej + (pendingTotal s + backupsRemaining s) ∧
    (JobsOK s → JobsOK (resolveRound s policy month acc rej).1) := by
  simp only [resolveRound]
  split_ifs with hemp
  · exact ⟨le_refl _, le_refl _, le_refl _, fun h => h⟩
  · dsimp only
    have hA := acceptPhase_spec policy (pendingByWorker s) s acc
    have hR := rejectPhase_spec (pendingByWorker s)
      (acceptPhase policy (pendingByWorker s) s acc).1 rej
    have hB := backfillPhase_spec
      (rejectPhase (pendingByWorker s)
        (acceptPhase policy (pendingByWorker s) s acc).1 rej).1 month
    obtain ⟨hA1, hA2⟩ := hA
    obtain ⟨hR1, hR2⟩ := hR
    refine ⟨by omega, by omega, by omega, fun h => ?_⟩
    exact backfillPhase_jobsOK _ month
      (rejectPhase_jobsOK _ _ rej (acceptPhase_jobsOK policy _ s acc h))

theorem resolveLoop_spec (policy : String) (month : Int) :
    ∀ (fuel : Nat) (s : LMState) (acc rej rounds : Nat) (prev : Int),
      prev ≤ (acc + rej : Int) →
      ((pendingTotal s + backupsRemaining s : Int) + (acc + rej) - prev) + 1 ≤ fuel →
      (resolveLoop policy month fuel s acc rej rounds prev).finished = true ∧
      ((resolveLoop policy month fuel s acc rej rounds prev).rounds : Int) ≤
        (rounds : Int) +
          ((pendingTotal s + backupsRemaining s : Int) + (acc + rej) - prev) + 1 ∧
      (JobsOK s → JobsOK (resolveLoop policy month fuel s acc rej rounds prev).state) := by
  intro fuel
  induction fuel with
  | zero =>
    intro s acc rej rounds prev h1 h2
    exfalso
    omega
  | succ fuel ih =>
    intro s acc rej rounds prev h1 h2
    simp only [resolveLoop]
    obtain ⟨hr1, hr2, hr3, hr4⟩ := resolveRound_spec s policy month acc rej
    by_cases hb1 : (resolveRound s policy month acc rej).2.2.2 = true
    · rw [if_pos hb1]
      refine ⟨rfl, ?_, fun h => hr4 h⟩
      show ((rounds + 1 : Nat) : Int) ≤ _
      push_cast
      omega
    · rw [if_neg hb1]
      by_cases hb2 : ((resolveRound s policy month acc rej).2.1 +
          (resolveRound s policy month acc rej).2.2.1 : Int) = prev
      · rw [if_pos hb2]
        refine ⟨rfl, ?_, fun h => hr4 h⟩
        show ((rounds + 1 : Nat) : Int) ≤ _
        push_cast
        omega
      · rw [if_neg hb2]
        have ihs := ih (resolveRound s policy month acc rej).1
          (resolveRound s policy month acc rej).2.1
          (resolveRound s policy month acc rej).2.2.1 (rounds + 1)
          ((resolveRound s policy month acc rej).2.1 +
            (resolveRound s policy month acc rej).2.2.1 : Int)
          (by push_cast; omega)
          (by push_cast; push_cast at h2; omega)
        obtain ⟨ih1, ih2, ih3⟩ := ihs
        refine ⟨ih1, ?_, fun h => ih3 (hr4 h)⟩
        push_cast at ih2 ⊢
        omega

theorem jobsOK_empty : JobsOK lmEmpty := by
  intro J job h
  simp [getJobById, lmEmpty] at h

/-- **C8.**  `resolve_offers` always terminates: the loop reaches one of
its own two `break` statements within `pendingTotal + backupsRemaining + 2`
rounds (each round that does not break strictly increases
`accepted + rejected`, and every такой increment consumes either a pending
offer or a backup candidate), and when the per-job invariant
`pending offers ≤ positions_available` holds on entry it still holds for
every job in the state at termination (each `_create_offer` promotion is
guarded by `positions_available > pending`, and each acceptance decrements
the position count together with the pending count). -/
theorem resolve_offers_terminates (s : LMState) (month : Int) (policy : String) :
    (resolveOffers s month policy).finished = true ∧
    (resolveOffers s month policy).rounds ≤ pendingTotal s + backupsRemaining s + 2 ∧
    (JobsOK s → JobsOK (resolveOffers s month policy).state) := by
  obtain ⟨h1, h2, h3⟩ := resolveLoop_spec policy month
    (pendingTotal s + backupsRemaining s + 2) s 0 0 0 (-1)
    (by norm_num) (by push_cast; omega)
  unfold resolveOffers
  refine ⟨h1, ?_, h3⟩
  push_cast at h2
  omega

/-- Witness for C8: the empty labor market resolves immediately. -/
theorem resolve_offers_terminates_witness :
    (resolveOffers lmEmpty 1 "best_loss").finished = true ∧
    (resolveOffers lmEmpty 1 "best_loss").rounds ≤
      pendingTotal lmEmpty + backupsRemaining lmEmpty + 2 ∧
    JobsOK (resolveOffers lmEmpty 1 "best_loss").state :=
  ⟨(resolve_offers_terminates lmEmpty 1 "best_loss").1,
   (resolve_offers_terminates lmEmpty 1 "best_loss").2.1,
   (resolve_offers_terminates lmEmpty 1 "best_loss").2.2 jobsOK_empty⟩

end AgentEconomy
